import Mathlib

/-! karma8 file server: chunking, backend selection, metadata lifecycle, reconstruction.

A shallow embedding of the Go sources under `applications/server`:

* `services/service.go`: `calculatePartsSize`, `getFileParts`, `PutFile`, `GetFile`
  and the `filePartsReader`;
* `adapters/inmemory/storage.go`: the in-memory backend;
* `adapters/inmemory/storageamanager.go`: the backend registry;
* `adapters/inmemory/filemetastorage.go`: the metadata store.

Conventions of the embedding.

* Go `int` and `int64` values are mathematical integers; the arithmetic of
  `calculatePartsSize` is wrapped to 64 bits with `wrapInt64` at every operation.
* A Go `error` is a value of `Error`; a run-time panic is a value of `Fault`.
* `make([]int64, 0, cap)` in `calculatePartsSize` follows the run time of a 64-bit
  Linux target: it panics for a negative `cap` and for more than `maxAlloc` bytes,
  and the process dies when the machine cannot give the bytes; the memory that the
  machine can still give is the argument `mem` of `calculatePartsSize`.
* Backends are Go pointers: the heap maps a pointer to the backend object it
  designates, the registry holds pointers.
* Go maps are total functions into `Option`.
* An input byte stream is the list of bytes it still has to deliver; it reads
  without I/O error.
* Loops whose termination is not structural take a fuel argument and return `none`
  when the fuel runs out.
* Mutexes, logging and `context.Context` carry no data and are left out.
-/

namespace Karma8

/-! ## Basic types -/

/-- One byte of file content. -/
abbrev Byte := UInt8

/-- A Go pointer to an `inMemoryStorage` object. -/
abbrev Ptr := Nat

/-- Run-time panics of the Go program. -/
inductive Fault where
  /-- Integer division by zero. -/
  | divideByZero
  /-- The panic `makeslice: cap out of range` of `make`. -/
  | makesliceCapOutOfRange
  /-- The fatal error `runtime: out of memory`, which ends the process. -/
  | outOfMemory
  /-- Slice index out of range. -/
  | indexOutOfRange
  /-- Method call through a nil interface value. -/
  | nilDereference
deriving DecidableEq, Repr

/-- Go `error` values produced by the program. -/
inductive Error where
  /-- The sentinel `io.EOF`. -/
  | EOF
  /-- The error `not enough free space` of `UploadFilePart`. -/
  | notEnoughFreeSpace
  /-- The error `storage with URL = %s not found` of `GetStorage`. -/
  | storageNotFound (storageURL : String)
  /-- The error `file with id = %s not found` of the metadata store. -/
  | fileNotFound (id : String)
  /-- An error wrapped by `fmt.Errorf` with the verb `%w`. -/
  | wrap (msg : String) (cause : Error)
deriving DecidableEq, Repr

/-- Go `errors.Is`: the target is the error itself or is reached by unwrapping. -/
def Error.Is : Error → Error → Bool
  | .wrap msg cause, target => decide (Error.wrap msg cause = target) || Error.Is cause target
  | e, target => decide (e = target)

/-- Outcome of a call that returns a value or a Go error, or panics. -/
inductive Result (α : Type) where
  | ok (a : α)
  | error (e : Error)
  | panic (f : Fault)
deriving DecidableEq, Repr

/-! ## `domain/file.go` -/

/-- Go `domain.FilePart`. -/
structure FilePart where
  StorageURL : String
  Path : String
  ContentLength : Int
deriving DecidableEq, Repr

/-- Go `domain.FileMeta`. -/
structure FileMeta where
  Name : String
  Parts : List FilePart
  ContentLength : Int
deriving DecidableEq, Repr

/-- Go `domain.File`; `Body` is the bytes the body stream has still to deliver. -/
structure File where
  Meta : FileMeta
  Body : List Byte
deriving DecidableEq, Repr

/-! ## Machine integers -/

/-- Two's complement wrap-around of a 64-bit signed integer operation. -/
def wrapInt64 (x : Int) : Int :=
  (x + 9223372036854775808) % 18446744073709551616 - 9223372036854775808

/-- The value is representable as a Go `int64` (and as an `int` on a 64-bit target). -/
def IsInt64 (x : Int) : Prop :=
  -9223372036854775808 ≤ x ∧ x < 9223372036854775808

instance (x : Int) : Decidable (IsInt64 x) := by
  unfold IsInt64
  exact inferInstance

/-! ## Standard library readers -/

/-- Go `io.LimitedReader` over a byte stream: `R` is the unread rest of the
underlying stream, `N` the number of bytes that may still be read. -/
structure LimitedReader where
  R : List Byte
  N : Int
deriving DecidableEq, Repr

/-- Go `io.LimitReader`. -/
def LimitReader (r : List Byte) (n : Int) : LimitedReader :=
  { R := r, N := n }

/-- Go `io.ReadAll` on a `LimitedReader`: reads until the limit is used up or the
underlying stream ends; the end of the stream is not an error. Returns the data
and the reader after the call. -/
def ReadAll (l : LimitedReader) : List Byte × LimitedReader :=
  let data := l.R.take l.N.toNat
  (data, { R := l.R.drop l.N.toNat, N := l.N - data.length })

/-- Go `bytes.Reader.Read` with a buffer of `p` bytes on a reader whose unread
bytes are `s`: the bytes copied, the error, and the unread bytes afterwards. -/
def bytesReaderRead (s : List Byte) (p : Nat) : List Byte × Option Error × List Byte :=
  match s with
  | [] => ([], some Error.EOF, [])
  | _ :: _ => (s.take p, none, s.drop p)

/-! ## `adapters/inmemory/storage.go` -/

/-- Go constant `defaultFreeSpaceInBytes`: 100 MiB. -/
def defaultFreeSpaceInBytes : Int := 100 * 1024 * 1024

/-- Go `inMemoryStorage`. -/
structure inMemoryStorage where
  dataByPath : String → Option (List Byte)
  freeSpace : Int
  url : String

/-- Go `NewStorage`. -/
def NewStorage (url : String) : inMemoryStorage :=
  { url := url, dataByPath := fun _ => none, freeSpace := defaultFreeSpaceInBytes }

/-- Go `inMemoryStorage.GetStorageURL`. -/
def inMemoryStorage.GetStorageURL (m : inMemoryStorage) : String :=
  m.url

/-- Go `inMemoryStorage.UploadFilePart`: the error, the backend and the body
reader after the call. -/
def inMemoryStorage.UploadFilePart (m : inMemoryStorage) (path : String) (body : LimitedReader) :
    Option Error × inMemoryStorage × LimitedReader :=
  let (data, body1) := ReadAll body
  let dataLen : Int := data.length
  if dataLen > m.freeSpace then
    (some Error.notEnoughFreeSpace, m, body1)
  else
    (none,
      { m with
        dataByPath := Function.update m.dataByPath path (some data)
        freeSpace := m.freeSpace - dataLen },
      body1)

/-- Go `inMemoryStorage.ReadFilePart`: a reader over the blob stored at `path`
(over the nil slice when there is none); the unread bytes of that reader. -/
def inMemoryStorage.ReadFilePart (m : inMemoryStorage) (path : String) : Except Error (List Byte) :=
  .ok ((m.dataByPath path).getD [])

/-- Go `inMemoryStorage.DeleteFilePart`. -/
def inMemoryStorage.DeleteFilePart (m : inMemoryStorage) (path : String) :
    Option Error × inMemoryStorage :=
  let dataLen : Int := ((m.dataByPath path).getD []).length
  (none,
    { m with
      dataByPath := Function.update m.dataByPath path none
      freeSpace := m.freeSpace + dataLen })

/-- Go `inMemoryStorage.GetFreeSpace`. -/
def inMemoryStorage.GetFreeSpace (m : inMemoryStorage) : Except Error Int :=
  .ok m.freeSpace

/-! ## `adapters/inmemory/filemetastorage.go` -/

/-- Go `fileMeta`: a metadata record with its lifecycle flag. -/
structure fileMeta where
  meta : FileMeta
  inProgress : Bool
deriving DecidableEq, Repr

/-- Go `inMemoryFileMetaStorage`. -/
structure inMemoryFileMetaStorage where
  metaData : String → Option fileMeta

/-- Go `NewFileMetaStorage`. -/
def NewFileMetaStorage : inMemoryFileMetaStorage :=
  { metaData := fun _ => none }

/-- Go `inMemoryFileMetaStorage.StartProcessingFileMeta`. -/
def inMemoryFileMetaStorage.StartProcessingFileMeta (i : inMemoryFileMetaStorage)
    (m : FileMeta) : Option Error × inMemoryFileMetaStorage :=
  (none,
    { metaData := Function.update i.metaData m.Name (some { meta := m, inProgress := true }) })

/-- Go `inMemoryFileMetaStorage.CompleteFileMeta`. -/
def inMemoryFileMetaStorage.CompleteFileMeta (i : inMemoryFileMetaStorage) (id : String) :
    Option Error × inMemoryFileMetaStorage :=
  match i.metaData id with
  | none => (some (Error.fileNotFound id), i)
  | some m =>
    (none, { metaData := Function.update i.metaData id (some { m with inProgress := false }) })

/-- Go `inMemoryFileMetaStorage.GetFileMeta`. -/
def inMemoryFileMetaStorage.GetFileMeta (i : inMemoryFileMetaStorage) (id : String) :
    Except Error FileMeta :=
  match i.metaData id with
  | none => .error (Error.fileNotFound id)
  | some m => .ok m.meta

/-! ## `adapters/inmemory/storageamanager.go` -/

/-- Contract of the standard library `sort.Sort` as the registry uses it: the
slice is rearranged (`perm`), and when `Less` compares an integer key the result
is in ascending order of that key (`sorted`). The order of elements with equal
keys is left to the implementation (`sort.Sort` is not stable). -/
structure SortImpl where
  sort : (Ptr → Ptr → Bool) → List Ptr → List Ptr
  perm : ∀ less l, (sort less l).Perm l
  sorted : ∀ (less : Ptr → Ptr → Bool) (key : Ptr → Int) l,
    (∀ a b, less a b = decide (key a < key b)) →
    (sort less l).Pairwise (fun a b => key a ≤ key b)

/-- Insertion of `x` into an ascending list, before the first element that `x` is
less than: one outer iteration of the library insertion sort. -/
def insertAsc (less : Ptr → Ptr → Bool) (x : Ptr) : List Ptr → List Ptr
  | [] => [x]
  | y :: ys => if less x y then x :: y :: ys else y :: insertAsc less x ys

/-- The insertion sort that `sort.Sort` runs on slices of at most 12 elements. -/
def insertionSort (less : Ptr → Ptr → Bool) (l : List Ptr) : List Ptr :=
  l.foldl (fun acc x => insertAsc less x acc) []

/-- The library insertion sort, with the proof that it meets the contract. -/
def goSort : SortImpl where
  sort := insertionSort
  perm := by
    intro less l
    have hins : ∀ (x : Ptr) (acc : List Ptr), (insertAsc less x acc).Perm (x :: acc) := by
      intro x acc
      induction acc with
      | nil => exact List.Perm.refl _
      | cons y ys ih =>
        unfold insertAsc
        split
        · exact List.Perm.refl _
        · exact ((List.Perm.cons y ih).trans (List.Perm.swap x y ys))
    have hfold : ∀ (l acc : List Ptr),
        (l.foldl (fun acc x => insertAsc less x acc) acc).Perm (acc ++ l) := by
      intro l
      induction l with
      | nil => intro acc; simp
      | cons x xs ih =>
        intro acc
        simp only [List.foldl_cons]
        refine (ih (insertAsc less x acc)).trans ?_
        refine ((hins x acc).append_right xs).trans ?_
        simpa using (@List.perm_middle _ x acc xs).symm
    simpa [insertionSort] using hfold l []
  sorted := by
    intro less key l hless
    have hperm : ∀ (x : Ptr) (acc : List Ptr), (insertAsc less x acc).Perm (x :: acc) := by
      intro x acc
      induction acc with
      | nil => exact List.Perm.refl _
      | cons y ys ih =>
        unfold insertAsc
        split
        · exact List.Perm.refl _
        · exact ((List.Perm.cons y ih).trans (List.Perm.swap x y ys))
    have hins : ∀ (x : Ptr) (acc : List Ptr), acc.Pairwise (fun a b => key a ≤ key b) →
        (insertAsc less x acc).Pairwise (fun a b => key a ≤ key b) := by
      intro x acc
      induction acc with
      | nil => intro _; simp [insertAsc]
      | cons y ys ih =>
        intro hp
        have hy := (List.pairwise_cons.1 hp).1
        have hys := (List.pairwise_cons.1 hp).2
        unfold insertAsc
        by_cases hxy : key x < key y
        · simp only [hless, hxy, decide_True, if_true]
          refine List.pairwise_cons.2 ⟨?_, hp⟩
          intro z hz
          rcases List.mem_cons.1 hz with rfl | hz
          · exact le_of_lt hxy
          · exact le_trans (le_of_lt hxy) (hy z hz)
        · simp only [hless, hxy, decide_False, Bool.false_eq_true, if_false]
          refine List.pairwise_cons.2 ⟨?_, ih hys⟩
          intro z hz
          rcases List.mem_cons.1 ((hperm x ys).subset hz) with rfl | hz
          · exact not_lt.1 hxy
          · exact hy z hz
    have hfold : ∀ (l acc : List Ptr), acc.Pairwise (fun a b => key a ≤ key b) →
        (l.foldl (fun acc x => insertAsc less x acc) acc).Pairwise (fun a b => key a ≤ key b) := by
      intro l
      induction l with
      | nil => intro acc h; simpa using h
      | cons x xs ih =>
        intro acc h
        simp only [List.foldl_cons]
        exact ih _ (hins x acc h)
    exact hfold l [] List.Pairwise.nil

/-- Go `sm`, the backend registry. -/
structure sm where
  hostToStorage : String → Option Ptr
  storages : List Ptr

/-- Go `NewStorageManager`. -/
def NewStorageManager : sm :=
  { hostToStorage := fun _ => none, storages := [] }

/-- Go `storages.Less` on two backends: `GetFreeSpace` of the in-memory backend
never fails, so the comparison is that of the free-space counters. -/
def storagesLess (heap : Ptr → inMemoryStorage) (a b : Ptr) : Bool :=
  match (heap a).GetFreeSpace with
  | .error _ => false
  | .ok si =>
    match (heap b).GetFreeSpace with
    | .error _ => false
    | .ok sj => decide (si < sj)

/-- The selection loop of `GetStorages`:
`for i := storagesCount - 1; i >= storagesCount-count; i-- { result = append(result, s.storages[i]) }`.
The first argument counts the iterations that remain, `i - (storagesCount-count) + 1`. -/
def GetStoragesLoop (storages : List Ptr) : Nat → Int → List Ptr → Result (List Ptr)
  | 0, _, result => .ok result
  | iters + 1, i, result =>
    if i < 0 then .panic Fault.indexOutOfRange
    else
      match storages[i.toNat]? with
      | none => .panic Fault.indexOutOfRange
      | some st => GetStoragesLoop storages iters (i - 1) (result ++ [st])

/-- Go `sm.GetStorages`: the outcome and the registry after the call. -/
def sm.GetStorages (S : SortImpl) (heap : Ptr → inMemoryStorage) (s : sm) (count : Int) :
    Result (List Ptr) × sm :=
  let s1 : sm := { s with storages := S.sort (storagesLess heap) s.storages }
  if count < 0 then
    (.panic Fault.makesliceCapOutOfRange, s1)
  else
    let storagesCount : Int := s1.storages.length
    (GetStoragesLoop s1.storages count.toNat (storagesCount - 1) [], s1)

/-- Go `sm.GetStorage`. -/
def sm.GetStorage (s : sm) (storageURL : String) : Except Error Ptr :=
  match s.hostToStorage storageURL with
  | none => .error (Error.storageNotFound storageURL)
  | some st => .ok st

/-- Go `sm.AddStorage`. -/
def sm.AddStorage (s : sm) (storageURL : String) (st : Ptr) : Option Error × sm :=
  (none,
    { storages := s.storages ++ [st]
      hostToStorage := Function.update s.hostToStorage storageURL (some st) })

/-! ## The program state -/

/-- The objects a `service` works on: the backend objects behind their pointers,
the registry and the metadata store. -/
structure World where
  heap : Ptr → inMemoryStorage
  storageManager : sm
  fileMetaStorage : inMemoryFileMetaStorage

/-- Every backend of the working set is registered once, under its own URL: the
state that `AddStorage(url, NewStorage(url))` builds from pairwise distinct URLs. -/
structure World.Registered (w : World) : Prop where
  nodup : w.storageManager.storages.Nodup
  lookup : ∀ st ∈ w.storageManager.storages,
    w.storageManager.hostToStorage (w.heap st).GetStorageURL = some st

/-! ## `services/service.go` -/

/-- Go constant `defaultPartsNumToSplit`. -/
def defaultPartsNumToSplit : Int := 5

/-- Go constant `defaultMinChunkSizeInBytes`: 10 kB. -/
def defaultMinChunkSizeInBytes : Int := 10 * 1024

/-- Go `service`: the two numeric fields; the stores it refers to are in `World`. -/
structure service where
  partsNumToSplit : Int
  minChunkSizeInBytes : Int
deriving DecidableEq, Repr

/-- Go `NewService`. -/
def NewService : service :=
  { partsNumToSplit := defaultPartsNumToSplit
    minChunkSizeInBytes := defaultMinChunkSizeInBytes }

/-- Go `minInt64`. -/
def minInt64 (a b : Int) : Int :=
  if a < b then a else b

/-- The variables of the loop of `calculatePartsSize`. -/
structure LoopState where
  result : List Int
  remain : Int
  splitCount : Int
deriving DecidableEq, Repr

/-- One iteration of the loop of `calculatePartsSize`, entered with `remain > 0`. -/
def service.loopBody (s : service) (st : LoopState) : Except Fault LoopState :=
  if st.splitCount = 0 then
    .error Fault.divideByZero
  else
    let partSize := wrapInt64 (Int.tdiv st.remain st.splitCount)
    let partSize := if Int.tmod st.remain st.splitCount ≠ 0 then wrapInt64 (partSize + 1) else partSize
    let partSize :=
      if partSize ≤ s.minChunkSizeInBytes then minInt64 st.remain s.minChunkSizeInBytes
      else partSize
    .ok { result := st.result ++ [partSize]
          remain := wrapInt64 (st.remain - partSize)
          splitCount := wrapInt64 (st.splitCount - 1) }

/-- The loop `for remain > 0` of `calculatePartsSize`, with fuel. -/
def service.loop (s : service) : Nat → LoopState → Option (Except Fault (List Int))
  | 0, st => if st.remain > 0 then none else some (.ok st.result)
  | fuel + 1, st =>
    if st.remain > 0 then
      match s.loopBody st with
      | .error f => some (.error f)
      | .ok st1 => s.loop fuel st1
    else some (.ok st.result)

/-- The states in which the loop of `calculatePartsSize total splitCount` tests its
condition: the entry state, and the state after each iteration that was entered
with `remain > 0` and did not panic. -/
inductive service.LoopReach (s : service) (total splitCount : Int) : LoopState → Prop where
  | entry : service.LoopReach s total splitCount { result := [], remain := total, splitCount := splitCount }
  | next {st st1 : LoopState} : service.LoopReach s total splitCount st → 0 < st.remain →
      s.loopBody st = .ok st1 → service.LoopReach s total splitCount st1

/-- Go run-time constant `maxAlloc` of a 64-bit Linux target: `1 << 48` bytes. -/
def maxAlloc : Int := 281474976710656

/-- The faults of Go `make([]int64, 0, cap)` on a machine on which `mem` bytes can still
be allocated: the run time panics when `cap` is negative or when the `8 * cap` bytes
of the slice exceed `maxAlloc`, and the process dies when the machine does not have
that memory. -/
def makeInt64Slice (mem cap : Int) : Option Fault :=
  if cap < 0 ∨ 8 * cap > maxAlloc then some Fault.makesliceCapOutOfRange
  else if 8 * cap > mem then some Fault.outOfMemory
  else none

/-- Go `service.calculatePartsSize` on a machine on which `mem` bytes can still be
allocated. The loop gets `total` units of fuel: `none` means it did not finish
within that many iterations. -/
def service.calculatePartsSize (s : service) (mem : Int) (total : Int) (splitCount : Int) :
    Option (Except Fault (List Int)) :=
  match makeInt64Slice mem splitCount with
  | some f => some (.error f)
  | none => s.loop total.toNat { result := [], remain := total, splitCount := splitCount }

/-- The loop of `getFileParts` from index `i` on. -/
def getFilePartsLoop (heap : Ptr → inMemoryStorage) (storages : List Ptr) (fileMeta : FileMeta) :
    Nat → List Int → List FilePart → Except Fault (List FilePart)
  | _, [], fileParts => .ok fileParts
  | i, size :: rest, fileParts =>
    match storages[i]? with
    | none => .error Fault.indexOutOfRange
    | some st =>
      getFilePartsLoop heap storages fileMeta (i + 1) rest
        (fileParts ++
          [{ StorageURL := (heap st).GetStorageURL, Path := fileMeta.Name, ContentLength := size }])

/-- Go `service.getFileParts`. -/
def getFileParts (heap : Ptr → inMemoryStorage) (storages : List Ptr) (fileMeta : FileMeta)
    (partSizes : List Int) : Except Fault (List FilePart) :=
  getFilePartsLoop heap storages fileMeta 0 partSizes []

/-- The upload loop of `PutFile` over the parts that remain, with the unread body:
the outcome, the state and the unread body afterwards. -/
def uploadLoop : World → List FilePart → List Byte → Option Error × World × List Byte
  | w, [], body => (none, w, body)
  | w, filePart :: rest, body =>
    match w.storageManager.GetStorage filePart.StorageURL with
    | .error err => (some (Error.wrap "can't get storage error" err), w, body)
    | .ok st =>
      match (w.heap st).UploadFilePart filePart.Path (LimitReader body filePart.ContentLength) with
      | (some err, m, body1) =>
        (some (Error.wrap "can't upload file part" err),
          { w with heap := Function.update w.heap st m }, body1.R)
      | (none, m, body1) =>
        uploadLoop { w with heap := Function.update w.heap st m } rest body1.R

/-- Go `service.PutFile`: the outcome and the state after the call; `none` when
`calculatePartsSize` ran out of fuel. The machine is taken to have the memory for
the slice of `partsNumToSplit` sizes that `calculatePartsSize` makes, 8 bytes per
size, as for the other small allocations of the call. -/
def service.PutFile (S : SortImpl) (s : service) (w : World) (file : File) :
    Option (Result Unit × World) :=
  match s.calculatePartsSize (8 * s.partsNumToSplit) file.Meta.ContentLength
      s.partsNumToSplit with
  | none => none
  | some (.error f) => some (.panic f, w)
  | some (.ok partSizes) =>
    match w.storageManager.GetStorages S w.heap partSizes.length with
    | (.panic f, m1) => some (.panic f, { w with storageManager := m1 })
    | (.error err, m1) =>
      some (.error (Error.wrap "can't get storages error" err), { w with storageManager := m1 })
    | (.ok storages, m1) =>
      let w1 : World := { w with storageManager := m1 }
      match getFileParts w1.heap storages file.Meta partSizes with
      | .error f => some (.panic f, w1)
      | .ok fileParts =>
        let fileMeta : FileMeta := { file.Meta with Parts := fileParts }
        match w1.fileMetaStorage.StartProcessingFileMeta fileMeta with
        | (some err, i2) =>
          some (.error (Error.wrap "can't put starting file meta" err),
            { w1 with fileMetaStorage := i2 })
        | (none, i2) =>
          match uploadLoop { w1 with fileMetaStorage := i2 } fileParts file.Body with
          | (some err, w3, _) => some (.error err, w3)
          | (none, w3, _) =>
            match w3.fileMetaStorage.CompleteFileMeta fileMeta.Name with
            | (some err, i4) =>
              some (.error (Error.wrap "can't complete file meta" err),
                { w3 with fileMetaStorage := i4 })
            | (none, i4) => some (.ok (), { w3 with fileMetaStorage := i4 })

/-- Go `filePartsReader`: `currentPartBody` is `none` for the nil interface and
otherwise the unread bytes of the open part body. -/
structure filePartsReader where
  currentPart : Nat
  currentPartBody : Option (List Byte)
  meta : FileMeta
deriving DecidableEq, Repr

/-- Go `filePartsReader.getNextStorage`. -/
def filePartsReader.getNextStorage (w : World) (f : filePartsReader) :
    Option Error × filePartsReader :=
  match f.meta.Parts[f.currentPart]? with
  | none => (some Error.EOF, f)
  | some part =>
    match w.storageManager.GetStorage part.StorageURL with
    | .error err => (some (Error.wrap "can't get storage by URL, error" err), f)
    | .ok st =>
      match (w.heap st).ReadFilePart part.Path with
      | .error err =>
        (some (Error.wrap "can't read part from storage, error" err),
          { f with currentPartBody := none })
      | .ok body =>
        (none, { f with currentPartBody := some body, currentPart := f.currentPart + 1 })

/-- The second half of `filePartsReader.Read`, from `f.currentPartBody.Read(p)` on. -/
def filePartsReader.readBody (w : World) (f : filePartsReader) (p : Nat) :
    Except Fault (List Byte × Option Error) × filePartsReader :=
  match f.currentPartBody with
  | none => (.error Fault.nilDereference, f)
  | some body =>
    match bytesReaderRead body p with
    | (data, none, rest) => (.ok (data, none), { f with currentPartBody := some rest })
    | (data, some err, rest) =>
      let f1 : filePartsReader := { f with currentPartBody := some rest }
      if !(err.Is Error.EOF) then (.ok ([], some err), f1)
      else
        match f1.getNextStorage w with
        | (some err2, f2) => (.ok (data, some err2), f2)
        | (none, f2) => (.ok (data, none), f2)

/-- Go `filePartsReader.Read` with a buffer of `p` bytes: the bytes put into the
buffer and the error returned, and the reader after the call. -/
def filePartsReader.Read (w : World) (f : filePartsReader) (p : Nat) :
    Except Fault (List Byte × Option Error) × filePartsReader :=
  match f.currentPartBody with
  | none =>
    match f.getNextStorage w with
    | (some err, f1) => (.ok ([], some (Error.wrap "1. can't get next storage, error" err)), f1)
    | (none, f1) => f1.readBody w p
  | some _ => f.readBody w p

/-- Go `service.GetFile`: the metadata and the body reader. -/
def service.GetFile (w : World) (id : String) : Except Error (FileMeta × filePartsReader) :=
  match w.fileMetaStorage.GetFileMeta id with
  | .error err => .error (Error.wrap "can't get file metadata, error" err)
  | .ok m => .ok (m, { currentPart := 0, currentPartBody := none, meta := m })

/-- A caller that reads the stream to its end, as `io.Copy` and `io.ReadAll` do:
it calls `Read` with a buffer of `p` bytes, keeps the bytes of every call, and
stops at the first error, which is success when it is `io.EOF` itself. `none`
when the fuel runs out. -/
def readToEnd (w : World) (p : Nat) :
    Nat → filePartsReader → List Byte → Option (Result (List Byte))
  | 0, _, _ => none
  | fuel + 1, f, acc =>
    match f.Read w p with
    | (.error flt, _) => some (.panic flt)
    | (.ok (data, none), f1) => readToEnd w p fuel f1 (acc ++ data)
    | (.ok (data, some err), _) =>
      if err = Error.EOF then some (.ok (acc ++ data)) else some (.error err)

/-! ## Notions used in the statements -/

/-- The blob that the backend registered under the part's URL holds at the part's
path; empty when there is no such backend or no such blob. -/
def partContent (w : World) (part : FilePart) : List Byte :=
  match w.storageManager.hostToStorage part.StorageURL with
  | none => []
  | some st => ((w.heap st).dataByPath part.Path).getD []

/-- The reader that `GetFile` returns for the metadata `m`. -/
def newFilePartsReader (m : FileMeta) : filePartsReader :=
  { currentPart := 0, currentPartBody := none, meta := m }

/-- The chunks that the bounded reads of `PutFile` take from the body, part by part:
each part takes its declared length, or what is left of the body when that is less. -/
def bodyChunks : List FilePart → List Byte → List (List Byte)
  | [], _ => []
  | part :: rest, body =>
    body.take part.ContentLength.toNat :: bodyChunks rest (body.drop part.ContentLength.toNat)

/-- The state in which the backend `st` has stored `data` at `path` and has been debited
by its length: the effect of a successful `UploadFilePart`. -/
def World.store (w : World) (st : Ptr) (path : String) (data : List Byte) : World :=
  { w with
    heap := Function.update w.heap st
      { w.heap st with
        dataByPath := Function.update (w.heap st).dataByPath path (some data)
        freeSpace := (w.heap st).freeSpace - (data.length : Int) } }

/-- The backends that `GetStorages count` returns when `count` is within range: the
last `count` backends of the sorted working set, from the last one backwards. -/
def selectedStorages (S : SortImpl) (w : World) (count : Nat) : List Ptr :=
  ((S.sort (storagesLess w.heap) w.storageManager.storages).drop
    (w.storageManager.storages.length - count)).reverse

/-- The part list that `getFileParts` builds: the i-th size on the i-th backend, at
the path `name`. -/
def assignedParts (heap : Ptr → inMemoryStorage) (name : String) (sel : List Ptr)
    (sizes : List Int) : List FilePart :=
  List.zipWith
    (fun st size =>
      { StorageURL := (heap st).GetStorageURL, Path := name, ContentLength := size })
    sel sizes

/-- The state of `PutFile` before the first upload: the working set is sorted and the
metadata `m` is registered as in progress. -/
def World.started (S : SortImpl) (w : World) (m : FileMeta) : World :=
  { heap := w.heap
    storageManager :=
      { w.storageManager with
        storages := S.sort (storagesLess w.heap) w.storageManager.storages }
    fileMetaStorage := (w.fileMetaStorage.StartProcessingFileMeta m).2 }

/-- `GetFile id` followed by reading the returned stream to its end with buffers of `p`
bytes, as one operation on the program state: the outcome and the state after it.
`GetFileMeta`, `GetStorage`, `ReadFilePart` and `Read` assign to no field of the
metadata store, of the registry or of a backend (`Read` assigns to the reader
only), so the state after the operation is the state before it. -/
def getAndRead (w : World) (id : String) (p fuel : Nat) : Option (Result (List Byte)) × World :=
  match service.GetFile w id with
  | .error err => (some (.error err), w)
  | .ok (_, f) => (readToEnd w p fuel f [], w)

/-- One call on the registry: `AddStorage`, or `GetStorages` with the state of the
backends at the time of the call. -/
inductive RegistryOp where
  | add (storageURL : String) (st : Ptr)
  | select (heap : Ptr → inMemoryStorage) (count : Int)

/-- The registry after a sequence of calls (a `GetStorages` that panics has sorted the
working set before). -/
def runRegistryOps (S : SortImpl) : sm → List RegistryOp → sm
  | s, [] => s
  | s, RegistryOp.add storageURL st :: ops => runRegistryOps S (s.AddStorage storageURL st).2 ops
  | s, RegistryOp.select heap count :: ops => runRegistryOps S (s.GetStorages S heap count).2 ops

/-- Every `AddStorage` of the sequence registers a backend that is not yet in the
working set, under an identifier that is not yet registered. -/
def FreshOps (S : SortImpl) : sm → List RegistryOp → Prop
  | _, [] => True
  | s, RegistryOp.add storageURL st :: ops =>
    s.hostToStorage storageURL = none ∧ st ∉ s.storages ∧
      FreshOps S (s.AddStorage storageURL st).2 ops
  | s, RegistryOp.select heap count :: ops => FreshOps S (s.GetStorages S heap count).2 ops

/-- The mapping and the working set are in sync: the working set holds no backend
twice, it holds exactly the backends of the mapping, and no backend is registered
under two identifiers. -/
structure sm.InSync (s : sm) : Prop where
  nodup : s.storages.Nodup
  mapped : ∀ st ∈ s.storages, ∃ storageURL, s.hostToStorage storageURL = some st
  listed : ∀ storageURL st, s.hostToStorage storageURL = some st → st ∈ s.storages
  unique : ∀ url1 url2 st, s.hostToStorage url1 = some st → s.hostToStorage url2 = some st →
    url1 = url2

/-- The floor-clipped split of `L` in the words of the specification: `L / floor` parts
of `floor` bytes, followed by one part of `L % floor` bytes when that is not zero. -/
def floorClipped (floor L : Int) : List Int :=
  List.replicate (L / floor).toNat floor ++ (if L % floor = 0 then [] else [L % floor])

/-- The balanced split of `L` into `N` parts: the first `L % N` parts have `L / N + 1`
bytes, the other parts have `L / N` bytes. -/
def balancedSplit (L N : Int) : List Int :=
  List.replicate (L % N).toNat (L / N + 1) ++ List.replicate (N - L % N).toNat (L / N)

/-- One call on a backend: `UploadFilePart` with the body it is given, or
`DeleteFilePart`. -/
inductive StorageOp where
  | upload (path : String) (body : LimitedReader)
  | delete (path : String)
deriving DecidableEq, Repr

/-- The backend after a sequence of calls. -/
def runStorageOps : inMemoryStorage → List StorageOp → inMemoryStorage
  | m, [] => m
  | m, StorageOp.upload path body :: ops => runStorageOps (m.UploadFilePart path body).2.1 ops
  | m, StorageOp.delete path :: ops => runStorageOps (m.DeleteFilePart path).2 ops

/-- The number of bytes that the backend stores at `path` (none when there is no blob). -/
def inMemoryStorage.blobSize (m : inMemoryStorage) (path : String) : Int :=
  (((m.dataByPath path).getD []).length : Int)

/-- The total size of the blobs that the backend stores at the given paths. -/
def inMemoryStorage.storedSize (m : inMemoryStorage) (paths : List String) : Int :=
  (paths.map m.blobSize).sum

/-- Capacity accounting against the capacity `c`: the free-space counter is not negative,
and for every finite set of paths the free space plus the total size of the blobs
stored at those paths is at most `c`. -/
structure inMemoryStorage.Accounted (m : inMemoryStorage) (c : Int) : Prop where
  free_nonneg : 0 ≤ m.freeSpace
  total_le : ∀ paths : List String, paths.Nodup → m.freeSpace + m.storedSize paths ≤ c

/-! ## Example states -/

/-- A backend with the given URL and free space that stores nothing. -/
def emptyStorage (url : String) (freeSpace : Int) : inMemoryStorage :=
  { NewStorage url with freeSpace := freeSpace }

/-- Three backends registered under their URLs, with free space 100, 50 and 200. -/
def threeBackends : World :=
  let heap : Ptr → inMemoryStorage := fun st =>
    match st with
    | 0 => emptyStorage "storage_0" 100
    | 1 => emptyStorage "storage_1" 50
    | _ => emptyStorage "storage_2" 200
  let m0 := NewStorageManager
  let m1 := (m0.AddStorage "storage_0" 0).2
  let m2 := (m1.AddStorage "storage_1" 1).2
  let m3 := (m2.AddStorage "storage_2" 2).2
  { heap := heap, storageManager := m3, fileMetaStorage := NewFileMetaStorage }

/-- Metadata of a file `f` of three parts of lengths 4, 4 and 2 on the three backends. -/
def abcMeta : FileMeta :=
  { Name := "f"
    Parts := [{ StorageURL := "storage_0", Path := "f", ContentLength := 4 },
              { StorageURL := "storage_1", Path := "f", ContentLength := 4 },
              { StorageURL := "storage_2", Path := "f", ContentLength := 2 }]
    ContentLength := 10 }

/-- The three backends after the upload of the parts `abcd`, `efgh` and `ij` of `f`. -/
def abcWorld : World :=
  (uploadLoop threeBackends abcMeta.Parts [97, 98, 99, 100, 101, 102, 103, 104, 105, 106]).2.1

/-- Five fresh backends, each registered under its own URL, and an empty metadata store. -/
def fiveBackends : World :=
  let heap : Ptr → inMemoryStorage := fun st =>
    match st with
    | 0 => NewStorage "storage_0"
    | 1 => NewStorage "storage_1"
    | 2 => NewStorage "storage_2"
    | 3 => NewStorage "storage_3"
    | _ => NewStorage "storage_4"
  let m0 := NewStorageManager
  let m1 := (m0.AddStorage "storage_0" 0).2
  let m2 := (m1.AddStorage "storage_1" 1).2
  let m3 := (m2.AddStorage "storage_2" 2).2
  let m4 := (m3.AddStorage "storage_3" 3).2
  let m5 := (m4.AddStorage "storage_4" 4).2
  { heap := heap, storageManager := m5, fileMetaStorage := NewFileMetaStorage }

/-- A file `f` of three bytes with the declared length 3. -/
def smallFile : File :=
  { Meta := { Name := "f", Parts := [], ContentLength := 3 }, Body := [1, 2, 3] }

/-- A file `f` with the declared length 3 whose body holds one byte only. -/
def shortFile : File :=
  { Meta := { Name := "f", Parts := [], ContentLength := 3 }, Body := [1] }

/-- The state after `PutFile` of `smallFile` on the five fresh backends. -/
def fiveBackendsAfterPut : World :=
  match NewService.PutFile goSort fiveBackends smallFile with
  | some (_, w) => w
  | none => fiveBackends

/-- Two backends registered under their URLs, with free space 20000 and 0. -/
def tightBackends : World :=
  let heap : Ptr → inMemoryStorage := fun st =>
    match st with
    | 0 => emptyStorage "storage_0" 20000
    | _ => emptyStorage "storage_1" 0
  let m0 := NewStorageManager
  let m1 := (m0.AddStorage "storage_0" 0).2
  let m2 := (m1.AddStorage "storage_1" 1).2
  { heap := heap, storageManager := m2, fileMetaStorage := NewFileMetaStorage }

/-- A file `g` of 10241 bytes: two parts, of 10240 bytes and of 1 byte. -/
def twoPartFile : File :=
  { Meta := { Name := "g", Parts := [], ContentLength := 10241 }
    Body := List.replicate 10241 7 }

/-- A file `e` with the declared length 0 and an empty body. -/
def emptyFile : File :=
  { Meta := { Name := "e", Parts := [], ContentLength := 0 }, Body := [] }

/-- Calls on a backend: `f` is uploaded with three bytes, uploaded again with one byte,
and `g`, which was never uploaded, is deleted. -/
def overwriteOps : List StorageOp :=
  [StorageOp.upload "f" (LimitReader [1, 2, 3] 3), StorageOp.upload "f" (LimitReader [4] 1),
   StorageOp.delete "g"]

/-- A body of one byte more than 100 MiB. -/
def hugeBody : LimitedReader :=
  LimitReader (List.replicate 104857601 0) 104857601

/-- Five fresh backends with the URLs `storage_0` to `storage_4`, each registered once,
under the identifiers `id_0` to `id_4`. -/
def renamedBackends : World :=
  let m0 := NewStorageManager
  let m1 := (m0.AddStorage "id_0" 0).2
  let m2 := (m1.AddStorage "id_1" 1).2
  let m3 := (m2.AddStorage "id_2" 2).2
  let m4 := (m3.AddStorage "id_3" 3).2
  let m5 := (m4.AddStorage "id_4" 4).2
  { heap := fiveBackends.heap, storageManager := m5, fileMetaStorage := NewFileMetaStorage }

/-- Three distinct backends, each registered once under its own identifier: the first
two both report the URL `x` and are registered under `x` and `b`, the third reports
`z` and is registered under `z`. Their free space is 30000, 25000 and 0. -/
def sharedUrlBackends : World :=
  let heap : Ptr → inMemoryStorage := fun st =>
    match st with
    | 0 => emptyStorage "x" 30000
    | 1 => emptyStorage "x" 25000
    | _ => emptyStorage "z" 0
  let m0 := NewStorageManager
  let m1 := (m0.AddStorage "x" 0).2
  let m2 := (m1.AddStorage "b" 1).2
  let m3 := (m2.AddStorage "z" 2).2
  { heap := heap, storageManager := m3, fileMetaStorage := NewFileMetaStorage }

/-- A file `h` of 20481 bytes: 10240 bytes of 1, 10240 bytes of 2 and one byte 3. -/
def threePartFile : File :=
  { Meta := { Name := "h", Parts := [], ContentLength := 20481 }
    Body := List.replicate 10240 1 ++ (List.replicate 10240 2 ++ [3]) }

/-- The state after `PutFile` of `twoPartFile` on the five fresh backends. -/
def fiveBackendsAfterPutTwo : World :=
  match NewService.PutFile goSort fiveBackends twoPartFile with
  | some (_, w) => w
  | none => fiveBackends

/-! ## Theorems: the chunking engine -/

theorem wrapInt64_eq_self {x : Int} (h : IsInt64 x) : wrapInt64 x = x := by
  unfold IsInt64 at h
  unfold wrapInt64
  omega

theorem loopBody_eq (s : service) (st : LoopState) (hm : 0 < s.minChunkSizeInBytes)
    (hr : 0 < st.remain) (hr64 : st.remain < 9223372036854775808)
    (hk : 1 ≤ st.splitCount) (hk64 : st.splitCount < 9223372036854775808) :
    ∃ p : Int, s.loopBody st =
        .ok { result := st.result ++ [p], remain := st.remain - p, splitCount := st.splitCount - 1 } ∧
      1 ≤ p ∧ p ≤ st.remain ∧ (st.splitCount = 1 → p = st.remain) := by
  obtain ⟨res, r, k⟩ := st
  simp only at hr hr64 hk hk64 ⊢
  have hd : Int.tdiv r k = r / k := Int.tdiv_eq_ediv (by omega) (by omega)
  have hmod : Int.tmod r k = r % k := Int.tmod_eq_emod (by omega) (by omega)
  have hq0 : 0 ≤ r / k := Int.ediv_nonneg (by omega) (by omega)
  have hqr : r / k ≤ r := Int.ediv_le_self _ (by omega)
  have hrem0 : 0 ≤ r % k := Int.emod_nonneg _ (by omega)
  have hremk : r % k < k := Int.emod_lt_of_pos _ (by omega)
  have hsplit : k * (r / k) + r % k = r := Int.ediv_add_emod r k
  have hmul : r / k ≤ k * (r / k) := le_mul_of_one_le_left hq0 hk
  have hmul0 : r / k = 0 → k * (r / k) = 0 := fun h => by rw [h, mul_zero]
  have hone : k = 1 → k * (r / k) = r / k := fun h => by rw [h, one_mul]
  generalize k * (r / k) = m at hsplit hmul hmul0 hone
  generalize r / k = q at *
  generalize r % k = e at *
  have hk0 : k ≠ 0 := by omega
  have hwq : wrapInt64 q = q := wrapInt64_eq_self ⟨by omega, by omega⟩
  have hwk : wrapInt64 (k - 1) = k - 1 := wrapInt64_eq_self ⟨by omega, by omega⟩
  simp only [service.loopBody, hk0, if_false, hd, hmod, hwq, hwk]
  by_cases he : e = 0
  · simp only [he, ne_eq, not_true_eq_false, if_false]
    by_cases hc : q ≤ s.minChunkSizeInBytes
    · simp only [hc, if_true, minInt64]
      by_cases hlt : r < s.minChunkSizeInBytes
      · simp only [hlt, if_true]
        refine ⟨r, ?_, by omega, le_refl _, fun _ => rfl⟩
        rw [wrapInt64_eq_self ⟨by omega, by omega⟩]
      · simp only [hlt, if_false]
        refine ⟨s.minChunkSizeInBytes, ?_, by omega, by omega, fun h => ?_⟩
        · rw [wrapInt64_eq_self ⟨by omega, by omega⟩]
        · have := hone h
          omega
    · simp only [hc, if_false]
      refine ⟨q, ?_, by omega, by omega, fun h => ?_⟩
      · rw [wrapInt64_eq_self ⟨by omega, by omega⟩]
      · have := hone h
        omega
  · have hw1 : wrapInt64 (q + 1) = q + 1 := wrapInt64_eq_self ⟨by omega, by omega⟩
    simp only [he, ne_eq, not_false_eq_true, if_true, hw1]
    by_cases hc : q + 1 ≤ s.minChunkSizeInBytes
    · simp only [hc, if_true, minInt64]
      by_cases hlt : r < s.minChunkSizeInBytes
      · simp only [hlt, if_true]
        refine ⟨r, ?_, by omega, le_refl _, fun _ => rfl⟩
        rw [wrapInt64_eq_self ⟨by omega, by omega⟩]
      · simp only [hlt, if_false]
        refine ⟨s.minChunkSizeInBytes, ?_, by omega, by omega, fun h => ?_⟩
        · rw [wrapInt64_eq_self ⟨by omega, by omega⟩]
        · omega
    · simp only [hc, if_false]
      refine ⟨q + 1, ?_, by omega, by omega, fun h => ?_⟩
      · rw [wrapInt64_eq_self ⟨by omega, by omega⟩]
      · omega

theorem loop_spec (s : service) (hm : 0 < s.minChunkSizeInBytes) :
    ∀ (fuel : Nat) (st : LoopState), 0 ≤ st.remain → st.remain ≤ fuel →
      st.remain < 9223372036854775808 → 0 ≤ st.splitCount →
      (0 < st.remain → 1 ≤ st.splitCount) → st.splitCount < 9223372036854775808 →
      ∃ sizes : List Int, s.loop fuel st = some (.ok (st.result ++ sizes)) ∧
        (∀ x ∈ sizes, 0 < x) ∧ sizes.sum = st.remain ∧ (sizes.length : Int) ≤ st.splitCount := by
  intro fuel
  induction fuel with
  | zero =>
    intro st h0 hf _ hk0 _ _
    have hr : ¬ st.remain > 0 := by
      have : st.remain ≤ 0 := by exact_mod_cast hf
      omega
    refine ⟨[], ?_, by simp, ?_, by simpa using hk0⟩
    · simp [service.loop, hr]
    · have : st.remain ≤ 0 := by exact_mod_cast hf
      simp only [List.sum_nil]
      omega
  | succ fuel ih =>
    intro st h0 hf h64 hk0 hk1 hk64
    by_cases hr : st.remain > 0
    · obtain ⟨p, hbody, hp1, hpr, hlast⟩ := loopBody_eq s st hm hr h64 (hk1 hr) hk64
      have hf1 : st.remain ≤ (fuel : Int) + 1 := by exact_mod_cast hf
      obtain ⟨sizes, hloop, hpos, hsum, hlen⟩ :=
        ih { result := st.result ++ [p], remain := st.remain - p, splitCount := st.splitCount - 1 }
          (by simp only; omega) (by simp only; omega) (by simp only; omega)
          (by simp only; have := hk1 hr; omega)
          (by
            simp only
            intro hpos
            have := hk1 hr
            by_contra hcon
            have hk : st.splitCount = 1 := by omega
            have := hlast hk
            omega)
          (by simp only; omega)
      refine ⟨p :: sizes, ?_, ?_, ?_, ?_⟩
      · simp only [service.loop, hr, if_true, hbody, hloop, List.append_assoc, List.singleton_append]
      · intro x hx
        rcases List.mem_cons.1 hx with rfl | hx
        · omega
        · exact hpos x hx
      · simp only [List.sum_cons, hsum]
        simp only at hsum
        omega
      · simp only [List.length_cons, Nat.cast_add, Nat.cast_one]
        simp only at hlen
        omega
    · have hz : st.remain = 0 := by omega
      refine ⟨[], ?_, by simp, ?_, by simpa using hk0⟩
      · simp [service.loop, hr]
      · simp [hz]

theorem loopReach_inv (s : service) (hm : 0 < s.minChunkSizeInBytes) (total splitCount : Int)
    (h0 : 0 ≤ total) (h64 : total < 9223372036854775808) (hk : 1 ≤ splitCount)
    (hk64 : splitCount < 9223372036854775808) (st : LoopState)
    (hst : s.LoopReach total splitCount st) :
    0 ≤ st.remain ∧ st.remain ≤ total ∧ 0 ≤ st.splitCount ∧ st.splitCount ≤ splitCount ∧
      (0 < st.remain → 1 ≤ st.splitCount) := by
  induction hst with
  | entry => exact ⟨h0, le_refl _, by simp only; omega, le_refl _, fun _ => hk⟩
  | next hprev hr hbody ih =>
    rename_i st0 st1
    obtain ⟨i0, i1, i2, i3, i4⟩ := ih
    obtain ⟨p, hb, hp1, hpr, hlast⟩ := loopBody_eq s st0 hm hr (by omega) (i4 hr) (by omega)
    rw [hb] at hbody
    injection hbody with hbody
    subst hbody
    have := i4 hr
    refine ⟨by simp only; omega, by simp only; omega, by simp only; omega, by simp only; omega, ?_⟩
    simp only
    intro hpos
    by_contra hcon
    have hk : st0.splitCount = 1 := by omega
    have := hlast hk
    omega

theorem makeInt64Slice_ok (mem N : Int) (hN : 0 ≤ N) (hcap : 8 * N ≤ maxAlloc)
    (hmem : 8 * N ≤ mem) : makeInt64Slice mem N = none := by
  have h1 : ¬ (N < 0 ∨ 8 * N > maxAlloc) := by omega
  have h2 : ¬ (8 * N > mem) := by omega
  simp only [makeInt64Slice, h1, h2, if_false]

theorem isInt64_of_cap (N : Int) (hN : 0 ≤ N) (hcap : 8 * N ≤ maxAlloc) : IsInt64 N := by
  have hmax : maxAlloc = 281474976710656 := rfl
  exact ⟨by omega, by omega⟩

theorem calculatePartsSize_spec (mem L N : Int) (hL : 0 ≤ L) (hL64 : IsInt64 L) (hN : 1 ≤ N)
    (hcap : 8 * N ≤ maxAlloc) (hmem : 8 * N ≤ mem) :
    ∃ sizes : List Int, NewService.calculatePartsSize mem L N = some (.ok sizes) ∧
      (∀ x ∈ sizes, 0 < x) ∧ sizes.sum = L ∧ (sizes.length : Int) ≤ N := by
  have hm : 0 < NewService.minChunkSizeInBytes := by decide
  have hN64 := isInt64_of_cap N (by omega) hcap
  obtain ⟨sizes, h1, h2, h3, h4⟩ :=
    loop_spec NewService hm L.toNat { result := [], remain := L, splitCount := N }
      hL (by simp only; omega) hL64.2 (by simp only; omega) (fun _ => hN) hN64.2
  refine ⟨sizes, ?_, h2, h3, h4⟩
  simpa [service.calculatePartsSize, makeInt64Slice_ok mem N (by omega) hcap hmem] using h1

/-- Counterexample to C2 as stated: with the split count `N = 9223372036854775807` and
the total length 1, `make([]int64, 0, N)` panics, whatever memory the machine has,
and no list is returned. -/
theorem calculatePartsSize_max_split_panics :
    (0 : Int) ≤ 1 ∧ IsInt64 1 ∧ (1 : Int) ≤ 9223372036854775807 ∧
    IsInt64 9223372036854775807 ∧
    ∀ mem : Int, NewService.calculatePartsSize mem 1 9223372036854775807 =
      some (.error Fault.makesliceCapOutOfRange) := by
  refine ⟨by decide, by decide, by decide, by decide, ?_⟩
  intro mem
  have h : (9223372036854775807 : Int) < 0 ∨ 8 * 9223372036854775807 > maxAlloc :=
    Or.inr (by decide)
  simp only [service.calculatePartsSize, makeInt64Slice, h, if_true]

/-- C2, amended: for every total length `L ≥ 0` and every split count `N ≥ 1` for which
`make([]int64, 0, N)` succeeds (its `8 * N` bytes are within `maxAlloc` and within
the memory of the machine), `calculatePartsSize L N` (with the minimum-chunk floor
10240 of `NewService`) returns a list whose entries are all strictly positive and
sum exactly to `L`; the list is empty when `L = 0`. -/
theorem calculatePartsSize_positive_sum (mem L N : Int) (hL : 0 ≤ L) (hL64 : IsInt64 L)
    (hN : 1 ≤ N) (hcap : 8 * N ≤ maxAlloc) (hmem : 8 * N ≤ mem) :
    NewService.minChunkSizeInBytes = 10240 ∧
    ∃ sizes : List Int, NewService.calculatePartsSize mem L N = some (.ok sizes) ∧
      (∀ x ∈ sizes, 0 < x) ∧ sizes.sum = L ∧ (L = 0 → sizes = []) := by
  obtain ⟨sizes, h1, h2, h3, _⟩ := calculatePartsSize_spec mem L N hL hL64 hN hcap hmem
  refine ⟨by decide, sizes, h1, h2, h3, ?_⟩
  intro hzero
  cases sizes with
  | nil => rfl
  | cons x xs =>
    exfalso
    have hx : 0 < x := h2 x (List.mem_cons_self _ _)
    have hxs : 0 ≤ xs.sum := List.sum_nonneg (fun y hy => le_of_lt (h2 y (List.mem_cons_of_mem _ hy)))
    simp only [List.sum_cons] at h3
    omega

/-- Witness of the amended C2 at `L = 23000`, `N = 5` and 40 bytes of memory. -/
theorem calculatePartsSize_positive_sum_witness :
    (0 : Int) ≤ 23000 ∧ IsInt64 23000 ∧ (1 : Int) ≤ 5 ∧ (8 : Int) * 5 ≤ maxAlloc ∧
    (8 : Int) * 5 ≤ 40 ∧
    NewService.calculatePartsSize 40 23000 5 = some (.ok [10240, 10240, 2520]) ∧
    NewService.minChunkSizeInBytes = 10240 ∧
    ∃ sizes : List Int, NewService.calculatePartsSize 40 23000 5 = some (.ok sizes) ∧
      (∀ x ∈ sizes, 0 < x) ∧ sizes.sum = 23000 ∧ ((23000 : Int) = 0 → sizes = []) :=
  ⟨by decide, by decide, by decide, by decide, by decide, rfl,
    calculatePartsSize_positive_sum 40 23000 5 (by decide) (by decide) (by decide) (by decide)
      (by decide)⟩

/-- Counterexample to C3 as stated: with the split count `N = 4611686018427387904` and
the total length 0, `make([]int64, 0, N)` panics, whatever memory the machine has:
the call does not return a list. -/
theorem calculatePartsSize_large_split_no_return :
    (0 : Int) ≤ 0 ∧ (1 : Int) ≤ 4611686018427387904 ∧ IsInt64 4611686018427387904 ∧
    ∀ mem : Int, NewService.calculatePartsSize mem 0 4611686018427387904 =
      some (.error Fault.makesliceCapOutOfRange) := by
  refine ⟨by decide, by decide, by decide, ?_⟩
  intro mem
  have h : (4611686018427387904 : Int) < 0 ∨ 8 * 4611686018427387904 > maxAlloc :=
    Or.inr (by decide)
  simp only [service.calculatePartsSize, makeInt64Slice, h, if_true]

/-- C3, amended: for every `L ≥ 0` and every `N ≥ 1` for which `make([]int64, 0, N)`
succeeds (its `8 * N` bytes are within `maxAlloc` and within the memory of the
machine), `calculatePartsSize L N` terminates with a list of at most `N` parts, and
in every state in which the loop body is entered the remaining-split counter, the
divisor, is at least 1 and the iteration does not panic. -/
theorem calculatePartsSize_terminates_divisor_pos (mem L N : Int) (hL : 0 ≤ L)
    (hL64 : IsInt64 L) (hN : 1 ≤ N) (hcap : 8 * N ≤ maxAlloc) (hmem : 8 * N ≤ mem) :
    (∃ sizes : List Int, NewService.calculatePartsSize mem L N = some (.ok sizes) ∧
      (sizes.length : Int) ≤ N) ∧
    ∀ st : LoopState, NewService.LoopReach L N st → 0 < st.remain →
      1 ≤ st.splitCount ∧ ∃ st1, NewService.loopBody st = .ok st1 := by
  have hm : 0 < NewService.minChunkSizeInBytes := by decide
  have hN64 := isInt64_of_cap N (by omega) hcap
  constructor
  · obtain ⟨sizes, h1, _, _, h4⟩ := calculatePartsSize_spec mem L N hL hL64 hN hcap hmem
    exact ⟨sizes, h1, h4⟩
  · intro st hst hr
    obtain ⟨_, i1, _, i3, i4⟩ := loopReach_inv NewService hm L N hL hL64.2 hN hN64.2 st hst
    have h64 := hL64.2
    have hk64 := hN64.2
    obtain ⟨p, hb, _⟩ := loopBody_eq NewService st hm hr (by omega) (i4 hr) (by omega)
    exact ⟨i4 hr, _, hb⟩

/-- Witness of the amended C3 at `L = 100001`, `N = 5` and 40 bytes of memory. -/
theorem calculatePartsSize_terminates_divisor_pos_witness :
    (0 : Int) ≤ 100001 ∧ IsInt64 100001 ∧ (1 : Int) ≤ 5 ∧ (8 : Int) * 5 ≤ maxAlloc ∧
    (8 : Int) * 5 ≤ 40 ∧
    ((∃ sizes : List Int, NewService.calculatePartsSize 40 100001 5 = some (.ok sizes) ∧
      (sizes.length : Int) ≤ 5) ∧
    ∀ st : LoopState, NewService.LoopReach 100001 5 st → 0 < st.remain →
      1 ≤ st.splitCount ∧ ∃ st1, NewService.loopBody st = .ok st1) :=
  ⟨by decide, by decide, by decide, by decide, by decide,
    calculatePartsSize_terminates_divisor_pos 40 100001 5 (by decide) (by decide) (by decide)
      (by decide) (by decide)⟩

/-! ## Theorems: the metadata store -/

/-- C10: after `StartProcessingFileMeta m` the record under `m.Name` is in progress and
holds exactly `m`, `GetFileMeta m.Name` returns `m`, whatever was stored under that
name before, and the records under every other name are unchanged. -/
theorem StartProcessingFileMeta_registers (i : inMemoryFileMetaStorage) (m : FileMeta) :
    (i.StartProcessingFileMeta m).1 = none ∧
    (i.StartProcessingFileMeta m).2.metaData m.Name = some { meta := m, inProgress := true } ∧
    (i.StartProcessingFileMeta m).2.GetFileMeta m.Name = .ok m ∧
    ∀ id, id ≠ m.Name →
      (i.StartProcessingFileMeta m).2.metaData id = i.metaData id ∧
      (i.StartProcessingFileMeta m).2.GetFileMeta id = i.GetFileMeta id := by
  refine ⟨rfl, ?_, ?_, ?_⟩
  · simp [inMemoryFileMetaStorage.StartProcessingFileMeta]
  · simp [inMemoryFileMetaStorage.StartProcessingFileMeta, inMemoryFileMetaStorage.GetFileMeta]
  · intro id hid
    simp [inMemoryFileMetaStorage.StartProcessingFileMeta, inMemoryFileMetaStorage.GetFileMeta,
      Function.update_noteq hid]

/-! ## Theorems: the backend registry -/

theorem storagesLess_eq (heap : Ptr → inMemoryStorage) (a b : Ptr) :
    storagesLess heap a b = decide ((heap a).freeSpace < (heap b).freeSpace) := by
  simp [storagesLess, inMemoryStorage.GetFreeSpace]

theorem getStoragesLoop_ok (l : List Ptr) :
    ∀ (k j : Nat) (acc : List Ptr), k ≤ j → j ≤ l.length →
      GetStoragesLoop l k ((j : Int) - 1) acc = .ok (acc ++ ((l.take j).drop (j - k)).reverse) := by
  intro k
  induction k with
  | zero =>
    intro j acc _ _
    simp [GetStoragesLoop]
  | succ k ih =>
    intro j acc hkj hj
    obtain ⟨j, rfl⟩ : ∃ j0, j = j0 + 1 := ⟨j - 1, by omega⟩
    have hlt : j < l.length := by omega
    have hi : ¬ ((j + 1 : Nat) : Int) - 1 < 0 := by omega
    have hnat : (((j + 1 : Nat) : Int) - 1).toNat = j := by omega
    have hget : l[j]? = some l[j] := List.getElem?_eq_getElem hlt
    have hnext : ((j + 1 : Nat) : Int) - 1 - 1 = (j : Int) - 1 := by omega
    rw [GetStoragesLoop, if_neg hi, hnat, hget]
    simp only
    rw [hnext, ih j (acc ++ [l[j]]) (by omega) (by omega)]
    congr 1
    have htake : l.take (j + 1) = l.take j ++ [l[j]] := by
      rw [List.take_succ, hget]
      rfl
    have hsub : j + 1 - (k + 1) = j - k := by omega
    rw [htake, hsub, List.drop_append_of_le_length (by simp; omega)]
    simp

theorem getStoragesLoop_panic (l : List Ptr) :
    ∀ (k j : Nat) (acc : List Ptr), j < k → j ≤ l.length →
      GetStoragesLoop l k ((j : Int) - 1) acc = .panic Fault.indexOutOfRange := by
  intro k
  induction k with
  | zero => intro j acc h _; omega
  | succ k ih =>
    intro j acc hjk hj
    cases j with
    | zero => simp [GetStoragesLoop]
    | succ j =>
      have hlt : j < l.length := by omega
      have hi : ¬ ((j + 1 : Nat) : Int) - 1 < 0 := by omega
      have hnat : (((j + 1 : Nat) : Int) - 1).toNat = j := by omega
      have hget : l[j]? = some l[j] := List.getElem?_eq_getElem hlt
      have hnext : ((j + 1 : Nat) : Int) - 1 - 1 = (j : Int) - 1 := by omega
      rw [GetStoragesLoop, if_neg hi, hnat, hget]
      simp only
      rw [hnext]
      exact ih j _ (by omega) (by omega)

/-- What `GetStorages` computes for a count within range: the last `count` backends of
the sorted working set, from the last one backwards. -/
theorem GetStorages_eq (S : SortImpl) (heap : Ptr → inMemoryStorage) (s : sm) (count : Nat)
    (hc : count ≤ s.storages.length) :
    s.GetStorages S heap count =
      (.ok (((S.sort (storagesLess heap) s.storages).drop (s.storages.length - count)).reverse),
        { s with storages := S.sort (storagesLess heap) s.storages }) := by
  have hlen : (S.sort (storagesLess heap) s.storages).length = s.storages.length :=
    (S.perm _ _).length_eq
  have hneg : ¬ ((count : Int) < 0) := by omega
  simp only [sm.GetStorages, hneg, if_false, Int.toNat_ofNat, hlen]
  rw [getStoragesLoop_ok _ count s.storages.length [] hc (by omega)]
  rw [← hlen, List.take_length]
  simp

theorem GetStorages_panics_of_count_gt (S : SortImpl) (heap : Ptr → inMemoryStorage) (s : sm)
    (count : Int) (hc : (s.storages.length : Int) < count) :
    s.GetStorages S heap count =
      (.panic Fault.indexOutOfRange,
        { s with storages := S.sort (storagesLess heap) s.storages }) := by
  have hlen : (S.sort (storagesLess heap) s.storages).length = s.storages.length :=
    (S.perm _ _).length_eq
  have hneg : ¬ (count < 0) := by omega
  simp only [sm.GetStorages, hneg, if_false, hlen]
  rw [getStoragesLoop_panic _ count.toNat s.storages.length [] (by omega) (by omega)]

/-- C4: on a registry whose working set holds `n` pairwise distinct backends, for every
free-space assignment and every `count` with `0 ≤ count ≤ n`, `GetStorages count`
returns exactly `count` pairwise distinct registered backends, in non-increasing
order of free space, each with at least the free space of every backend that was
not returned. -/
theorem GetStorages_selects_most_free (S : SortImpl) (heap : Ptr → inMemoryStorage) (s : sm)
    (count : Int) (hnodup : s.storages.Nodup) (h0 : 0 ≤ count)
    (hc : count ≤ s.storages.length) :
    ∃ sel : List Ptr, (s.GetStorages S heap count).1 = .ok sel ∧
      (sel.length : Int) = count ∧ sel.Nodup ∧ (∀ st ∈ sel, st ∈ s.storages) ∧
      sel.Pairwise (fun a b => (heap b).freeSpace ≤ (heap a).freeSpace) ∧
      ∀ a ∈ sel, ∀ b ∈ s.storages, b ∉ sel → (heap b).freeSpace ≤ (heap a).freeSpace := by
  obtain ⟨c, rfl⟩ : ∃ c : Nat, count = c := ⟨count.toNat, by omega⟩
  have hc1 : c ≤ s.storages.length := by exact_mod_cast hc
  have hperm := S.perm (storagesLess heap) s.storages
  have hsorted := S.sorted (storagesLess heap) (fun p => (heap p).freeSpace) s.storages
    (storagesLess_eq heap)
  have hlen : (S.sort (storagesLess heap) s.storages).length = s.storages.length :=
    hperm.length_eq
  rw [GetStorages_eq S heap s c hc1]
  generalize S.sort (storagesLess heap) s.storages = sorted at hperm hsorted hlen
  have hsplit : sorted.take (s.storages.length - c) ++ sorted.drop (s.storages.length - c)
      = sorted := List.take_append_drop _ _
  have hnd : sorted.Nodup := hperm.nodup_iff.2 hnodup
  refine ⟨_, rfl, ?_, ?_, ?_, ?_, ?_⟩
  · simp only [List.length_reverse, List.length_drop, hlen]
    omega
  · exact List.nodup_reverse.2 (hnd.sublist (List.drop_sublist _ _))
  · intro st hst
    exact hperm.subset (List.mem_of_mem_drop (List.mem_reverse.1 hst))
  · rw [List.pairwise_reverse]
    exact hsorted.sublist (List.drop_sublist _ _)
  · intro a ha b hb hnb
    have ha1 : a ∈ sorted.drop (s.storages.length - c) := List.mem_reverse.1 ha
    have hb1 : b ∈ sorted := hperm.symm.subset hb
    rw [← hsplit] at hb1 hsorted
    rcases List.mem_append.1 hb1 with hb2 | hb2
    · exact (List.pairwise_append.1 hsorted).2.2 b hb2 a ha1
    · exact absurd (List.mem_reverse.2 hb2) hnb

/-- Witness of C4: free space 100, 50 and 200 and `count = 2` give the backend with 200
followed by the backend with 100. -/
theorem GetStorages_selects_most_free_witness :
    threeBackends.storageManager.storages.Nodup ∧ (0 : Int) ≤ 2 ∧
    (2 : Int) ≤ threeBackends.storageManager.storages.length ∧
    (threeBackends.storageManager.GetStorages goSort threeBackends.heap 2).1 = .ok [2, 0] ∧
    (threeBackends.heap 2).freeSpace = 200 ∧ (threeBackends.heap 0).freeSpace = 100 ∧
    ∃ sel : List Ptr,
      (threeBackends.storageManager.GetStorages goSort threeBackends.heap 2).1 = .ok sel ∧
      (sel.length : Int) = 2 ∧ sel.Nodup ∧
      (∀ st ∈ sel, st ∈ threeBackends.storageManager.storages) ∧
      sel.Pairwise
        (fun a b => (threeBackends.heap b).freeSpace ≤ (threeBackends.heap a).freeSpace) ∧
      ∀ a ∈ sel, ∀ b ∈ threeBackends.storageManager.storages, b ∉ sel →
        (threeBackends.heap b).freeSpace ≤ (threeBackends.heap a).freeSpace :=
  ⟨by decide, by decide, by decide, by decide, by decide, by decide,
    GetStorages_selects_most_free goSort threeBackends.heap threeBackends.storageManager 2
      (by decide) (by decide) (by decide)⟩

/-- C5: with three registered backends and `count = 4`, `GetStorages` does not return an
error: it panics with an index out of range, after it has reordered the working
set (from `[0, 1, 2]` to `[1, 0, 2]`). -/
theorem GetStorages_count_exceeds_registered :
    (threeBackends.storageManager.storages.length : Int) < 4 ∧
    (threeBackends.storageManager.GetStorages goSort threeBackends.heap 4).1 =
      .panic Fault.indexOutOfRange ∧
    threeBackends.storageManager.storages = [0, 1, 2] ∧
    (threeBackends.storageManager.GetStorages goSort threeBackends.heap 4).2.storages =
      [1, 0, 2] := by
  refine ⟨by decide, by decide, by decide, by decide⟩

/-! ## Theorems: the reconstruction reader -/

theorem getNextStorage_open (w : World) (m : FileMeta) (pre later : List FilePart)
    (part : FilePart) (body : Option (List Byte)) (hparts : m.Parts = pre ++ part :: later)
    (hres : (w.storageManager.hostToStorage part.StorageURL).isSome) :
    filePartsReader.getNextStorage w
        { currentPart := pre.length, currentPartBody := body, meta := m } =
      (none, { currentPart := pre.length + 1, currentPartBody := some (partContent w part),
               meta := m }) := by
  obtain ⟨st, hst⟩ := Option.isSome_iff_exists.1 hres
  have hget : m.Parts[pre.length]? = some part := by
    rw [hparts, List.getElem?_append_right (le_refl _)]
    simp
  simp [filePartsReader.getNextStorage, hget, sm.GetStorage, hst,
    inMemoryStorage.ReadFilePart, partContent]

theorem getNextStorage_exhausted (w : World) (m : FileMeta) (body : Option (List Byte)) :
    filePartsReader.getNextStorage w
        { currentPart := m.Parts.length, currentPartBody := body, meta := m } =
      (some Error.EOF, { currentPart := m.Parts.length, currentPartBody := body, meta := m }) := by
  simp [filePartsReader.getNextStorage]

/-- Reading to the end from a state in which a part body is open: the unread bytes of
that body come first, then the contents of the parts not yet opened. -/
theorem readToEnd_open (w : World) (m : FileMeta) (p : Nat) (hp : 1 ≤ p) :
    ∀ (later pre : List FilePart), m.Parts = pre ++ later →
      (∀ part ∈ later, (w.storageManager.hostToStorage part.StorageURL).isSome) →
      ∀ (n : Nat) (rest acc : List Byte) (fuel : Nat), rest.length ≤ n →
        rest.length + 1 + ((later.map (fun part => (partContent w part).length + 1)).sum) ≤ fuel →
        readToEnd w p fuel
            { currentPart := pre.length, currentPartBody := some rest, meta := m } acc =
          some (.ok (acc ++ rest ++ (later.map (partContent w)).flatten)) := by
  intro later
  induction later with
  | nil =>
    intro pre hparts _ n
    induction n with
    | zero =>
      intro rest acc fuel hn hfuel
      have hrest : rest = [] := List.length_eq_zero.1 (by omega)
      subst hrest
      obtain ⟨fuel, rfl⟩ : ∃ k, fuel = k + 1 := ⟨fuel - 1, by simp at hfuel; omega⟩
      have hlen : pre.length = m.Parts.length := by rw [hparts]; simp
      rw [hlen]
      simp [readToEnd, filePartsReader.Read, filePartsReader.readBody, bytesReaderRead,
        Error.Is, getNextStorage_exhausted]
    | succ n ihn =>
      intro rest acc fuel hn hfuel
      cases rest with
      | nil => exact ihn [] acc fuel (by simp) hfuel
      | cons b bs =>
        obtain ⟨fuel, rfl⟩ : ∃ k, fuel = k + 1 := ⟨fuel - 1, by simp at hfuel; omega⟩
        obtain ⟨q, rfl⟩ : ∃ q, p = q + 1 := ⟨p - 1, by omega⟩
        have hstep : readToEnd w (q + 1) (fuel + 1)
            { currentPart := pre.length, currentPartBody := some (b :: bs), meta := m } acc =
            readToEnd w (q + 1) fuel
              { currentPart := pre.length, currentPartBody := some (bs.drop q), meta := m }
              (acc ++ b :: bs.take q) := by
          simp [readToEnd, filePartsReader.Read, filePartsReader.readBody, bytesReaderRead]
        rw [hstep, ihn (bs.drop q) _ fuel (by simp at hn ⊢; omega)
          (by simp at hfuel ⊢; omega)]
        simp
  | cons part later ih =>
    intro pre hparts hres n
    induction n with
    | zero =>
      intro rest acc fuel hn hfuel
      have hrest : rest = [] := List.length_eq_zero.1 (by omega)
      subst hrest
      obtain ⟨fuel, rfl⟩ : ∃ k, fuel = k + 1 := ⟨fuel - 1, by simp at hfuel; omega⟩
      have hopen := getNextStorage_open w m pre later part (some []) hparts
        (hres part (List.mem_cons_self _ _))
      have hstep : readToEnd w p (fuel + 1)
          { currentPart := pre.length, currentPartBody := some [], meta := m } acc =
          readToEnd w p fuel
            { currentPart := (pre ++ [part]).length,
              currentPartBody := some (partContent w part), meta := m } acc := by
        simp [readToEnd, filePartsReader.Read, filePartsReader.readBody, bytesReaderRead,
          Error.Is, hopen]
      rw [hstep, ih (pre ++ [part]) (by simp [hparts])
        (fun x hx => hres x (List.mem_cons_of_mem _ hx)) (partContent w part).length
        (partContent w part) acc fuel (le_refl _) (by simp at hfuel ⊢; omega)]
      simp
    | succ n ihn =>
      intro rest acc fuel hn hfuel
      cases rest with
      | nil => exact ihn [] acc fuel (by simp) hfuel
      | cons b bs =>
        obtain ⟨fuel, rfl⟩ : ∃ k, fuel = k + 1 := ⟨fuel - 1, by simp at hfuel; omega⟩
        obtain ⟨q, rfl⟩ : ∃ q, p = q + 1 := ⟨p - 1, by omega⟩
        have hstep : readToEnd w (q + 1) (fuel + 1)
            { currentPart := pre.length, currentPartBody := some (b :: bs), meta := m } acc =
            readToEnd w (q + 1) fuel
              { currentPart := pre.length, currentPartBody := some (bs.drop q), meta := m }
              (acc ++ b :: bs.take q) := by
          simp [readToEnd, filePartsReader.Read, filePartsReader.readBody, bytesReaderRead]
        rw [hstep, ihn (bs.drop q) _ fuel (by simp at hn ⊢; omega)
          (by simp at hfuel ⊢; omega)]
        simp

theorem readToEnd_start (w : World) (m : FileMeta) (p fuel : Nat) (acc : List Byte)
    (part : FilePart) (later : List FilePart) (hparts : m.Parts = part :: later)
    (hres : (w.storageManager.hostToStorage part.StorageURL).isSome) :
    readToEnd w p fuel (newFilePartsReader m) acc =
      readToEnd w p fuel
        { currentPart := 1, currentPartBody := some (partContent w part), meta := m } acc := by
  have hopen := getNextStorage_open w m [] later part none (by simpa using hparts) hres
  simp only [List.length_nil, zero_add] at hopen
  cases fuel with
  | zero => rfl
  | succ fuel =>
    simp only [readToEnd, newFilePartsReader, filePartsReader.Read, hopen]

/-- C6: for every non-empty part list whose parts all sit on registered backends and
every read-buffer size `p ≥ 1`, calling `filePartsReader.Read` with a buffer of `p`
bytes until it returns `io.EOF` ends within as many calls as there are bytes and
parts, and delivers the concatenation, in part order, of the blobs that the
backends hold at the parts' paths. -/
theorem filePartsReader_reads_concatenation (w : World) (m : FileMeta) (p fuel : Nat)
    (hne : m.Parts ≠ []) (hp : 1 ≤ p)
    (hres : ∀ part ∈ m.Parts, (w.storageManager.hostToStorage part.StorageURL).isSome)
    (hfuel : (m.Parts.map (fun part => (partContent w part).length + 1)).sum ≤ fuel) :
    readToEnd w p fuel (newFilePartsReader m) [] =
      some (.ok ((m.Parts.map (partContent w)).flatten)) := by
  obtain ⟨part, later, hparts⟩ := List.exists_cons_of_ne_nil hne
  rw [hparts] at hres hfuel
  rw [readToEnd_start w m p fuel [] part later hparts (hres part (List.mem_cons_self _ _))]
  have h := readToEnd_open w m p hp later [part] (by simpa using hparts)
    (fun x hx => hres x (List.mem_cons_of_mem _ hx)) (partContent w part).length
    (partContent w part) [] fuel (le_refl _) (by simp at hfuel ⊢; omega)
  simp only [List.length_singleton] at h
  rw [h, hparts]
  simp

/-- Witness of C6: the blobs `abcd`, `efgh` and `ij` read with a buffer of one byte give
`abcdefghij`. -/
theorem filePartsReader_reads_concatenation_witness :
    abcMeta.Parts ≠ [] ∧ 1 ≤ 1 ∧
    (∀ part ∈ abcMeta.Parts,
      (abcWorld.storageManager.hostToStorage part.StorageURL).isSome) ∧
    (abcMeta.Parts.map (fun part => (partContent abcWorld part).length + 1)).sum ≤ 13 ∧
    abcMeta.Parts.map (partContent abcWorld) =
      [[97, 98, 99, 100], [101, 102, 103, 104], [105, 106]] ∧
    readToEnd abcWorld 1 13 (newFilePartsReader abcMeta) [] =
      some (.ok [97, 98, 99, 100, 101, 102, 103, 104, 105, 106]) ∧
    readToEnd abcWorld 1 13 (newFilePartsReader abcMeta) [] =
      some (.ok ((abcMeta.Parts.map (partContent abcWorld)).flatten)) :=
  ⟨by decide, by decide, by decide, by decide, by decide, by decide,
    filePartsReader_reads_concatenation abcWorld abcMeta 1 13 (by decide) (by decide)
      (by decide) (by decide)⟩

/-! ## Theorems: the write path -/

theorem store_heap_same (w : World) (st : Ptr) (path : String) (data : List Byte) :
    (w.store st path data).heap st =
      { w.heap st with
        dataByPath := Function.update (w.heap st).dataByPath path (some data)
        freeSpace := (w.heap st).freeSpace - (data.length : Int) } := by
  simp [World.store]

theorem store_heap_other (w : World) (st st1 : Ptr) (path : String) (data : List Byte)
    (h : st1 ≠ st) : (w.store st path data).heap st1 = w.heap st1 := by
  simp [World.store, Function.update_noteq h]

theorem uploadLoop_nil (w : World) (body : List Byte) : uploadLoop w [] body = (none, w, body) := rfl

theorem uploadLoop_cons_notFound (w : World) (part : FilePart) (rest : List FilePart)
    (body : List Byte) (h : w.storageManager.hostToStorage part.StorageURL = none) :
    uploadLoop w (part :: rest) body =
      (some (Error.wrap "can't get storage error" (Error.storageNotFound part.StorageURL)),
        w, body) := by
  simp [uploadLoop, sm.GetStorage, h]

theorem uploadLoop_cons_full (w : World) (part : FilePart) (rest : List FilePart)
    (body : List Byte) (st : Ptr) (h : w.storageManager.hostToStorage part.StorageURL = some st)
    (hfull : (w.heap st).freeSpace < ((body.take part.ContentLength.toNat).length : Int)) :
    uploadLoop w (part :: rest) body =
      (some (Error.wrap "can't upload file part" Error.notEnoughFreeSpace),
        w, body.drop part.ContentLength.toNat) := by
  have hupd : Function.update w.heap st (w.heap st) = w.heap := Function.update_eq_self _ _
  simp only [uploadLoop, sm.GetStorage, h, inMemoryStorage.UploadFilePart, ReadAll, LimitReader,
    gt_iff_lt, hfull, if_true, hupd]

theorem uploadLoop_cons_fits (w : World) (part : FilePart) (rest : List FilePart)
    (body : List Byte) (st : Ptr) (h : w.storageManager.hostToStorage part.StorageURL = some st)
    (hfits : ((body.take part.ContentLength.toNat).length : Int) ≤ (w.heap st).freeSpace) :
    uploadLoop w (part :: rest) body =
      uploadLoop (w.store st part.Path (body.take part.ContentLength.toNat))
        rest (body.drop part.ContentLength.toNat) := by
  have hnot : ¬ (w.heap st).freeSpace < ((body.take part.ContentLength.toNat).length : Int) :=
    not_lt.2 hfits
  simp only [uploadLoop, sm.GetStorage, h, inMemoryStorage.UploadFilePart, ReadAll, LimitReader,
    gt_iff_lt, hnot, if_false, World.store]

/-- The upload loop touches neither the registry nor the metadata store nor the URL of
a backend. -/
theorem uploadLoop_frame : ∀ (parts : List FilePart) (w : World) (body : List Byte),
    (uploadLoop w parts body).2.1.storageManager = w.storageManager ∧
    (uploadLoop w parts body).2.1.fileMetaStorage = w.fileMetaStorage := by
  intro parts
  induction parts with
  | nil => intro w body; exact ⟨rfl, rfl⟩
  | cons part rest ih =>
    intro w body
    cases hl : w.storageManager.hostToStorage part.StorageURL with
    | none => rw [uploadLoop_cons_notFound w part rest body hl]; exact ⟨rfl, rfl⟩
    | some st =>
      by_cases hfits : ((body.take part.ContentLength.toNat).length : Int) ≤ (w.heap st).freeSpace
      · rw [uploadLoop_cons_fits w part rest body st hl hfits]
        exact ih _ _
      · rw [uploadLoop_cons_full w part rest body st hl (not_le.1 hfits)]
        exact ⟨rfl, rfl⟩

theorem bodyChunks_length_le : ∀ (parts : List FilePart) (body : List Byte),
    ∀ c ∈ bodyChunks parts body, c.length ≤ body.length := by
  intro parts
  induction parts with
  | nil => intro body c hc; simp [bodyChunks] at hc
  | cons part rest ih =>
    intro body c hc
    simp only [bodyChunks, List.mem_cons] at hc
    rcases hc with rfl | hc
    · simp
    · have := ih _ c hc
      simp at this
      omega

theorem bodyChunks_length : ∀ (parts : List FilePart) (body : List Byte),
    (bodyChunks parts body).length = parts.length := by
  intro parts
  induction parts with
  | nil => intro body; rfl
  | cons part rest ih => intro body; simp [bodyChunks, ih]

/-- The upload loop over parts that sit on pairwise distinct registered backends: when
it succeeds, every chunk fitted into the free space of its backend, every backend
holds its chunk at the part's path and was debited by the chunk's length, and no
other backend changed. -/
theorem uploadLoop_ok : ∀ (parts : List FilePart) (sel : List Ptr) (w : World)
    (body : List Byte),
    List.Forall₂ (fun part st => w.storageManager.hostToStorage part.StorageURL = some st)
      parts sel →
    sel.Nodup → ∀ (w1 : World) (body1 : List Byte), uploadLoop w parts body = (none, w1, body1) →
    (∀ x ∈ List.zip sel (bodyChunks parts body), (x.2.length : Int) ≤ (w.heap x.1).freeSpace) ∧
    parts.map (partContent w1) = bodyChunks parts body ∧
    (∀ x ∈ List.zip sel (bodyChunks parts body),
      (w1.heap x.1).freeSpace = (w.heap x.1).freeSpace - (x.2.length : Int)) ∧
    (∀ st, st ∉ sel → w1.heap st = w.heap st) := by
  intro parts
  induction parts with
  | nil =>
    intro sel w body hF _ w1 body1 hrun
    cases hF
    rw [uploadLoop_nil] at hrun
    obtain ⟨-, rfl, -⟩ := Prod.mk.inj hrun |>.imp id Prod.mk.inj
    simp [bodyChunks]
  | cons part rest ih =>
    intro sel w body hF hnd w1 body1 hrun
    cases hF with
    | cons hl hF =>
      rename_i st sel
      have hst : st ∉ sel := (List.nodup_cons.1 hnd).1
      by_cases hfits : ((body.take part.ContentLength.toNat).length : Int) ≤ (w.heap st).freeSpace
      · rw [uploadLoop_cons_fits w part rest body st hl hfits] at hrun
        obtain ⟨h1, h2, h3, h4⟩ := ih sel (w.store st part.Path (body.take part.ContentLength.toNat))
          _ hF (List.nodup_cons.1 hnd).2 w1 body1 hrun
        have hsm := (uploadLoop_frame rest
          (w.store st part.Path (body.take part.ContentLength.toNat))
          (body.drop part.ContentLength.toNat)).1
        rw [hrun] at hsm
        replace hsm : w1.storageManager = w.storageManager := hsm
        have hne : ∀ x ∈ List.zip sel (bodyChunks rest (body.drop part.ContentLength.toNat)),
            x.1 ≠ st := by
          intro x hx heq
          exact hst (heq ▸ (List.of_mem_zip hx).1)
        refine ⟨?_, ?_, ?_, ?_⟩
        · intro x hx
          simp only [bodyChunks, List.zip_cons_cons, List.mem_cons] at hx
          rcases hx with rfl | hx
          · exact hfits
          · have := h1 x hx
            simpa [store_heap_other w st x.1 _ _ (hne x hx)] using this
        · simp only [List.map_cons, bodyChunks, h2, List.cons.injEq, and_true]
          have hw1 := h4 st hst
          rw [store_heap_same] at hw1
          simp [partContent, hsm, hl, hw1]
        · intro x hx
          simp only [bodyChunks, List.zip_cons_cons, List.mem_cons] at hx
          rcases hx with rfl | hx
          · have hw1 := h4 st hst
            rw [store_heap_same] at hw1
            simp [hw1]
          · have := h3 x hx
            simpa [store_heap_other w st x.1 _ _ (hne x hx)] using this
        · intro st1 hst1
          have hne1 : st1 ≠ st := fun h => hst1 (h ▸ List.mem_cons_self _ _)
          have := h4 st1 (fun h => hst1 (List.mem_cons_of_mem _ h))
          simpa [store_heap_other w st st1 _ _ hne1] using this
      · rw [uploadLoop_cons_full w part rest body st hl (not_le.1 hfits)] at hrun
        simp at hrun

/-- The upload loop succeeds when every chunk fits into the free space of its backend. -/
theorem uploadLoop_succeeds : ∀ (parts : List FilePart) (sel : List Ptr) (w : World)
    (body : List Byte),
    List.Forall₂ (fun part st => w.storageManager.hostToStorage part.StorageURL = some st)
      parts sel →
    sel.Nodup →
    (∀ x ∈ List.zip sel (bodyChunks parts body), (x.2.length : Int) ≤ (w.heap x.1).freeSpace) →
    ∃ (w1 : World) (body1 : List Byte), uploadLoop w parts body = (none, w1, body1) := by
  intro parts
  induction parts with
  | nil => intro sel w body _ _ _; exact ⟨w, body, rfl⟩
  | cons part rest ih =>
    intro sel w body hF hnd hfit
    cases hF with
    | cons hl hF =>
      rename_i st sel
      have hst : st ∉ sel := (List.nodup_cons.1 hnd).1
      have hfits : ((body.take part.ContentLength.toNat).length : Int) ≤ (w.heap st).freeSpace :=
        hfit (st, body.take part.ContentLength.toNat) (by simp [bodyChunks])
      rw [uploadLoop_cons_fits w part rest body st hl hfits]
      refine ih sel (w.store st part.Path (body.take part.ContentLength.toNat)) _ hF
        (List.nodup_cons.1 hnd).2 ?_
      intro x hx
      have hne : x.1 ≠ st := fun heq => hst (heq ▸ (List.of_mem_zip hx).1)
      have := hfit x (by simp [bodyChunks, hx])
      simpa [store_heap_other w st x.1 _ _ hne] using this

theorem getFilePartsLoop_eq (heap : Ptr → inMemoryStorage) (sel : List Ptr) (fileMeta : FileMeta) :
    ∀ (sizes : List Int) (i : Nat) (acc : List FilePart), i + sizes.length ≤ sel.length →
      getFilePartsLoop heap sel fileMeta i sizes acc =
        .ok (acc ++ assignedParts heap fileMeta.Name (sel.drop i) sizes) := by
  intro sizes
  induction sizes with
  | nil => intro i acc _; simp [getFilePartsLoop, assignedParts]
  | cons size rest ih =>
    intro i acc hlen
    have hi : i < sel.length := by simp at hlen; omega
    have hget : sel[i]? = some sel[i] := List.getElem?_eq_getElem hi
    have hdrop : sel.drop i = sel[i] :: sel.drop (i + 1) := List.drop_eq_getElem_cons hi
    rw [getFilePartsLoop, hget]
    simp only
    rw [ih (i + 1) _ (by simp at hlen ⊢; omega), hdrop]
    simp only [assignedParts, List.zipWith_cons_cons, List.append_assoc, List.singleton_append]

theorem getFileParts_eq (heap : Ptr → inMemoryStorage) (sel : List Ptr) (fileMeta : FileMeta)
    (sizes : List Int) (hlen : sizes.length ≤ sel.length) :
    getFileParts heap sel fileMeta sizes = .ok (assignedParts heap fileMeta.Name sel sizes) := by
  rw [getFileParts, getFilePartsLoop_eq heap sel fileMeta sizes 0 [] (by omega)]
  simp

theorem selectedStorages_length (S : SortImpl) (w : World) (count : Nat)
    (hc : count ≤ w.storageManager.storages.length) :
    (selectedStorages S w count).length = count := by
  have hlen : (S.sort (storagesLess w.heap) w.storageManager.storages).length =
      w.storageManager.storages.length := (S.perm _ _).length_eq
  simp only [selectedStorages, List.length_reverse, List.length_drop, hlen]
  omega

/-- The shape of `PutFile` once the part sizes are known and enough backends are
registered: everything up to the upload loop succeeds, and the outcome is that of
the upload loop followed by `CompleteFileMeta`. -/
theorem PutFile_eq (S : SortImpl) (s : service) (w : World) (file : File) (sizes : List Int)
    (hsizes : s.calculatePartsSize (8 * s.partsNumToSplit) file.Meta.ContentLength
      s.partsNumToSplit = some (.ok sizes))
    (hcount : sizes.length ≤ w.storageManager.storages.length) :
    s.PutFile S w file =
      some
        (match uploadLoop
            (w.started S { file.Meta with
              Parts := assignedParts w.heap file.Meta.Name
                (selectedStorages S w sizes.length) sizes })
            (assignedParts w.heap file.Meta.Name (selectedStorages S w sizes.length) sizes)
            file.Body with
        | (some err, w3, _) => (.error err, w3)
        | (none, w3, _) =>
          (.ok (),
            { w3 with
              fileMetaStorage :=
                { metaData := Function.update w3.fileMetaStorage.metaData file.Meta.Name
                    (some
                      { meta := { file.Meta with
                          Parts := assignedParts w.heap file.Meta.Name
                            (selectedStorages S w sizes.length) sizes }
                        inProgress := false }) } })) := by
  have hsel := selectedStorages_length S w sizes.length hcount
  rw [service.PutFile, hsizes]
  simp only
  rw [GetStorages_eq S w.heap w.storageManager sizes.length hcount]
  simp only
  rw [show ((S.sort (storagesLess w.heap) w.storageManager.storages).drop
      (w.storageManager.storages.length - sizes.length)).reverse =
      selectedStorages S w sizes.length from rfl]
  rw [getFileParts_eq w.heap (selectedStorages S w sizes.length) file.Meta sizes (by omega)]
  simp only [inMemoryFileMetaStorage.StartProcessingFileMeta]
  have hframe := (uploadLoop_frame
    (assignedParts w.heap file.Meta.Name (selectedStorages S w sizes.length) sizes)
    (w.started S { file.Meta with
      Parts := assignedParts w.heap file.Meta.Name (selectedStorages S w sizes.length) sizes })
    file.Body).2
  simp only [World.started, inMemoryFileMetaStorage.StartProcessingFileMeta] at hframe ⊢
  rcases hrun : uploadLoop _ _ file.Body with ⟨_ | err, w3, body3⟩
  · rw [hrun] at hframe
    simp only at hframe
    simp [inMemoryFileMetaStorage.CompleteFileMeta, hframe]
  · rfl

theorem selectedStorages_nodup (S : SortImpl) (w : World) (count : Nat)
    (hnd : w.storageManager.storages.Nodup) : (selectedStorages S w count).Nodup := by
  have hperm := S.perm (storagesLess w.heap) w.storageManager.storages
  exact List.nodup_reverse.2 ((hperm.nodup_iff.2 hnd).sublist (List.drop_sublist _ _))

theorem selectedStorages_subset (S : SortImpl) (w : World) (count : Nat) :
    ∀ st ∈ selectedStorages S w count, st ∈ w.storageManager.storages := by
  intro st hst
  exact (S.perm (storagesLess w.heap) w.storageManager.storages).subset
    (List.mem_of_mem_drop (List.mem_reverse.1 hst))

theorem GetStorages_ok_eq (S : SortImpl) (w : World) (count : Nat) (sel : List Ptr)
    (h : (w.storageManager.GetStorages S w.heap count).1 = .ok sel) :
    count ≤ w.storageManager.storages.length ∧ sel = selectedStorages S w count := by
  by_cases hc : count ≤ w.storageManager.storages.length
  · rw [GetStorages_eq S w.heap w.storageManager count hc] at h
    refine ⟨hc, ?_⟩
    injection h with h
    exact h.symm
  · rw [GetStorages_panics_of_count_gt S w.heap w.storageManager count (by omega)] at h
    cases h

theorem assignedParts_map_length (heap : Ptr → inMemoryStorage) (name : String) :
    ∀ (sel : List Ptr) (sizes : List Int), sel.length = sizes.length →
      (assignedParts heap name sel sizes).map (fun part => part.ContentLength) = sizes := by
  intro sel
  induction sel with
  | nil =>
    intro sizes h
    cases sizes with
    | nil => rfl
    | cons _ _ => simp at h
  | cons st sel ih =>
    intro sizes h
    cases sizes with
    | nil => simp at h
    | cons size sizes =>
      have := ih sizes (by simpa using h)
      simp only [assignedParts] at this
      simp [assignedParts, this]

theorem assignedParts_map_url (heap : Ptr → inMemoryStorage) (name : String) :
    ∀ (sel : List Ptr) (sizes : List Int), sel.length = sizes.length →
      (assignedParts heap name sel sizes).map (fun part => part.StorageURL) =
        sel.map (fun st => (heap st).GetStorageURL) := by
  intro sel
  induction sel with
  | nil =>
    intro sizes h
    cases sizes with
    | nil => rfl
    | cons _ _ => simp at h
  | cons st sel ih =>
    intro sizes h
    cases sizes with
    | nil => simp at h
    | cons size sizes =>
      have := ih sizes (by simpa using h)
      simp only [assignedParts] at this
      simp [assignedParts, this]

theorem assignedParts_path (heap : Ptr → inMemoryStorage) (name : String) (sel : List Ptr)
    (sizes : List Int) : ∀ part ∈ assignedParts heap name sel sizes, part.Path = name := by
  intro part hpart
  simp only [assignedParts, List.mem_iff_getElem, List.getElem_zipWith] at hpart
  obtain ⟨i, hi, rfl⟩ := hpart
  rfl

theorem assignedParts_lookup (heap : Ptr → inMemoryStorage) (name : String)
    (host : String → Option Ptr) :
    ∀ (sel : List Ptr) (sizes : List Int), sel.length = sizes.length →
      (∀ st ∈ sel, host (heap st).GetStorageURL = some st) →
      List.Forall₂ (fun part st => host part.StorageURL = some st)
        (assignedParts heap name sel sizes) sel := by
  intro sel
  induction sel with
  | nil =>
    intro sizes h _
    cases sizes with
    | nil => exact List.Forall₂.nil
    | cons _ _ => simp at h
  | cons st sel ih =>
    intro sizes h hl
    cases sizes with
    | nil => simp at h
    | cons size sizes =>
      simp only [assignedParts, List.zipWith_cons_cons]
      exact List.Forall₂.cons (hl st (List.mem_cons_self _ _))
        (ih sizes (by simpa using h) (fun x hx => hl x (List.mem_cons_of_mem _ hx)))

theorem bodyChunks_flatten : ∀ (parts : List FilePart) (body : List Byte),
    (bodyChunks parts body).flatten =
      body.take ((parts.map (fun part => part.ContentLength.toNat)).sum) := by
  intro parts
  induction parts with
  | nil => intro body; simp [bodyChunks]
  | cons part rest ih =>
    intro body
    simp only [bodyChunks, List.flatten_cons, ih, List.map_cons, List.sum_cons]
    rw [List.take_add]

theorem bodyChunks_map_length : ∀ (parts : List FilePart) (body : List Byte),
    (parts.map (fun part => part.ContentLength.toNat)).sum ≤ body.length →
    (bodyChunks parts body).map List.length = parts.map (fun part => part.ContentLength.toNat) := by
  intro parts
  induction parts with
  | nil => intro body _; rfl
  | cons part rest ih =>
    intro body h
    simp only [List.map_cons, List.sum_cons] at h
    simp only [bodyChunks, List.map_cons, List.length_take, List.cons.injEq]
    refine ⟨by omega, ih _ ?_⟩
    simp only [List.length_drop]
    omega

theorem sum_toNat_of_pos : ∀ (sizes : List Int), (∀ x ∈ sizes, 0 < x) →
    (((sizes.map Int.toNat).sum : Nat) : Int) = sizes.sum := by
  intro sizes
  induction sizes with
  | nil => intro _; rfl
  | cons x xs ih =>
    intro h
    have hx := h x (List.mem_cons_self _ _)
    have := ih (fun y hy => h y (List.mem_cons_of_mem _ hy))
    simp only [List.map_cons, List.sum_cons, Nat.cast_add, this]
    omega

theorem PutFile_panics_of_few_storages (S : SortImpl) (s : service) (w : World) (file : File)
    (sizes : List Int)
    (hsizes : s.calculatePartsSize (8 * s.partsNumToSplit) file.Meta.ContentLength
      s.partsNumToSplit = some (.ok sizes))
    (hcount : w.storageManager.storages.length < sizes.length) :
    s.PutFile S w file =
      some (.panic Fault.indexOutOfRange,
        { w with
          storageManager :=
            { w.storageManager with
              storages := S.sort (storagesLess w.heap) w.storageManager.storages } }) := by
  rw [service.PutFile, hsizes]
  simp only
  rw [GetStorages_panics_of_count_gt S w.heap w.storageManager sizes.length (by omega)]

/-- The upload loop over parts on pairwise distinct registered backends, when the
chunks of the first `k` parts fit and the chunk of part `k` does not: the loop
fails at part `k`, the first `k` backends hold their chunks and were debited, and
no other backend changed. -/
theorem uploadLoop_fails : ∀ (parts : List FilePart) (sel : List Ptr) (w : World)
    (body : List Byte) (k : Nat) (st : Ptr) (c : List Byte),
    List.Forall₂ (fun part st => w.storageManager.hostToStorage part.StorageURL = some st)
      parts sel →
    sel.Nodup →
    (∀ x ∈ List.zip (sel.take k) ((bodyChunks parts body).take k),
      (x.2.length : Int) ≤ (w.heap x.1).freeSpace) →
    sel[k]? = some st → (bodyChunks parts body)[k]? = some c →
    (w.heap st).freeSpace < (c.length : Int) →
    ∃ (w1 : World) (body1 : List Byte),
      uploadLoop w parts body =
        (some (Error.wrap "can't upload file part" Error.notEnoughFreeSpace), w1, body1) ∧
      (parts.take k).map (partContent w1) = (bodyChunks parts body).take k ∧
      (∀ x ∈ List.zip (sel.take k) ((bodyChunks parts body).take k),
        (w1.heap x.1).freeSpace = (w.heap x.1).freeSpace - (x.2.length : Int)) ∧
      (∀ st1, st1 ∉ sel.take k → w1.heap st1 = w.heap st1) := by
  intro parts
  induction parts with
  | nil =>
    intro sel w body k st c _ _ _ _ hc _
    simp [bodyChunks] at hc
  | cons part rest ih =>
    intro sel w body k st c hF hnd hfit hst hc hfull
    cases hF with
    | cons hl hF =>
      rename_i st0 sel
      have hst0 : st0 ∉ sel := (List.nodup_cons.1 hnd).1
      cases k with
      | zero =>
        simp only [List.getElem?_cons_zero, Option.some.injEq] at hst
        simp only [bodyChunks, List.getElem?_cons_zero, Option.some.injEq] at hc
        subst hst
        subst hc
        refine ⟨w, _, uploadLoop_cons_full w part rest body st0 hl hfull, ?_, ?_, ?_⟩
        · simp
        · simp
        · intro _ _; rfl
      | succ k =>
        simp only [List.getElem?_cons_succ] at hst
        simp only [bodyChunks, List.getElem?_cons_succ] at hc
        have hmem : st ∈ sel := List.mem_iff_getElem?.2 ⟨k, hst⟩
        have hne0 : st ≠ st0 := fun h => hst0 (h ▸ hmem)
        have hfits : ((body.take part.ContentLength.toNat).length : Int) ≤
            (w.heap st0).freeSpace :=
          hfit (st0, body.take part.ContentLength.toNat) (by simp [bodyChunks])
        have hne : ∀ x ∈ List.zip (sel.take k)
            ((bodyChunks rest (body.drop part.ContentLength.toNat)).take k), x.1 ≠ st0 := by
          intro x hx heq
          exact hst0 (heq ▸ List.mem_of_mem_take (List.of_mem_zip hx).1)
        obtain ⟨w1, body1, hrun, h2, h3, h4⟩ :=
          ih sel (w.store st0 part.Path (body.take part.ContentLength.toNat))
            (body.drop part.ContentLength.toNat) k st c hF (List.nodup_cons.1 hnd).2
            (by
              intro x hx
              have := hfit x (by simp [bodyChunks, hx])
              simpa [store_heap_other w st0 x.1 _ _ (hne x hx)] using this)
            hst hc
            (by simpa [store_heap_other w st0 st _ _ hne0] using hfull)
        have hsm := (uploadLoop_frame rest
          (w.store st0 part.Path (body.take part.ContentLength.toNat))
          (body.drop part.ContentLength.toNat)).1
        rw [hrun] at hsm
        replace hsm : w1.storageManager = w.storageManager := hsm
        have hnot : st0 ∉ sel.take k := fun h => hst0 (List.mem_of_mem_take h)
        refine ⟨w1, body1, ?_, ?_, ?_, ?_⟩
        · rw [uploadLoop_cons_fits w part rest body st0 hl hfits, hrun]
        · simp only [List.take_succ_cons, List.map_cons, bodyChunks, h2, List.cons.injEq,
            and_true]
          have hw1 := h4 st0 hnot
          rw [store_heap_same] at hw1
          simp [partContent, hsm, hl, hw1]
        · intro x hx
          simp only [bodyChunks, List.take_succ_cons, List.zip_cons_cons, List.mem_cons] at hx
          rcases hx with rfl | hx
          · have hw1 := h4 st0 hnot
            rw [store_heap_same] at hw1
            simp [hw1]
          · have := h3 x hx
            simpa [store_heap_other w st0 x.1 _ _ (hne x hx)] using this
        · intro st1 hst1
          simp only [List.take_succ_cons, List.mem_cons, not_or] at hst1
          have := h4 st1 hst1.2
          simpa [store_heap_other w st0 st1 _ _ hst1.1] using this

/-- A successful `PutFile` on a registry of distinct backends, each registered under its
own URL: enough backends were registered, the record is complete and carries the
assigned part list, every chunk fitted and is stored on its backend, the backends
used were debited, and no other backend changed. -/
theorem PutFile_success_inv (S : SortImpl) (s : service) (w : World) (file : File)
    (sizes : List Int) (w1 : World) (hreg : w.Registered)
    (hsizes : s.calculatePartsSize (8 * s.partsNumToSplit) file.Meta.ContentLength
      s.partsNumToSplit = some (.ok sizes))
    (hput : s.PutFile S w file = some (.ok (), w1)) :
    sizes.length ≤ w.storageManager.storages.length ∧
    w1.fileMetaStorage.metaData file.Meta.Name =
      some { meta := { file.Meta with
               Parts := assignedParts w.heap file.Meta.Name
                 (selectedStorages S w sizes.length) sizes }
             inProgress := false } ∧
    (∀ x ∈ List.zip (selectedStorages S w sizes.length)
        (bodyChunks (assignedParts w.heap file.Meta.Name (selectedStorages S w sizes.length) sizes)
          file.Body),
      (x.2.length : Int) ≤ (w.heap x.1).freeSpace) ∧
    (assignedParts w.heap file.Meta.Name (selectedStorages S w sizes.length) sizes).map
        (partContent w1) =
      bodyChunks (assignedParts w.heap file.Meta.Name (selectedStorages S w sizes.length) sizes)
        file.Body ∧
    (∀ x ∈ List.zip (selectedStorages S w sizes.length)
        (bodyChunks (assignedParts w.heap file.Meta.Name (selectedStorages S w sizes.length) sizes)
          file.Body),
      (w1.heap x.1).freeSpace = (w.heap x.1).freeSpace - (x.2.length : Int)) ∧
    (∀ st, st ∉ selectedStorages S w sizes.length → w1.heap st = w.heap st) := by
  by_cases hcount : sizes.length ≤ w.storageManager.storages.length
  · have hlen := selectedStorages_length S w sizes.length hcount
    rw [PutFile_eq S s w file sizes hsizes hcount] at hput
    rcases hrun : uploadLoop
        (w.started S { file.Meta with
          Parts := assignedParts w.heap file.Meta.Name (selectedStorages S w sizes.length) sizes })
        (assignedParts w.heap file.Meta.Name (selectedStorages S w sizes.length) sizes)
        file.Body with ⟨_ | err, w3, body3⟩
    · rw [hrun] at hput
      simp only [Option.some.injEq, Prod.mk.injEq, true_and] at hput
      subst hput
      obtain ⟨h1, h2, h3, h4⟩ := uploadLoop_ok _ (selectedStorages S w sizes.length)
        (w.started S { file.Meta with
          Parts := assignedParts w.heap file.Meta.Name (selectedStorages S w sizes.length) sizes })
        _
        (assignedParts_lookup w.heap file.Meta.Name w.storageManager.hostToStorage
          (selectedStorages S w sizes.length) sizes hlen
          (fun st hst => hreg.lookup st (selectedStorages_subset S w sizes.length st hst)))
        (selectedStorages_nodup S w sizes.length hreg.nodup) w3 body3 hrun
      refine ⟨hcount, by simp, h1, ?_, h3, h4⟩
      rw [← h2]
      apply List.map_congr_left
      intro part _
      rfl
    · rw [hrun] at hput
      simp at hput
  · rw [PutFile_panics_of_few_storages S s w file sizes hsizes (by omega)] at hput
    simp at hput

/-- `PutFile` succeeds when enough backends are registered, each once under its own URL,
and every chunk fits into the free space of its backend. -/
theorem PutFile_succeeds (S : SortImpl) (s : service) (w : World) (file : File)
    (sizes : List Int) (hreg : w.Registered)
    (hsizes : s.calculatePartsSize (8 * s.partsNumToSplit) file.Meta.ContentLength
      s.partsNumToSplit = some (.ok sizes))
    (hcount : sizes.length ≤ w.storageManager.storages.length)
    (hfit : ∀ x ∈ List.zip (selectedStorages S w sizes.length)
        (bodyChunks (assignedParts w.heap file.Meta.Name (selectedStorages S w sizes.length) sizes)
          file.Body),
      (x.2.length : Int) ≤ (w.heap x.1).freeSpace) :
    ∃ w1 : World, s.PutFile S w file = some (.ok (), w1) := by
  have hlen := selectedStorages_length S w sizes.length hcount
  obtain ⟨w3, body3, hrun⟩ := uploadLoop_succeeds
    (assignedParts w.heap file.Meta.Name (selectedStorages S w sizes.length) sizes)
    (selectedStorages S w sizes.length)
    (w.started S { file.Meta with
      Parts := assignedParts w.heap file.Meta.Name (selectedStorages S w sizes.length) sizes })
    file.Body
    (assignedParts_lookup w.heap file.Meta.Name w.storageManager.hostToStorage
      (selectedStorages S w sizes.length) sizes hlen
      (fun st hst => hreg.lookup st (selectedStorages_subset S w sizes.length st hst)))
    (selectedStorages_nodup S w sizes.length hreg.nodup) hfit
  rw [PutFile_eq S s w file sizes hsizes hcount, hrun]
  exact ⟨_, rfl⟩

/-- `PutFile` when the chunks of the first `k` parts fit and the chunk of part `k` does
not: the call returns the upload error, the record stays in progress with its full
part list, the first `k` backends hold their chunks and were debited, and no other
backend changed. -/
theorem PutFile_upload_fails (S : SortImpl) (s : service) (w : World) (file : File)
    (sizes : List Int) (k : Nat) (st : Ptr) (c : List Byte) (hreg : w.Registered)
    (hsizes : s.calculatePartsSize (8 * s.partsNumToSplit) file.Meta.ContentLength
      s.partsNumToSplit = some (.ok sizes))
    (hcount : sizes.length ≤ w.storageManager.storages.length)
    (hfit : ∀ x ∈ List.zip ((selectedStorages S w sizes.length).take k)
        ((bodyChunks
          (assignedParts w.heap file.Meta.Name (selectedStorages S w sizes.length) sizes)
          file.Body).take k),
      (x.2.length : Int) ≤ (w.heap x.1).freeSpace)
    (hst : (selectedStorages S w sizes.length)[k]? = some st)
    (hc : (bodyChunks
        (assignedParts w.heap file.Meta.Name (selectedStorages S w sizes.length) sizes)
        file.Body)[k]? = some c)
    (hfull : (w.heap st).freeSpace < (c.length : Int)) :
    ∃ w1 : World,
      s.PutFile S w file =
        some (.error (Error.wrap "can't upload file part" Error.notEnoughFreeSpace), w1) ∧
      w1.fileMetaStorage.metaData file.Meta.Name =
        some { meta := { file.Meta with
                 Parts := assignedParts w.heap file.Meta.Name
                   (selectedStorages S w sizes.length) sizes }
               inProgress := true } ∧
      ((assignedParts w.heap file.Meta.Name (selectedStorages S w sizes.length) sizes).take k).map
          (partContent w1) =
        (bodyChunks
          (assignedParts w.heap file.Meta.Name (selectedStorages S w sizes.length) sizes)
          file.Body).take k ∧
      (∀ x ∈ List.zip ((selectedStorages S w sizes.length).take k)
          ((bodyChunks
            (assignedParts w.heap file.Meta.Name (selectedStorages S w sizes.length) sizes)
            file.Body).take k),
        (w1.heap x.1).freeSpace = (w.heap x.1).freeSpace - (x.2.length : Int)) ∧
      (∀ st1, st1 ∉ (selectedStorages S w sizes.length).take k → w1.heap st1 = w.heap st1) := by
  have hlen := selectedStorages_length S w sizes.length hcount
  obtain ⟨w3, body3, hrun, h2, h3, h4⟩ := uploadLoop_fails
    (assignedParts w.heap file.Meta.Name (selectedStorages S w sizes.length) sizes)
    (selectedStorages S w sizes.length)
    (w.started S { file.Meta with
      Parts := assignedParts w.heap file.Meta.Name (selectedStorages S w sizes.length) sizes })
    file.Body k st c
    (assignedParts_lookup w.heap file.Meta.Name w.storageManager.hostToStorage
      (selectedStorages S w sizes.length) sizes hlen
      (fun st hst => hreg.lookup st (selectedStorages_subset S w sizes.length st hst)))
    (selectedStorages_nodup S w sizes.length hreg.nodup) hfit hst hc hfull
  have hframe := (uploadLoop_frame
    (assignedParts w.heap file.Meta.Name (selectedStorages S w sizes.length) sizes)
    (w.started S { file.Meta with
      Parts := assignedParts w.heap file.Meta.Name (selectedStorages S w sizes.length) sizes })
    file.Body).2
  rw [hrun] at hframe
  replace hframe : w3.fileMetaStorage = _ := hframe
  refine ⟨w3, ?_, ?_, h2, h3, h4⟩
  · rw [PutFile_eq S s w file sizes hsizes hcount, hrun]
  · rw [hframe]
    simp [World.started, inMemoryFileMetaStorage.StartProcessingFileMeta]

theorem PutFile_sharedUrlBackends_two (C : List Byte) (hC : C.length = 10241) :
    ∃ w1 : World,
      NewService.PutFile goSort sharedUrlBackends
          { Meta := { Name := "g", Parts := [], ContentLength := 10241 }, Body := C } =
        some (.ok (), w1) ∧
      w1.fileMetaStorage.GetFileMeta "g" =
        .ok { Name := "g"
              Parts := [{ StorageURL := "x", Path := "g", ContentLength := 10240 },
                        { StorageURL := "x", Path := "g", ContentLength := 1 }]
              ContentLength := 10241 } ∧
      (w1.heap 0).dataByPath "g" = some ((C.drop 10240).take 1) ∧
      (w1.heap 1).dataByPath "g" = none := by
  have hsizes : NewService.calculatePartsSize (8 * NewService.partsNumToSplit)
      (10241 : Int) NewService.partsNumToSplit = some (.ok [10240, 1]) := rfl
  have hrun := PutFile_eq goSort NewService sharedUrlBackends
    { Meta := { Name := "g", Parts := [], ContentLength := 10241 }, Body := C } [10240, 1] hsizes
    (by decide)
  have hparts : assignedParts sharedUrlBackends.heap "g"
      (selectedStorages goSort sharedUrlBackends ([10240, 1] : List Int).length) [10240, 1] =
      [{ StorageURL := "x", Path := "g", ContentLength := 10240 },
       { StorageURL := "x", Path := "g", ContentLength := 1 }] := by decide
  simp only [hparts] at hrun
  rw [uploadLoop_cons_fits _ _ _ _ 0 (by decide)
    (by simp only [Int.toNat_ofNat, List.length_take, hC]
        decide)] at hrun
  rw [uploadLoop_cons_fits _ _ _ _ 0 rfl
    (by simp only [store_heap_same, Int.toNat_ofNat, List.length_take, List.length_drop, hC]
        decide)] at hrun
  simp only [uploadLoop] at hrun
  refine ⟨_, hrun, ?_, ?_, ?_⟩
  · simp [inMemoryFileMetaStorage.GetFileMeta]
  · simp only [store_heap_same, Function.update_same]
    rfl
  · rw [store_heap_other _ _ _ _ _ (by decide), store_heap_other _ _ _ _ _ (by decide)]
    rfl

/-- Counterexample to C7 as stated: on three distinct backends, each registered once,
of which the first two report the same URL `x`, `PutFile` of the two-part file `g`
of 10241 bytes succeeds; `GetStorages` returned the backends 0 and 1, but both
parts of the record carry the URL `x`, so the owning-backend identifiers are not
pairwise distinct, and both parts were uploaded to backend 0, which holds the one
byte of the second part, while backend 1 holds nothing. -/
theorem PutFile_shared_url_parts :
    sharedUrlBackends.storageManager.storages = [0, 1, 2] ∧
    [sharedUrlBackends.storageManager.hostToStorage "x",
     sharedUrlBackends.storageManager.hostToStorage "b",
     sharedUrlBackends.storageManager.hostToStorage "z"] = [some 0, some 1, some 2] ∧
    (0 : Int) ≤ twoPartFile.Meta.ContentLength ∧
    NewService.calculatePartsSize 40 twoPartFile.Meta.ContentLength 5 =
      some (.ok [10240, 1]) ∧
    (sharedUrlBackends.storageManager.GetStorages goSort sharedUrlBackends.heap 2).1 =
      .ok [0, 1] ∧
    (NewService.PutFile goSort sharedUrlBackends twoPartFile).map (fun r => r.1) =
      some (.ok ()) ∧
    (NewService.PutFile goSort sharedUrlBackends twoPartFile).map
        (fun r => r.2.fileMetaStorage.GetFileMeta "g") =
      some (.ok { Name := "g"
                  Parts := [{ StorageURL := "x", Path := "g", ContentLength := 10240 },
                            { StorageURL := "x", Path := "g", ContentLength := 1 }]
                  ContentLength := 10241 }) ∧
    (NewService.PutFile goSort sharedUrlBackends twoPartFile).map
        (fun r => ((r.2.heap 0).dataByPath "g", (r.2.heap 1).dataByPath "g")) =
      some (some [7], none) ∧
    ¬ (List.map (fun part => part.StorageURL)
        [({ StorageURL := "x", Path := "g", ContentLength := 10240 } : FilePart),
         { StorageURL := "x", Path := "g", ContentLength := 1 }]).Nodup := by
  obtain ⟨w1, hput, hmeta, h0, h1⟩ :=
    PutFile_sharedUrlBackends_two (List.replicate 10241 7) (List.length_replicate _ _)
  have hput1 : NewService.PutFile goSort sharedUrlBackends twoPartFile = some (.ok (), w1) := hput
  have hdrop : ((List.replicate 10241 (7 : Byte)).drop 10240).take 1 = [7] := by
    simp only [List.drop_replicate, List.take_replicate]
    decide
  rw [hdrop] at h0
  refine ⟨by decide, by decide, by decide, rfl, by decide, ?_, ?_, ?_, by decide⟩
  · rw [hput1]; rfl
  · rw [hput1]; exact congrArg some hmeta
  · rw [hput1]
    simp only [Option.map, h0, h1]


/-- C7, amended: after a successful `PutFile` of a file with declared length `L ≥ 0` on a
registry of distinct backends, each registered under its own URL (the identifier
that `GetStorageURL` reports), `GetFileMeta name` returns a record with the name
and the total length `L` whose part lengths are `calculatePartsSize L 5` in order,
whose i-th part carries the URL of the i-th backend returned by `GetStorages`
(pairwise distinct backends, pairwise distinct URLs), whose paths are the file
name, and whose part lengths sum to `L`. -/
theorem PutFile_metadata_parts (S : SortImpl) (w : World) (file : File) (w1 : World)
    (hL : 0 ≤ file.Meta.ContentLength) (hL64 : IsInt64 file.Meta.ContentLength)
    (hreg : w.Registered) (hput : NewService.PutFile S w file = some (.ok (), w1)) :
    ∃ (sizes : List Int) (sel : List Ptr) (parts : List FilePart),
      NewService.calculatePartsSize 40 file.Meta.ContentLength 5 = some (.ok sizes) ∧
      (w.storageManager.GetStorages S w.heap sizes.length).1 = .ok sel ∧
      w1.fileMetaStorage.GetFileMeta file.Meta.Name =
        .ok { Name := file.Meta.Name, Parts := parts,
              ContentLength := file.Meta.ContentLength } ∧
      parts.map (fun part => part.ContentLength) = sizes ∧
      parts.map (fun part => part.StorageURL) = sel.map (fun st => (w.heap st).GetStorageURL) ∧
      (∀ part ∈ parts, part.Path = file.Meta.Name) ∧
      sel.Nodup ∧ (parts.map (fun part => part.StorageURL)).Nodup ∧
      (parts.map (fun part => part.ContentLength)).sum = file.Meta.ContentLength := by
  obtain ⟨sizes, hsizes, _, hsum, _⟩ :=
    calculatePartsSize_spec 40 file.Meta.ContentLength 5 hL hL64 (by decide) (by decide)
      (by decide)
  obtain ⟨hcount, hmeta, -, -, -, -⟩ := PutFile_success_inv S NewService w file sizes w1 hreg
    hsizes hput
  have hlen := selectedStorages_length S w sizes.length hcount
  have hnd := selectedStorages_nodup S w sizes.length hreg.nodup
  have hurl := assignedParts_map_url w.heap file.Meta.Name (selectedStorages S w sizes.length)
    sizes hlen
  have hsz := assignedParts_map_length w.heap file.Meta.Name (selectedStorages S w sizes.length)
    sizes hlen
  refine ⟨sizes, selectedStorages S w sizes.length, _, hsizes, ?_, ?_, hsz, hurl,
    assignedParts_path _ _ _ _, hnd, ?_, ?_⟩
  · rw [GetStorages_eq S w.heap w.storageManager sizes.length hcount]
    rfl
  · simp only [inMemoryFileMetaStorage.GetFileMeta, hmeta]
  · rw [hurl]
    refine List.Nodup.map_on ?_ hnd
    intro x hx y hy hxy
    have h1 := hreg.lookup x (selectedStorages_subset S w sizes.length x hx)
    have h2 := hreg.lookup y (selectedStorages_subset S w sizes.length y hy)
    rw [hxy, h2] at h1
    exact (Option.some.inj h1).symm
  · rw [hsz, hsum]

theorem PutFile_fiveBackends_twoPartFile :
    NewService.PutFile goSort fiveBackends twoPartFile = some (.ok (), fiveBackendsAfterPutTwo) ∧
    fiveBackendsAfterPutTwo.fileMetaStorage.GetFileMeta "g" =
      .ok { Name := "g"
            Parts := [{ StorageURL := "storage_4", Path := "g", ContentLength := 10240 },
                      { StorageURL := "storage_3", Path := "g", ContentLength := 1 }]
            ContentLength := 10241 } := by
  have hreg : fiveBackends.Registered := ⟨by decide, by decide⟩
  have hsizes : NewService.calculatePartsSize (8 * NewService.partsNumToSplit)
      twoPartFile.Meta.ContentLength NewService.partsNumToSplit = some (.ok [10240, 1]) := rfl
  have hbody : twoPartFile.Body.length = 10241 := List.length_replicate _ _
  obtain ⟨w1, hput⟩ := PutFile_succeeds goSort NewService fiveBackends twoPartFile [10240, 1]
    hreg hsizes (by decide)
    (by
      intro x hx
      have h1 : (x.2.length : Int) ≤ 10241 := by
        have := bodyChunks_length_le _ twoPartFile.Body x.2 (List.of_mem_zip hx).2
        rw [hbody] at this
        exact_mod_cast this
      have h2 : ∀ st ∈ fiveBackends.storageManager.storages,
          (10241 : Int) ≤ (fiveBackends.heap st).freeSpace := by decide
      exact le_trans h1
        (h2 x.1 (selectedStorages_subset goSort fiveBackends _ x.1 (List.of_mem_zip hx).1)))
  have hw : fiveBackendsAfterPutTwo = w1 := by
    unfold fiveBackendsAfterPutTwo
    rw [hput]
  obtain ⟨-, hmeta, -⟩ := PutFile_success_inv goSort NewService fiveBackends twoPartFile
    [10240, 1] w1 hreg hsizes hput
  have hparts : assignedParts fiveBackends.heap twoPartFile.Meta.Name
      (selectedStorages goSort fiveBackends ([10240, 1] : List Int).length) [10240, 1] =
      [{ StorageURL := "storage_4", Path := "g", ContentLength := 10240 },
       { StorageURL := "storage_3", Path := "g", ContentLength := 1 }] := by decide
  rw [hparts] at hmeta
  rw [hw]
  refine ⟨hput, ?_⟩
  simp only [inMemoryFileMetaStorage.GetFileMeta]
  rw [show w1.fileMetaStorage.metaData "g" = _ from hmeta]
  rfl

/-- Witness of the amended C7: `PutFile` of the file `g` of 10241 bytes on five fresh
backends. The record has the two parts of 10240 bytes and of 1 byte, in this order,
on the backends 4 and 3 that `GetStorages` returned, in this order. -/
theorem PutFile_metadata_parts_witness :
    (0 : Int) ≤ twoPartFile.Meta.ContentLength ∧ IsInt64 twoPartFile.Meta.ContentLength ∧
    fiveBackends.Registered ∧
    NewService.PutFile goSort fiveBackends twoPartFile =
      some (.ok (), fiveBackendsAfterPutTwo) ∧
    NewService.calculatePartsSize 40 twoPartFile.Meta.ContentLength 5 =
      some (.ok [10240, 1]) ∧
    (fiveBackends.storageManager.GetStorages goSort fiveBackends.heap 2).1 = .ok [4, 3] ∧
    fiveBackendsAfterPutTwo.fileMetaStorage.GetFileMeta "g" =
      .ok { Name := "g"
            Parts := [{ StorageURL := "storage_4", Path := "g", ContentLength := 10240 },
                      { StorageURL := "storage_3", Path := "g", ContentLength := 1 }]
            ContentLength := 10241 } ∧
    ∃ (sizes : List Int) (sel : List Ptr) (parts : List FilePart),
      NewService.calculatePartsSize 40 twoPartFile.Meta.ContentLength 5 = some (.ok sizes) ∧
      (fiveBackends.storageManager.GetStorages goSort fiveBackends.heap sizes.length).1 =
        .ok sel ∧
      fiveBackendsAfterPutTwo.fileMetaStorage.GetFileMeta twoPartFile.Meta.Name =
        .ok { Name := twoPartFile.Meta.Name, Parts := parts,
              ContentLength := twoPartFile.Meta.ContentLength } ∧
      parts.map (fun part => part.ContentLength) = sizes ∧
      parts.map (fun part => part.StorageURL) =
        sel.map (fun st => (fiveBackends.heap st).GetStorageURL) ∧
      (∀ part ∈ parts, part.Path = twoPartFile.Meta.Name) ∧
      sel.Nodup ∧ (parts.map (fun part => part.StorageURL)).Nodup ∧
      (parts.map (fun part => part.ContentLength)).sum = twoPartFile.Meta.ContentLength :=
  ⟨by decide, by decide, ⟨by decide, by decide⟩, PutFile_fiveBackends_twoPartFile.1, rfl,
    by decide, PutFile_fiveBackends_twoPartFile.2,
    PutFile_metadata_parts goSort fiveBackends twoPartFile fiveBackendsAfterPutTwo (by decide)
      (by decide) ⟨by decide, by decide⟩ PutFile_fiveBackends_twoPartFile.1⟩

/-- Counterexample to C8 as stated: a file with the declared length 3 whose body holds
one byte. `PutFile` returns success, the record is complete with one part of
declared length 3, and the owning backend holds a blob of one byte. -/
theorem PutFile_short_body_succeeds :
    (shortFile.Body.length : Int) < shortFile.Meta.ContentLength ∧
    (NewService.PutFile goSort fiveBackends shortFile).map (fun r => r.1) = some (.ok ()) ∧
    (NewService.PutFile goSort fiveBackends shortFile).map
        (fun r => r.2.fileMetaStorage.metaData "f") =
      some (some
        { meta := { Name := "f"
                    Parts := [{ StorageURL := "storage_4", Path := "f", ContentLength := 3 }]
                    ContentLength := 3 }
          inProgress := false }) ∧
    (NewService.PutFile goSort fiveBackends shortFile).map
        (fun r => partContent r.2 { StorageURL := "storage_4", Path := "f", ContentLength := 3 }) =
      some [1] := by
  refine ⟨by decide, by decide, by decide, by decide⟩

/-- C8, amended: after a successful `PutFile` of a file with declared length `L ≥ 0` on a
registry of distinct backends, each registered under its own URL, the record is
complete and the backend of every part holds at the part's path exactly the chunk
that the bounded read of that part took from the body. That blob is never longer
than `part.ContentLength`, and it has exactly `part.ContentLength` bytes for every
part when the body holds at least `L` bytes. -/
theorem PutFile_success_parts_stored (S : SortImpl) (w : World) (file : File) (w1 : World)
    (hL : 0 ≤ file.Meta.ContentLength) (hL64 : IsInt64 file.Meta.ContentLength)
    (hreg : w.Registered) (hput : NewService.PutFile S w file = some (.ok (), w1)) :
    ∃ parts : List FilePart,
      w1.fileMetaStorage.metaData file.Meta.Name =
        some { meta := { file.Meta with Parts := parts }, inProgress := false } ∧
      parts.map (partContent w1) = bodyChunks parts file.Body ∧
      (∀ part ∈ parts, ((partContent w1 part).length : Int) ≤ part.ContentLength) ∧
      (file.Meta.ContentLength ≤ file.Body.length →
        ∀ part ∈ parts, ((partContent w1 part).length : Int) = part.ContentLength) := by
  obtain ⟨sizes, hsizes, hpos, hsum, _⟩ :=
    calculatePartsSize_spec 40 file.Meta.ContentLength 5 hL hL64 (by decide) (by decide)
      (by decide)
  obtain ⟨hcount, hmeta, -, hstored, -, -⟩ := PutFile_success_inv S NewService w file sizes w1
    hreg hsizes hput
  have hlen := selectedStorages_length S w sizes.length hcount
  have hsz := assignedParts_map_length w.heap file.Meta.Name (selectedStorages S w sizes.length)
    sizes hlen
  generalize assignedParts w.heap file.Meta.Name (selectedStorages S w sizes.length) sizes = parts
    at hmeta hstored hsz
  have hppos : ∀ part ∈ parts, 0 < part.ContentLength := by
    intro part hpart
    apply hpos
    rw [← hsz]
    exact List.mem_map_of_mem _ hpart
  refine ⟨parts, hmeta, hstored, ?_, ?_⟩
  · intro part hpart
    have hmem : partContent w1 part ∈ bodyChunks parts file.Body := by
      rw [← hstored]
      exact List.mem_map_of_mem _ hpart
    have hle : ∀ (ps : List FilePart) (body : List Byte), ∀ p ∈ ps,
        (ps.map (partContent w1) = bodyChunks ps body) →
        (partContent w1 p).length ≤ p.ContentLength.toNat := by
      intro ps
      induction ps with
      | nil => intro body p hp; simp at hp
      | cons q qs ih =>
        intro body p hp heq
        simp only [List.map_cons, bodyChunks, List.cons.injEq] at heq
        rcases List.mem_cons.1 hp with rfl | hp
        · rw [heq.1]
          simp
        · exact ih _ p hp heq.2
    have := hle parts file.Body part hpart hstored
    have := hppos part hpart
    omega
  · intro hbody part hpart
    have htot : (parts.map (fun part => part.ContentLength.toNat)).sum ≤ file.Body.length := by
      have h1 := sum_toNat_of_pos sizes hpos
      rw [← hsz, List.map_map] at h1
      have h2 : (parts.map (Int.toNat ∘ fun part => part.ContentLength)) =
          parts.map (fun part => part.ContentLength.toNat) := rfl
      rw [h2, hsz, hsum] at h1
      omega
    have hl := bodyChunks_map_length parts file.Body htot
    rw [← hstored, List.map_map] at hl
    have := (List.map_inj_left.1 hl) part hpart
    simp only [Function.comp_apply] at this
    have := hppos part hpart
    omega

/-- Witness of the amended C8: `PutFile` of a file of three bytes on five fresh
backends. -/
theorem PutFile_success_parts_stored_witness :
    (0 : Int) ≤ smallFile.Meta.ContentLength ∧ IsInt64 smallFile.Meta.ContentLength ∧
    fiveBackends.Registered ∧
    NewService.PutFile goSort fiveBackends smallFile = some (.ok (), fiveBackendsAfterPut) ∧
    ∃ parts : List FilePart,
      fiveBackendsAfterPut.fileMetaStorage.metaData smallFile.Meta.Name =
        some { meta := { smallFile.Meta with Parts := parts }, inProgress := false } ∧
      parts.map (partContent fiveBackendsAfterPut) = bodyChunks parts smallFile.Body ∧
      (∀ part ∈ parts,
        ((partContent fiveBackendsAfterPut part).length : Int) ≤ part.ContentLength) ∧
      (smallFile.Meta.ContentLength ≤ smallFile.Body.length →
        ∀ part ∈ parts,
          ((partContent fiveBackendsAfterPut part).length : Int) = part.ContentLength) :=
  ⟨by decide, by decide, ⟨by decide, by decide⟩, rfl,
    PutFile_success_parts_stored goSort fiveBackends smallFile fiveBackendsAfterPut (by decide)
      (by decide) ⟨by decide, by decide⟩ rfl⟩

theorem PutFile_sharedUrlBackends_three (C : List Byte) (hC : C.length = 20481) :
    ∃ w1 : World,
      NewService.PutFile goSort sharedUrlBackends
          { Meta := { Name := "h", Parts := [], ContentLength := 20481 }, Body := C } =
        some (.error (Error.wrap "can't upload file part" Error.notEnoughFreeSpace), w1) ∧
      (w1.heap 0).dataByPath "h" = some ((C.drop 10240).take 10240) ∧
      (w1.heap 1).dataByPath "h" = none ∧
      (w1.heap 2).dataByPath "h" = none ∧
      (w1.heap 0).freeSpace = 9520 ∧ (w1.heap 1).freeSpace = 25000 ∧
      w1.storageManager.hostToStorage "x" = some 0 := by
  have hsizes : NewService.calculatePartsSize (8 * NewService.partsNumToSplit)
      (20481 : Int) NewService.partsNumToSplit = some (.ok [10240, 10240, 1]) := rfl
  have hrun := PutFile_eq goSort NewService sharedUrlBackends
    { Meta := { Name := "h", Parts := [], ContentLength := 20481 }, Body := C } [10240, 10240, 1]
    hsizes (by decide)
  have hparts : assignedParts sharedUrlBackends.heap "h"
      (selectedStorages goSort sharedUrlBackends ([10240, 10240, 1] : List Int).length)
      [10240, 10240, 1] =
      [{ StorageURL := "x", Path := "h", ContentLength := 10240 },
       { StorageURL := "x", Path := "h", ContentLength := 10240 },
       { StorageURL := "z", Path := "h", ContentLength := 1 }] := by decide
  simp only [hparts] at hrun
  rw [uploadLoop_cons_fits _ _ _ _ 0 (by decide)
    (by simp only [Int.toNat_ofNat, List.length_take, hC]
        decide)] at hrun
  rw [uploadLoop_cons_fits _ _ _ _ 0 rfl
    (by simp only [store_heap_same, Int.toNat_ofNat, List.length_take, List.length_drop, hC]
        decide)] at hrun
  rw [uploadLoop_cons_full _ _ _ _ 2 rfl
    (by rw [store_heap_other _ _ _ _ _ (by decide), store_heap_other _ _ _ _ _ (by decide)]
        simp only [Int.toNat_ofNat, List.length_take, List.length_drop, hC]
        decide)] at hrun
  refine ⟨_, hrun, ?_, ?_, ?_, ?_, ?_, rfl⟩
  · simp only [store_heap_same, Function.update_same]
    rfl
  · rw [store_heap_other _ _ _ _ _ (by decide), store_heap_other _ _ _ _ _ (by decide)]
    rfl
  · rw [store_heap_other _ _ _ _ _ (by decide), store_heap_other _ _ _ _ _ (by decide)]
    rfl
  · simp only [store_heap_same, Int.toNat_ofNat, List.length_take, List.length_drop, hC]
    decide
  · rw [store_heap_other _ _ _ _ _ (by decide), store_heap_other _ _ _ _ _ (by decide)]
    rfl

/-- Counterexample to C9 as stated: on three distinct backends, each registered once,
of which the first two report the same URL `x`, `PutFile` of the three-part file `h`
fails at the third part, whose backend has no free space. The first two parts both
resolve to backend 0, so the blob of the first part, 10240 bytes of 1, was
overwritten by the chunk of the second part, 10240 bytes of 2, before the failure:
the blob of part 0 is stored on no backend. -/
theorem PutFile_failure_overwrites_part :
    sharedUrlBackends.storageManager.storages = [0, 1, 2] ∧
    [sharedUrlBackends.storageManager.hostToStorage "x",
     sharedUrlBackends.storageManager.hostToStorage "b",
     sharedUrlBackends.storageManager.hostToStorage "z"] = [some 0, some 1, some 2] ∧
    NewService.calculatePartsSize 40 threePartFile.Meta.ContentLength
      NewService.partsNumToSplit = some (.ok [10240, 10240, 1]) ∧
    (sharedUrlBackends.storageManager.GetStorages goSort sharedUrlBackends.heap 3).1 =
      .ok [0, 1, 2] ∧
    getFileParts sharedUrlBackends.heap [0, 1, 2] threePartFile.Meta [10240, 10240, 1] =
      .ok [{ StorageURL := "x", Path := "h", ContentLength := 10240 },
           { StorageURL := "x", Path := "h", ContentLength := 10240 },
           { StorageURL := "z", Path := "h", ContentLength := 1 }] ∧
    (bodyChunks
        [{ StorageURL := "x", Path := "h", ContentLength := 10240 },
         { StorageURL := "x", Path := "h", ContentLength := 10240 },
         { StorageURL := "z", Path := "h", ContentLength := 1 }] threePartFile.Body) =
      [List.replicate 10240 1, List.replicate 10240 2, [3]] ∧
    (NewService.PutFile goSort sharedUrlBackends threePartFile).map (fun r => r.1) =
      some (.error (Error.wrap "can't upload file part" Error.notEnoughFreeSpace)) ∧
    (NewService.PutFile goSort sharedUrlBackends threePartFile).map
        (fun r => ((r.2.heap 0).dataByPath "h", (r.2.heap 1).dataByPath "h",
          (r.2.heap 2).dataByPath "h")) =
      some (some (List.replicate 10240 2), none, none) ∧
    (NewService.PutFile goSort sharedUrlBackends threePartFile).map
        (fun r => partContent r.2 { StorageURL := "x", Path := "h", ContentLength := 10240 }) =
      some (List.replicate 10240 2) ∧
    List.replicate 10240 (1 : Byte) ≠ List.replicate 10240 2 := by
  have hlen : (List.replicate 10240 (1 : Byte) ++ (List.replicate 10240 2 ++ [3])).length =
      20481 := by
    simp only [List.length_append, List.length_replicate, List.length_singleton]
  have hl1 : (List.replicate 10240 (1 : Byte)).length = 10240 := List.length_replicate _ _
  have hl2 : (List.replicate 10240 (2 : Byte)).length = 10240 := List.length_replicate _ _
  have hd1 : (List.replicate 10240 (1 : Byte) ++ (List.replicate 10240 2 ++ [3])).drop 10240 =
      List.replicate 10240 2 ++ [3] := List.drop_left' hl1
  have ht1 : (List.replicate 10240 (1 : Byte) ++ (List.replicate 10240 2 ++ [3])).take 10240 =
      List.replicate 10240 1 := List.take_left' hl1
  have hd2 : (List.replicate 10240 (2 : Byte) ++ [3]).drop 10240 = [3] := List.drop_left' hl2
  have ht2 : (List.replicate 10240 (2 : Byte) ++ [3]).take 10240 = List.replicate 10240 2 :=
    List.take_left' hl2
  obtain ⟨w1, hput, h0, h1, h2, -, -, hx⟩ := PutFile_sharedUrlBackends_three _ hlen
  have hput1 : NewService.PutFile goSort sharedUrlBackends threePartFile =
      some (.error (Error.wrap "can't upload file part" Error.notEnoughFreeSpace), w1) := hput
  rw [hd1, ht2] at h0
  refine ⟨by decide, by decide, rfl, by decide, rfl, ?_, ?_, ?_, ?_, ?_⟩
  · have hn : Int.toNat 10240 = 10240 := rfl
    have hn1 : Int.toNat 1 = 1 := rfl
    simp only [bodyChunks, threePartFile, hn, hn1, hd1, ht1, hd2, ht2]
    rfl
  · rw [hput1]; rfl
  · rw [hput1]
    simp only [Option.map, h0, h1, h2]
  · rw [hput1]
    simp only [Option.map, partContent, hx, h0, Option.getD]
  · intro h
    have := (List.replicate_right_inj (by decide)).1 h
    exact absurd this (by decide)

/-- C9, amended: on a registry of distinct backends, each registered under its own URL
(the identifier that `GetStorageURL` reports), let `sizes`, `sel` and `parts` be
what `calculatePartsSize`, `GetStorages` and `getFileParts` return inside `PutFile`.
When part `k` is the first whose upload fails, because its chunk is larger than the
free space of its backend while the chunks of the parts before `k` fit their
backends, `PutFile` returns the upload error; the record exists with the full part
list and is still in progress; the backends of the parts before `k` hold their
chunks and stay debited; every other backend, those of part `k` and of the later
parts included, is unchanged. And whenever `PutFile` returns success on such a
registry, every chunk passed the capacity check and is stored, and the record is
complete. -/
theorem PutFile_upload_failure_no_rollback (S : SortImpl) (w : World) (file : File)
    (sizes : List Int) (sel : List Ptr) (parts : List FilePart) (hreg : w.Registered)
    (hsizes : NewService.calculatePartsSize 40 file.Meta.ContentLength NewService.partsNumToSplit =
      some (.ok sizes))
    (hsel : (w.storageManager.GetStorages S w.heap sizes.length).1 = .ok sel)
    (hparts : getFileParts w.heap sel file.Meta sizes = .ok parts) :
    (∀ (k : Nat) (st : Ptr) (c : List Byte),
      (∀ x ∈ List.zip (sel.take k) ((bodyChunks parts file.Body).take k),
        (x.2.length : Int) ≤ (w.heap x.1).freeSpace) →
      sel[k]? = some st → (bodyChunks parts file.Body)[k]? = some c →
      (w.heap st).freeSpace < (c.length : Int) →
      ∃ w1 : World,
        NewService.PutFile S w file =
          some (.error (Error.wrap "can't upload file part" Error.notEnoughFreeSpace), w1) ∧
        w1.fileMetaStorage.metaData file.Meta.Name =
          some { meta := { file.Meta with Parts := parts }, inProgress := true } ∧
        (parts.take k).map (partContent w1) = (bodyChunks parts file.Body).take k ∧
        (∀ x ∈ List.zip (sel.take k) ((bodyChunks parts file.Body).take k),
          (w1.heap x.1).freeSpace = (w.heap x.1).freeSpace - (x.2.length : Int)) ∧
        (∀ st1, st1 ∉ sel.take k → w1.heap st1 = w.heap st1)) ∧
    (∀ w1 : World, NewService.PutFile S w file = some (.ok (), w1) →
      (∀ x ∈ List.zip sel (bodyChunks parts file.Body),
        (x.2.length : Int) ≤ (w.heap x.1).freeSpace) ∧
      parts.map (partContent w1) = bodyChunks parts file.Body ∧
      w1.fileMetaStorage.metaData file.Meta.Name =
        some { meta := { file.Meta with Parts := parts }, inProgress := false }) := by
  obtain ⟨hcount, rfl⟩ := GetStorages_ok_eq S w sizes.length sel hsel
  have hlen := selectedStorages_length S w sizes.length hcount
  rw [getFileParts_eq w.heap _ file.Meta sizes (by omega)] at hparts
  injection hparts with hparts
  subst hparts
  constructor
  · intro k st c hfit hst hc hfull
    exact PutFile_upload_fails S NewService w file sizes k st c hreg hsizes hcount hfit hst hc
      hfull
  · intro w1 hput
    obtain ⟨-, hmeta, hfit, hstored, -, -⟩ := PutFile_success_inv S NewService w file sizes w1
      hreg hsizes hput
    exact ⟨hfit, hstored, hmeta⟩

/-- Witness of the amended C9: a file of 10241 bytes on two backends with free space 20000 and 0.
The second part, of one byte, does not fit: `PutFile` returns the upload error, the
record is in progress, and the first backend holds the first 10240 bytes. -/
theorem PutFile_upload_failure_no_rollback_witness :
    tightBackends.Registered ∧
    NewService.calculatePartsSize 40 twoPartFile.Meta.ContentLength NewService.partsNumToSplit =
      some (.ok [10240, 1]) ∧
    (tightBackends.storageManager.GetStorages goSort tightBackends.heap
      ([10240, 1] : List Int).length).1 = .ok [0, 1] ∧
    getFileParts tightBackends.heap [0, 1] twoPartFile.Meta [10240, 1] =
      .ok [{ StorageURL := "storage_0", Path := "g", ContentLength := 10240 },
           { StorageURL := "storage_1", Path := "g", ContentLength := 1 }] ∧
    ∃ w1 : World,
      NewService.PutFile goSort tightBackends twoPartFile =
        some (.error (Error.wrap "can't upload file part" Error.notEnoughFreeSpace), w1) ∧
      w1.fileMetaStorage.metaData twoPartFile.Meta.Name =
        some { meta := { twoPartFile.Meta with
                 Parts := [{ StorageURL := "storage_0", Path := "g", ContentLength := 10240 },
                           { StorageURL := "storage_1", Path := "g", ContentLength := 1 }] }
               inProgress := true } ∧
      (List.take 1 [({ StorageURL := "storage_0", Path := "g", ContentLength := 10240 } : FilePart),
          { StorageURL := "storage_1", Path := "g", ContentLength := 1 }]).map (partContent w1) =
        (bodyChunks
          [{ StorageURL := "storage_0", Path := "g", ContentLength := 10240 },
           { StorageURL := "storage_1", Path := "g", ContentLength := 1 }]
          twoPartFile.Body).take 1 ∧
      (∀ x ∈ List.zip (List.take 1 [0, 1])
          ((bodyChunks
            [{ StorageURL := "storage_0", Path := "g", ContentLength := 10240 },
             { StorageURL := "storage_1", Path := "g", ContentLength := 1 }]
            twoPartFile.Body).take 1),
        (w1.heap x.1).freeSpace = (tightBackends.heap x.1).freeSpace - (x.2.length : Int)) ∧
      (∀ st1, st1 ∉ List.take 1 [0, 1] → w1.heap st1 = tightBackends.heap st1) :=
  ⟨⟨by decide, by decide⟩, rfl, by decide, rfl,
    (PutFile_upload_failure_no_rollback goSort tightBackends twoPartFile [10240, 1] [0, 1]
      [{ StorageURL := "storage_0", Path := "g", ContentLength := 10240 },
       { StorageURL := "storage_1", Path := "g", ContentLength := 1 }]
      ⟨by decide, by decide⟩ rfl (by decide) rfl).1 1 1 [7]
      (by
        simp only [bodyChunks, twoPartFile, Int.toNat_ofNat, List.take_replicate,
          List.take_succ_cons, List.take_zero, List.zip_cons_cons, List.zip_nil_right,
          List.mem_singleton]
        intro x hx
        subst hx
        simp only [List.length_replicate]
        decide)
      (by decide)
      (by
        simp only [bodyChunks, twoPartFile, Int.toNat_ofNat, List.getElem?_cons_succ,
          List.getElem?_cons_zero, List.drop_replicate, List.take_replicate]
        decide)
      (by decide)⟩

/-! ## Theorems: the round trip -/

theorem GetFile_of_record (w : World) (id : String) (r : fileMeta)
    (h : w.fileMetaStorage.metaData id = some r) :
    service.GetFile w id = .ok (r.meta, newFilePartsReader r.meta) := by
  simp [service.GetFile, inMemoryFileMetaStorage.GetFileMeta, h, newFilePartsReader]

/-- Reading a stored file to the end: the parts' blobs in order, within as many calls
as there are bytes and parts. -/
theorem readToEnd_all (w : World) (m : FileMeta) (p fuel : Nat) (hne : m.Parts ≠ [])
    (hp : 1 ≤ p)
    (hres : ∀ part ∈ m.Parts, (w.storageManager.hostToStorage part.StorageURL).isSome)
    (hfuel : (m.Parts.map (fun part => (partContent w part).length + 1)).sum ≤ fuel) :
    readToEnd w p fuel (newFilePartsReader m) [] =
      some (.ok ((m.Parts.map (partContent w)).flatten)) := by
  obtain ⟨part, later, hparts⟩ := List.exists_cons_of_ne_nil hne
  rw [hparts] at hres hfuel
  rw [readToEnd_start w m p fuel [] part later hparts (hres part (List.mem_cons_self _ _))]
  have h := readToEnd_open w m p hp later [part] (by simpa using hparts)
    (fun x hx => hres x (List.mem_cons_of_mem _ hx)) (partContent w part).length
    (partContent w part) [] fuel (le_refl _) (by simp at hfuel ⊢; omega)
  simp only [List.length_singleton] at h
  rw [h, hparts]
  simp

theorem lookup_isSome_of_forall₂ (host : String → Option Ptr) {parts : List FilePart}
    {sel : List Ptr}
    (h : List.Forall₂ (fun part st => host part.StorageURL = some st) parts sel) :
    ∀ part ∈ parts, (host part.StorageURL).isSome := by
  induction h with
  | nil => intro part hpart; simp at hpart
  | cons hhead _ ih =>
    intro part hpart
    rcases List.mem_cons.1 hpart with rfl | hpart
    · rw [hhead]; rfl
    · exact ih part hpart

theorem sum_length_succ (l : List (List Byte)) :
    (l.map (fun c => c.length + 1)).sum = l.flatten.length + l.length := by
  induction l with
  | nil => rfl
  | cons c cs ih =>
    simp only [List.map_cons, List.sum_cons, ih, List.flatten_cons, List.length_append,
      List.length_cons]
    omega

/-- Counterexample to C1 as stated: five fresh backends with the URLs `storage_0` to
`storage_4`, each registered once, under the distinct identifiers `id_0` to `id_4`,
each with free space for the three bytes of `smallFile`. `PutFile` does not
succeed: the part is assigned to the URL `storage_4`, under which no backend is
registered, and the upload loop returns the error of `GetStorage`. -/
theorem PutFile_fails_other_identifiers :
    smallFile.Body ≠ [] ∧ smallFile.Meta.ContentLength = smallFile.Body.length ∧
    renamedBackends.storageManager.storages = [0, 1, 2, 3, 4] ∧
    [renamedBackends.storageManager.hostToStorage "id_0",
     renamedBackends.storageManager.hostToStorage "id_1",
     renamedBackends.storageManager.hostToStorage "id_2",
     renamedBackends.storageManager.hostToStorage "id_3",
     renamedBackends.storageManager.hostToStorage "id_4"] =
      [some 0, some 1, some 2, some 3, some 4] ∧
    (∀ st ∈ renamedBackends.storageManager.storages,
      (smallFile.Body.length : Int) ≤ (renamedBackends.heap st).freeSpace) ∧
    (NewService.PutFile goSort renamedBackends smallFile).map (fun r => r.1) =
      some (.error (Error.wrap "can't get storage error" (Error.storageNotFound "storage_4"))) := by
  refine ⟨by decide, by decide, by decide, by decide, by decide, by decide⟩

/-- C1, amended: on a registry of at least 5 backends, each registered once under its own
URL (the identifier that `GetStorageURL` reports) and each with free space of at
least `|C|` bytes, `PutFile` of a non-empty content `C` with the declared length
`|C|`, an int64, succeeds, the following `GetFile name` succeeds, and reading the
returned stream to its end with any buffer of `p ≥ 1` bytes (within `|C| + 5` calls
of `Read`) delivers exactly `C`. -/
theorem PutFile_GetFile_round_trip (S : SortImpl) (w : World) (name : String)
    (parts0 : List FilePart) (C : List Byte) (hne : C ≠ [])
    (hC64 : IsInt64 (C.length : Int)) (hreg : w.Registered)
    (h5 : 5 ≤ w.storageManager.storages.length)
    (hcap : ∀ st ∈ w.storageManager.storages, (C.length : Int) ≤ (w.heap st).freeSpace) :
    ∃ w1 : World,
      NewService.PutFile S w
          { Meta := { Name := name, Parts := parts0, ContentLength := C.length }, Body := C } =
        some (.ok (), w1) ∧
      ∃ m : FileMeta, service.GetFile w1 name = .ok (m, newFilePartsReader m) ∧
        m.Name = name ∧ m.ContentLength = C.length ∧
        ∀ (p fuel : Nat), 1 ≤ p → C.length + 5 ≤ fuel →
          readToEnd w1 p fuel (newFilePartsReader m) [] = some (.ok C) := by
  obtain ⟨sizes, hsizes, hpos, hsum, hcnt⟩ :=
    calculatePartsSize_spec 40 (C.length : Int) 5 (by omega) hC64 (by decide) (by decide)
      (by decide)
  have hcount : sizes.length ≤ w.storageManager.storages.length := by omega
  have hlen := selectedStorages_length S w sizes.length hcount
  have hfit : ∀ x ∈ List.zip (selectedStorages S w sizes.length)
      (bodyChunks (assignedParts w.heap name (selectedStorages S w sizes.length) sizes) C),
      (x.2.length : Int) ≤ (w.heap x.1).freeSpace := by
    intro x hx
    have h1 := hcap x.1 (selectedStorages_subset S w sizes.length x.1 (List.of_mem_zip hx).1)
    have h2 := bodyChunks_length_le _ C x.2 (List.of_mem_zip hx).2
    omega
  obtain ⟨w1, hput⟩ := PutFile_succeeds S NewService w
    { Meta := { Name := name, Parts := parts0, ContentLength := C.length }, Body := C } sizes
    hreg hsizes hcount hfit
  obtain ⟨-, hmeta, -, hstored, -, -⟩ := PutFile_success_inv S NewService w
    { Meta := { Name := name, Parts := parts0, ContentLength := C.length }, Body := C } sizes w1
    hreg hsizes hput
  simp only at hmeta hstored
  have hsz := assignedParts_map_length w.heap name (selectedStorages S w sizes.length) sizes hlen
  have hurl := assignedParts_lookup w.heap name w.storageManager.hostToStorage
    (selectedStorages S w sizes.length) sizes hlen
    (fun st hst => hreg.lookup st (selectedStorages_subset S w sizes.length st hst))
  have hsm : w1.storageManager.hostToStorage = w.storageManager.hostToStorage := by
    have hrun := PutFile_eq S NewService w
      { Meta := { Name := name, Parts := parts0, ContentLength := C.length }, Body := C } sizes
      hsizes hcount
    rw [hput] at hrun
    have hframe := (uploadLoop_frame
      (assignedParts w.heap name (selectedStorages S w sizes.length) sizes)
      (w.started S { Name := name
                     Parts := assignedParts w.heap name (selectedStorages S w sizes.length) sizes
                     ContentLength := C.length }) C).1
    rcases hup : uploadLoop
      (w.started S { Name := name
                     Parts := assignedParts w.heap name (selectedStorages S w sizes.length) sizes
                     ContentLength := C.length })
      (assignedParts w.heap name (selectedStorages S w sizes.length) sizes) C
      with ⟨_ | err, w3, body3⟩
    · simp only [hup] at hrun hframe
      simp only [Option.some.injEq, Prod.mk.injEq, true_and] at hrun
      rw [hrun, hframe]
      rfl
    · simp only [hup] at hrun
      simp at hrun
  generalize assignedParts w.heap name (selectedStorages S w sizes.length) sizes = parts
    at hmeta hstored hsz hurl
  have hparts_ne : parts ≠ [] := by
    intro h
    subst h
    simp only [List.map_nil] at hsz
    subst hsz
    simp only [List.sum_nil] at hsum
    have : C.length = 0 := by omega
    exact hne (List.length_eq_zero.1 this)
  have hflat : (parts.map (partContent w1)).flatten = C := by
    rw [hstored, bodyChunks_flatten]
    have h1 := sum_toNat_of_pos sizes hpos
    rw [← hsz, List.map_map] at h1
    have h2 : (parts.map (Int.toNat ∘ fun part => part.ContentLength)) =
        parts.map (fun part => part.ContentLength.toNat) := rfl
    rw [h2, hsz, hsum] at h1
    have h3 : (parts.map (fun part => part.ContentLength.toNat)).sum = C.length := by
      exact_mod_cast h1
    rw [h3, List.take_length]
  have hplen : parts.length ≤ 5 := by
    have : parts.length = sizes.length := by rw [← hsz, List.length_map]
    omega
  refine ⟨w1, hput, _, GetFile_of_record w1 name _ hmeta, rfl, rfl, ?_⟩
  intro p fuel hp hfuel
  have hread := readToEnd_all w1
    { Name := name, Parts := parts, ContentLength := C.length } p fuel hparts_ne hp
    (by
      intro part hpart
      rw [hsm]
      exact lookup_isSome_of_forall₂ w.storageManager.hostToStorage hurl part hpart)
    (by
      have h1 := sum_length_succ (parts.map (partContent w1))
      rw [List.map_map] at h1
      have h2 : (parts.map ((fun c => c.length + 1) ∘ partContent w1)) =
          parts.map (fun part => (partContent w1 part).length + 1) := rfl
      rw [h2, hflat, List.length_map] at h1
      simp only
      omega)
  rw [hread]
  simp only
  rw [hflat]

/-- Witness of the amended C1: three bytes written to five fresh backends and read back. -/
theorem PutFile_GetFile_round_trip_witness :
    ([1, 2, 3] : List Byte) ≠ [] ∧ IsInt64 (([1, 2, 3] : List Byte).length : Int) ∧
    fiveBackends.Registered ∧ 5 ≤ fiveBackends.storageManager.storages.length ∧
    (∀ st ∈ fiveBackends.storageManager.storages,
      ((([1, 2, 3] : List Byte).length : Nat) : Int) ≤ (fiveBackends.heap st).freeSpace) ∧
    ∃ w1 : World,
      NewService.PutFile goSort fiveBackends
          { Meta := { Name := "f", Parts := [],
                      ContentLength := (([1, 2, 3] : List Byte).length : Nat) },
            Body := [1, 2, 3] } =
        some (.ok (), w1) ∧
      ∃ m : FileMeta, service.GetFile w1 "f" = .ok (m, newFilePartsReader m) ∧
        m.Name = "f" ∧ m.ContentLength = (([1, 2, 3] : List Byte).length : Nat) ∧
        ∀ (p fuel : Nat), 1 ≤ p → ([1, 2, 3] : List Byte).length + 5 ≤ fuel →
          readToEnd w1 p fuel (newFilePartsReader m) [] = some (.ok [1, 2, 3]) :=
  ⟨by decide, by decide, ⟨by decide, by decide⟩, by decide, by decide,
    PutFile_GetFile_round_trip goSort fiveBackends "f" [] [1, 2, 3] (by decide) (by decide)
      ⟨by decide, by decide⟩ (by decide) (by decide)⟩

/-! ## Theorems: metadata completion and lookup -/

/-- C11: `CompleteFileMeta id` fails exactly when no record exists for `id`; when it fails
the error is `file with id not found` and the store is unchanged; when it succeeds
the record for `id` is complete with its `FileMeta` unchanged, and the record under
every other name is unchanged. -/
theorem CompleteFileMeta_spec (i : inMemoryFileMetaStorage) (id : String) :
    ((i.CompleteFileMeta id).1 ≠ none ↔ i.metaData id = none) ∧
    (i.metaData id = none →
      i.CompleteFileMeta id = (some (Error.fileNotFound id), i)) ∧
    (∀ r : fileMeta, i.metaData id = some r →
      (i.CompleteFileMeta id).1 = none ∧
      (i.CompleteFileMeta id).2.metaData id = some { meta := r.meta, inProgress := false } ∧
      (i.CompleteFileMeta id).2.GetFileMeta id = .ok r.meta ∧
      ∀ id1, id1 ≠ id → (i.CompleteFileMeta id).2.metaData id1 = i.metaData id1) := by
  refine ⟨?_, ?_, ?_⟩
  · cases h : i.metaData id with
    | none => simp [inMemoryFileMetaStorage.CompleteFileMeta, h]
    | some r => simp [inMemoryFileMetaStorage.CompleteFileMeta, h]
  · intro h
    simp [inMemoryFileMetaStorage.CompleteFileMeta, h]
  · intro r h
    refine ⟨?_, ?_, ?_, ?_⟩
    · simp [inMemoryFileMetaStorage.CompleteFileMeta, h]
    · simp [inMemoryFileMetaStorage.CompleteFileMeta, h]
    · simp [inMemoryFileMetaStorage.CompleteFileMeta, inMemoryFileMetaStorage.GetFileMeta, h]
    · intro id1 hne
      simp [inMemoryFileMetaStorage.CompleteFileMeta, h, Function.update_noteq hne]

/-- C17: for every name without a record in the metadata store, `GetFile` returns the
wrapped `file with id not found` error and no file; and the outcome of `GetFile` is
the same for every registry and every state of the backends: it reads the metadata
store only. -/
theorem GetFile_unknown_name (w : World) (id : String)
    (h : w.fileMetaStorage.metaData id = none) :
    service.GetFile w id =
      .error (Error.wrap "can't get file metadata, error" (Error.fileNotFound id)) ∧
    ∀ (heap1 : Ptr → inMemoryStorage) (sm1 : sm),
      service.GetFile
          { heap := heap1, storageManager := sm1, fileMetaStorage := w.fileMetaStorage } id =
        service.GetFile w id := by
  refine ⟨?_, ?_⟩
  · simp [service.GetFile, inMemoryFileMetaStorage.GetFileMeta, h]
  · intro heap1 sm1
    rfl

/-- Witness of C17: the name `f` on five fresh backends with an empty metadata store. -/
theorem GetFile_unknown_name_witness :
    fiveBackends.fileMetaStorage.metaData "f" = none ∧
    service.GetFile fiveBackends "f" =
      .error (Error.wrap "can't get file metadata, error" (Error.fileNotFound "f")) ∧
    ∀ (heap1 : Ptr → inMemoryStorage) (sm1 : sm),
      service.GetFile
          { heap := heap1, storageManager := sm1,
            fileMetaStorage := fiveBackends.fileMetaStorage } "f" =
        service.GetFile fiveBackends "f" :=
  ⟨by decide, GetFile_unknown_name fiveBackends "f" (by decide)⟩

/-! ## Theorems: the states of the reconstruction reader -/

theorem getNextStorage_EOF (w : World) (g : filePartsReader)
    (h : (g.getNextStorage w).1 = some Error.EOF) :
    g.meta.Parts[g.currentPart]? = none ∧ g.getNextStorage w = (some Error.EOF, g) := by
  unfold filePartsReader.getNextStorage at h ⊢
  cases hp : g.meta.Parts[g.currentPart]? with
  | none => simp
  | some part =>
    rw [hp] at h
    simp only at h
    cases hs : w.storageManager.GetStorage part.StorageURL with
    | error err => rw [hs] at h; simp at h
    | ok st =>
      rw [hs] at h
      simp only [inMemoryStorage.ReadFilePart] at h
      cases h

theorem Read_exhausted (w : World) (g : filePartsReader) (q : Nat)
    (hbody : g.currentPartBody = some []) (hcur : g.meta.Parts[g.currentPart]? = none) :
    g.Read w q = (.ok ([], some Error.EOF), g) := by
  obtain ⟨cur, body, m⟩ := g
  simp only at hbody hcur
  subst hbody
  simp [filePartsReader.Read, filePartsReader.readBody, bytesReaderRead, Error.Is,
    filePartsReader.getNextStorage, hcur]

theorem readBody_EOF (w : World) (g g1 : filePartsReader) (p : Nat) (data : List Byte)
    (h : g.readBody w p = (.ok (data, some Error.EOF), g1)) :
    data = [] ∧ g1.currentPartBody = some [] ∧ g1.meta.Parts[g1.currentPart]? = none := by
  obtain ⟨cur, body, m⟩ := g
  cases body with
  | none => simp [filePartsReader.readBody] at h
  | some body =>
    cases body with
    | cons b bs => simp [filePartsReader.readBody, bytesReaderRead] at h
    | nil =>
      simp only [filePartsReader.readBody, bytesReaderRead, Error.Is, decide_True,
        Bool.not_true, Bool.false_eq_true, if_false] at h
      rcases hn : filePartsReader.getNextStorage w
          { currentPart := cur, currentPartBody := some [], meta := m } with ⟨_ | err2, g2⟩
      · rw [hn] at h
        simp at h
      · rw [hn] at h
        simp only [Prod.mk.injEq, Except.ok.injEq, Option.some.injEq] at h
        obtain ⟨⟨hd, he⟩, hg⟩ := h
        subst he
        subst hg
        have := getNextStorage_EOF w _ (by rw [hn])
        rw [hn] at this
        obtain ⟨hcur, heq⟩ := this
        simp only [Prod.mk.injEq, true_and] at heq
        subst heq
        exact ⟨hd.symm, rfl, hcur⟩

/-- C15: once a `Read` has returned `io.EOF`, it returned no bytes with it, and every
later `Read`, with any buffer, returns zero bytes together with `io.EOF` and leaves
the reader, its part cursor included, as it was. -/
theorem Read_EOF_terminal (w : World) (f f1 : filePartsReader) (p : Nat) (data : List Byte)
    (h : f.Read w p = (.ok (data, some Error.EOF), f1)) :
    data = [] ∧ f1.meta.Parts.length ≤ f1.currentPart ∧
    ∀ q : Nat, f1.Read w q = (.ok ([], some Error.EOF), f1) ∧
      (f1.Read w q).2.currentPart = f1.currentPart := by
  have key : data = [] ∧ f1.currentPartBody = some [] ∧
      f1.meta.Parts[f1.currentPart]? = none := by
    unfold filePartsReader.Read at h
    cases hb : f.currentPartBody with
    | none =>
      rw [hb] at h
      simp only at h
      rcases hn : f.getNextStorage w with ⟨_ | err, g⟩
      · rw [hn] at h
        exact readBody_EOF w g f1 p data h
      · rw [hn] at h
        simp at h
    | some body =>
      rw [hb] at h
      exact readBody_EOF w f f1 p data h
  obtain ⟨hd, hbody, hcur⟩ := key
  refine ⟨hd, ?_, ?_⟩
  · by_contra hlt
    rw [List.getElem?_eq_getElem (by omega)] at hcur
    cases hcur
  · intro q
    have := Read_exhausted w f1 q hbody hcur
    exact ⟨this, by rw [this]⟩

/-- Witness of C15: after `abcd`, `efgh` and `ij` have been read, the `Read` that finds
the last part at its end returns `io.EOF`, and so does every later one. -/
theorem Read_EOF_terminal_witness :
    filePartsReader.Read abcWorld
        { currentPart := 3, currentPartBody := some [], meta := abcMeta } 4 =
      (.ok ([], some Error.EOF),
        { currentPart := 3, currentPartBody := some [], meta := abcMeta }) ∧
    ([] : List Byte) = [] ∧
    abcMeta.Parts.length ≤ 3 ∧
    ∀ q : Nat,
      filePartsReader.Read abcWorld
          { currentPart := 3, currentPartBody := some [], meta := abcMeta } q =
        (.ok ([], some Error.EOF),
          { currentPart := 3, currentPartBody := some [], meta := abcMeta }) ∧
      (filePartsReader.Read abcWorld
          { currentPart := 3, currentPartBody := some [], meta := abcMeta } q).2.currentPart =
        3 :=
  ⟨rfl, Read_EOF_terminal abcWorld
    { currentPart := 3, currentPartBody := some [], meta := abcMeta }
    { currentPart := 3, currentPartBody := some [], meta := abcMeta } 4 [] rfl⟩

/-- Counterexample to C14 as stated: the blobs `abcd`, `efgh`, `ij` read with a buffer of
four bytes. The first `Read` delivers `abcd`; the second finds the first part at
its end, opens the second part and returns zero bytes with no error, although
`efgh` and `ij` are still to be delivered. -/
theorem Read_empty_at_part_boundary :
    filePartsReader.Read abcWorld (newFilePartsReader abcMeta) 4 =
      (.ok ([97, 98, 99, 100], none),
        { currentPart := 1, currentPartBody := some [], meta := abcMeta }) ∧
    filePartsReader.Read abcWorld
        { currentPart := 1, currentPartBody := some [], meta := abcMeta } 4 =
      (.ok ([], none),
        { currentPart := 2, currentPartBody := some [101, 102, 103, 104], meta := abcMeta }) ∧
    partContent abcWorld { StorageURL := "storage_1", Path := "f", ContentLength := 4 } =
      [101, 102, 103, 104] ∧
    partContent abcWorld { StorageURL := "storage_2", Path := "f", ContentLength := 2 } =
      [105, 106] := by
  refine ⟨rfl, rfl, by decide, by decide⟩

/-- C14, amended: a `Read` during which the open part signals its end while a further
part on a registered backend remains opens that part in the same call (the cursor
advances and the whole blob is unread) but delivers no byte of it: the call returns
zero bytes and no error. A `Read` with a non-empty buffer on an open part with
unread bytes returns at least one byte, the first bytes of that part, and no
error. -/
theorem Read_opens_next_part (w : World) (m : FileMeta) (pre later : List FilePart)
    (part : FilePart) (p : Nat) (hparts : m.Parts = pre ++ part :: later)
    (hres : (w.storageManager.hostToStorage part.StorageURL).isSome) (hp : 1 ≤ p) :
    filePartsReader.Read w
        { currentPart := pre.length, currentPartBody := some [], meta := m } p =
      (.ok ([], none),
        { currentPart := pre.length + 1, currentPartBody := some (partContent w part),
          meta := m }) ∧
    ∀ (cur : Nat) (b : Byte) (bs : List Byte),
      filePartsReader.Read w
          { currentPart := cur, currentPartBody := some (b :: bs), meta := m } p =
        (.ok ((b :: bs).take p, none),
          { currentPart := cur, currentPartBody := some ((b :: bs).drop p), meta := m }) ∧
      (b :: bs).take p ≠ [] := by
  have hopen := getNextStorage_open w m pre later part (some []) hparts hres
  refine ⟨?_, ?_⟩
  · simp [filePartsReader.Read, filePartsReader.readBody, bytesReaderRead, Error.Is, hopen]
  · intro cur b bs
    obtain ⟨q, rfl⟩ : ∃ q, p = q + 1 := ⟨p - 1, by omega⟩
    refine ⟨?_, by simp⟩
    simp [filePartsReader.Read, filePartsReader.readBody, bytesReaderRead]

/-- Witness of the amended C14: the boundary between `abcd` and `efgh`, buffer of four
bytes. -/
theorem Read_opens_next_part_witness :
    abcMeta.Parts =
      [{ StorageURL := "storage_0", Path := "f", ContentLength := 4 }] ++
        { StorageURL := "storage_1", Path := "f", ContentLength := 4 } ::
          [{ StorageURL := "storage_2", Path := "f", ContentLength := 2 }] ∧
    (abcWorld.storageManager.hostToStorage "storage_1").isSome ∧ 1 ≤ 4 ∧
    filePartsReader.Read abcWorld
        { currentPart := [({ StorageURL := "storage_0", Path := "f", ContentLength := 4 } :
            FilePart)].length,
          currentPartBody := some [], meta := abcMeta } 4 =
      (.ok ([], none),
        { currentPart := [({ StorageURL := "storage_0", Path := "f", ContentLength := 4 } :
            FilePart)].length + 1,
          currentPartBody := some (partContent abcWorld
            { StorageURL := "storage_1", Path := "f", ContentLength := 4 }),
          meta := abcMeta }) ∧
    ∀ (cur : Nat) (b : Byte) (bs : List Byte),
      filePartsReader.Read abcWorld
          { currentPart := cur, currentPartBody := some (b :: bs), meta := abcMeta } 4 =
        (.ok ((b :: bs).take 4, none),
          { currentPart := cur, currentPartBody := some ((b :: bs).drop 4),
            meta := abcMeta }) ∧
      (b :: bs).take 4 ≠ [] :=
  ⟨rfl, by decide, by decide,
    Read_opens_next_part abcWorld abcMeta
      [{ StorageURL := "storage_0", Path := "f", ContentLength := 4 }]
      [{ StorageURL := "storage_2", Path := "f", ContentLength := 2 }]
      { StorageURL := "storage_1", Path := "f", ContentLength := 4 } 4 rfl (by decide)
      (by decide)⟩

/-- On an empty part list the first `Read` returns the wrapped error, which is not
`io.EOF` itself, and a caller that reads to the end reports that error. -/
theorem Read_empty_parts (w : World) (m : FileMeta) (p fuel : Nat) (h : m.Parts = []) :
    filePartsReader.Read w (newFilePartsReader m) p =
      (.ok ([], some (Error.wrap "1. can't get next storage, error" Error.EOF)),
        newFilePartsReader m) ∧
    readToEnd w p (fuel + 1) (newFilePartsReader m) [] =
      some (.error (Error.wrap "1. can't get next storage, error" Error.EOF)) := by
  have hr : filePartsReader.Read w (newFilePartsReader m) p =
      (.ok ([], some (Error.wrap "1. can't get next storage, error" Error.EOF)),
        newFilePartsReader m) := by
    simp [filePartsReader.Read, newFilePartsReader, filePartsReader.getNextStorage, h]
  refine ⟨hr, ?_⟩
  simp [readToEnd, hr]

/-- C16: `PutFile` of the empty file (declared length 0, empty body) on five fresh
backends succeeds and stores a complete record with an empty part list; the first
`Read` on the stream that `GetFile` returns gives zero bytes together with the
error `1. can't get next storage, error: EOF`, which wraps `io.EOF` and is not
`io.EOF` itself, so a caller that reads to the end reports an error. -/
theorem PutFile_GetFile_empty_file :
    (NewService.PutFile goSort fiveBackends emptyFile).map (fun r => r.1) = some (.ok ()) ∧
    (NewService.PutFile goSort fiveBackends emptyFile).map
        (fun r => r.2.fileMetaStorage.metaData "e") =
      some (some { meta := { Name := "e", Parts := [], ContentLength := 0 },
                   inProgress := false }) ∧
    (NewService.PutFile goSort fiveBackends emptyFile).map
        (fun r => service.GetFile r.2 "e") =
      some (.ok ({ Name := "e", Parts := [], ContentLength := 0 },
        newFilePartsReader { Name := "e", Parts := [], ContentLength := 0 })) ∧
    (NewService.PutFile goSort fiveBackends emptyFile).map
        (fun r => (filePartsReader.Read r.2
          (newFilePartsReader { Name := "e", Parts := [], ContentLength := 0 }) 1).1) =
      some (.ok ([], some (Error.wrap "1. can't get next storage, error" Error.EOF))) ∧
    Error.wrap "1. can't get next storage, error" Error.EOF ≠ Error.EOF ∧
    (NewService.PutFile goSort fiveBackends emptyFile).map
        (fun r => readToEnd r.2 1 5
          (newFilePartsReader { Name := "e", Parts := [], ContentLength := 0 }) []) =
      some (some (.error (Error.wrap "1. can't get next storage, error" Error.EOF))) := by
  refine ⟨by decide, by decide, rfl, rfl, by decide, rfl⟩

/-- C12: in a state in which the record of `id` is complete, with a non-empty part list on
registered backends, `GetFile id` followed by reading the stream to its end with a
buffer of `p ≥ 1` bytes delivers the parts' blobs in order and leaves the state
(metadata store, registry, blobs and free space of every backend) as it was; the
same operation run again in the state it left delivers the same bytes. -/
theorem GetFile_read_idempotent (w : World) (id : String) (m : FileMeta) (p fuel : Nat)
    (hrec : w.fileMetaStorage.metaData id = some { meta := m, inProgress := false })
    (hne : m.Parts ≠ []) (hp : 1 ≤ p)
    (hres : ∀ part ∈ m.Parts, (w.storageManager.hostToStorage part.StorageURL).isSome)
    (hfuel : (m.Parts.map (fun part => (partContent w part).length + 1)).sum ≤ fuel) :
    (getAndRead w id p fuel).1 = some (.ok ((m.Parts.map (partContent w)).flatten)) ∧
    (getAndRead w id p fuel).2 = w ∧
    (getAndRead w id p fuel).2.fileMetaStorage.metaData = w.fileMetaStorage.metaData ∧
    (getAndRead w id p fuel).2.storageManager.hostToStorage =
      w.storageManager.hostToStorage ∧
    (getAndRead w id p fuel).2.storageManager.storages = w.storageManager.storages ∧
    (∀ st, ((getAndRead w id p fuel).2.heap st).dataByPath = (w.heap st).dataByPath ∧
      ((getAndRead w id p fuel).2.heap st).freeSpace = (w.heap st).freeSpace) ∧
    (getAndRead (getAndRead w id p fuel).2 id p fuel).1 = (getAndRead w id p fuel).1 := by
  have hget := GetFile_of_record w id _ hrec
  have hread := readToEnd_all w m p fuel hne hp hres hfuel
  have hrun : getAndRead w id p fuel = (some (.ok ((m.Parts.map (partContent w)).flatten)), w) := by
    simp only [getAndRead, hget, hread]
  rw [hrun]
  refine ⟨rfl, rfl, rfl, rfl, rfl, fun _ => ⟨rfl, rfl⟩, ?_⟩
  simp only
  rw [hrun]

/-- Witness of C12: the file `f` of three bytes written to five fresh backends, read
twice with a buffer of two bytes. -/
theorem GetFile_read_idempotent_witness :
    fiveBackendsAfterPut.fileMetaStorage.metaData "f" =
      some { meta := { Name := "f"
                       Parts := [{ StorageURL := "storage_4", Path := "f", ContentLength := 3 }]
                       ContentLength := 3 }
             inProgress := false } ∧
    (getAndRead fiveBackendsAfterPut "f" 2 4).1 = some (.ok [1, 2, 3]) ∧
    (getAndRead (getAndRead fiveBackendsAfterPut "f" 2 4).2 "f" 2 4).1 = some (.ok [1, 2, 3]) ∧
    ((getAndRead fiveBackendsAfterPut "f" 2 4).1 =
        some (.ok (([({ StorageURL := "storage_4", Path := "f", ContentLength := 3 } :
          FilePart)].map (partContent fiveBackendsAfterPut)).flatten)) ∧
      (getAndRead fiveBackendsAfterPut "f" 2 4).2 = fiveBackendsAfterPut ∧
      (getAndRead fiveBackendsAfterPut "f" 2 4).2.fileMetaStorage.metaData =
        fiveBackendsAfterPut.fileMetaStorage.metaData ∧
      (getAndRead fiveBackendsAfterPut "f" 2 4).2.storageManager.hostToStorage =
        fiveBackendsAfterPut.storageManager.hostToStorage ∧
      (getAndRead fiveBackendsAfterPut "f" 2 4).2.storageManager.storages =
        fiveBackendsAfterPut.storageManager.storages ∧
      (∀ st, ((getAndRead fiveBackendsAfterPut "f" 2 4).2.heap st).dataByPath =
          (fiveBackendsAfterPut.heap st).dataByPath ∧
        ((getAndRead fiveBackendsAfterPut "f" 2 4).2.heap st).freeSpace =
          (fiveBackendsAfterPut.heap st).freeSpace) ∧
      (getAndRead (getAndRead fiveBackendsAfterPut "f" 2 4).2 "f" 2 4).1 =
        (getAndRead fiveBackendsAfterPut "f" 2 4).1) :=
  ⟨by decide, by decide, by decide,
    GetFile_read_idempotent fiveBackendsAfterPut "f"
      { Name := "f"
        Parts := [{ StorageURL := "storage_4", Path := "f", ContentLength := 3 }]
        ContentLength := 3 } 2 4 (by decide) (by decide) (by decide) (by decide) (by decide)⟩

/-! ## Theorems: the registry invariant -/

theorem AddStorage_inSync (s : sm) (storageURL : String) (st : Ptr) (h : s.InSync)
    (hurl : s.hostToStorage storageURL = none) (hst : st ∉ s.storages) :
    (s.AddStorage storageURL st).2.InSync := by
  have hfresh : ∀ url, s.hostToStorage url ≠ some st := fun url hu => hst (h.listed url st hu)
  refine ⟨?_, ?_, ?_, ?_⟩
  · simp only [sm.AddStorage]
    exact List.nodup_append.2 ⟨h.nodup, List.nodup_singleton st, by
      intro a ha hb
      rw [List.mem_singleton] at hb
      exact hst (hb ▸ ha)⟩
  · intro st1 hst1
    simp only [sm.AddStorage, List.mem_append, List.mem_singleton] at hst1 ⊢
    rcases hst1 with hst1 | rfl
    · obtain ⟨url, hu⟩ := h.mapped st1 hst1
      have hne : url ≠ storageURL := fun he => by rw [he, hurl] at hu; cases hu
      exact ⟨url, by rw [Function.update_noteq hne]; exact hu⟩
    · exact ⟨storageURL, by rw [Function.update_same]⟩
  · intro url st1 hu
    simp only [sm.AddStorage, List.mem_append, List.mem_singleton] at hu ⊢
    by_cases he : url = storageURL
    · rw [he, Function.update_same] at hu
      exact Or.inr (Option.some.inj hu).symm
    · rw [Function.update_noteq he] at hu
      exact Or.inl (h.listed url st1 hu)
  · intro url1 url2 st1 h1 h2
    simp only [sm.AddStorage] at h1 h2
    by_cases he1 : url1 = storageURL
    · by_cases he2 : url2 = storageURL
      · rw [he1, he2]
      · rw [he1, Function.update_same] at h1
        rw [Function.update_noteq he2] at h2
        exact absurd h2 (by rw [← Option.some.inj h1]; exact hfresh url2)
    · by_cases he2 : url2 = storageURL
      · rw [he2, Function.update_same] at h2
        rw [Function.update_noteq he1] at h1
        exact absurd h1 (by rw [← Option.some.inj h2]; exact hfresh url1)
      · rw [Function.update_noteq he1] at h1
        rw [Function.update_noteq he2] at h2
        exact h.unique url1 url2 st1 h1 h2

theorem GetStorages_state (S : SortImpl) (heap : Ptr → inMemoryStorage) (s : sm) (count : Int) :
    (s.GetStorages S heap count).2 =
      { s with storages := S.sort (storagesLess heap) s.storages } := by
  unfold sm.GetStorages
  split <;> rfl

theorem GetStorages_inSync (S : SortImpl) (heap : Ptr → inMemoryStorage) (s : sm) (count : Int)
    (h : s.InSync) : (s.GetStorages S heap count).2.InSync := by
  rw [GetStorages_state]
  have hperm := S.perm (storagesLess heap) s.storages
  refine ⟨hperm.nodup_iff.2 h.nodup, ?_, ?_, h.unique⟩
  · intro st hst
    exact h.mapped st (hperm.subset hst)
  · intro url st hu
    exact hperm.symm.subset (h.listed url st hu)

theorem runRegistryOps_inSync (S : SortImpl) :
    ∀ (ops : List RegistryOp) (s : sm), s.InSync → FreshOps S s ops →
      (runRegistryOps S s ops).InSync := by
  intro ops
  induction ops with
  | nil => intro s h _; exact h
  | cons op ops ih =>
    intro s h hf
    cases op with
    | add storageURL st =>
      simp only [FreshOps] at hf
      simp only [runRegistryOps]
      exact ih _ (AddStorage_inSync s storageURL st h hf.1 hf.2.1) hf.2.2
    | select heap count =>
      simp only [FreshOps] at hf
      simp only [runRegistryOps]
      exact ih _ (GetStorages_inSync S heap s count h) hf

/-- Counterexample to C13 as stated: the identifier `storage_0` registered twice, first
with backend 0 and then with backend 1. The working set holds both backends, the
mapping holds one identifier, and backend 0 is a stale entry: no identifier maps
to it. -/
theorem AddStorage_twice_out_of_sync :
    (runRegistryOps goSort NewStorageManager
      [RegistryOp.add "storage_0" 0, RegistryOp.add "storage_0" 1]).storages = [0, 1] ∧
    (runRegistryOps goSort NewStorageManager
      [RegistryOp.add "storage_0" 0, RegistryOp.add "storage_0" 1]).hostToStorage "storage_0" =
        some 1 ∧
    (∀ storageURL, (runRegistryOps goSort NewStorageManager
      [RegistryOp.add "storage_0" 0, RegistryOp.add "storage_0" 1]).hostToStorage storageURL ≠
        some 0) ∧
    ¬ (runRegistryOps goSort NewStorageManager
      [RegistryOp.add "storage_0" 0, RegistryOp.add "storage_0" 1]).InSync := by
  have hstale : ∀ storageURL, (runRegistryOps goSort NewStorageManager
      [RegistryOp.add "storage_0" 0, RegistryOp.add "storage_0" 1]).hostToStorage storageURL ≠
        some 0 := by
    intro storageURL
    simp only [runRegistryOps, sm.AddStorage, NewStorageManager]
    by_cases he : storageURL = "storage_0"
    · rw [he, Function.update_same]
      decide
    · rw [Function.update_noteq he, Function.update_noteq he]
      simp
  refine ⟨by decide, by decide, hstale, ?_⟩
  intro h
  obtain ⟨url, hu⟩ := h.mapped 0 (by decide)
  exact hstale url hu

/-- C13, amended: after every sequence of `GetStorages` calls and of `AddStorage` calls
each of which registers a backend that is not yet in the working set under an
identifier that is not yet registered, on a fresh registry, the mapping and the
working set are in sync: the working set holds no backend twice, it holds exactly
the backends of the mapping, and no backend is registered under two identifiers. -/
theorem registry_inSync (S : SortImpl) (ops : List RegistryOp)
    (hfresh : FreshOps S NewStorageManager ops) :
    (runRegistryOps S NewStorageManager ops).InSync := by
  refine runRegistryOps_inSync S ops NewStorageManager ?_ hfresh
  refine ⟨List.nodup_nil, ?_, ?_, ?_⟩
  · intro st hst
    simp [NewStorageManager] at hst
  · intro url st hu
    simp [NewStorageManager] at hu
  · intro url1 url2 st h1
    simp [NewStorageManager] at h1

/-- Witness of the amended C13: two backends registered under two identifiers, with a
`GetStorages` call in between. -/
theorem registry_inSync_witness :
    FreshOps goSort NewStorageManager
      [RegistryOp.add "storage_0" 0, RegistryOp.select threeBackends.heap 1,
       RegistryOp.add "storage_1" 1] ∧
    (runRegistryOps goSort NewStorageManager
      [RegistryOp.add "storage_0" 0, RegistryOp.select threeBackends.heap 1,
       RegistryOp.add "storage_1" 1]).InSync :=
  ⟨by
      simp only [FreshOps, NewStorageManager, sm.AddStorage, GetStorages_state]
      refine ⟨trivial, by simp, ?_, ?_, trivial⟩
      · rw [Function.update_noteq (by decide)]
      · intro h
        have := (goSort.perm _ _).subset h
        simp at this,
    registry_inSync goSort _ (by
      simp only [FreshOps, NewStorageManager, sm.AddStorage, GetStorages_state]
      refine ⟨trivial, by simp, ?_, ?_, trivial⟩
      · rw [Function.update_noteq (by decide)]
      · intro h
        have := (goSort.perm _ _).subset h
        simp at this)⟩

/-! ## Theorems: the two regimes of the chunking engine -/

/-- The part size that one iteration computes, without the 64-bit wrap-around. -/
theorem loopBody_exact (s : service) (st : LoopState) (hm : 0 < s.minChunkSizeInBytes)
    (hr : 0 < st.remain) (hr64 : st.remain < 9223372036854775808)
    (hk : 1 ≤ st.splitCount) (hk64 : st.splitCount < 9223372036854775808) :
    s.loopBody st =
      .ok { result := st.result ++
              [if st.remain / st.splitCount + (if st.remain % st.splitCount = 0 then 0 else 1) ≤
                  s.minChunkSizeInBytes
                then minInt64 st.remain s.minChunkSizeInBytes
                else st.remain / st.splitCount +
                  (if st.remain % st.splitCount = 0 then 0 else 1)]
            remain := st.remain -
              (if st.remain / st.splitCount + (if st.remain % st.splitCount = 0 then 0 else 1) ≤
                  s.minChunkSizeInBytes
                then minInt64 st.remain s.minChunkSizeInBytes
                else st.remain / st.splitCount +
                  (if st.remain % st.splitCount = 0 then 0 else 1))
            splitCount := st.splitCount - 1 } := by
  obtain ⟨res, r, k⟩ := st
  simp only at hr hr64 hk hk64 ⊢
  have hd : Int.tdiv r k = r / k := Int.tdiv_eq_ediv (by omega) (by omega)
  have hmod : Int.tmod r k = r % k := Int.tmod_eq_emod (by omega) (by omega)
  have hq0 : 0 ≤ r / k := Int.ediv_nonneg (by omega) (by omega)
  have hqr : r / k ≤ r := Int.ediv_le_self _ (by omega)
  have hrem0 : 0 ≤ r % k := Int.emod_nonneg _ (by omega)
  have hremk : r % k < k := Int.emod_lt_of_pos _ (by omega)
  have hsplit : k * (r / k) + r % k = r := Int.ediv_add_emod r k
  have hmul : r / k ≤ k * (r / k) := le_mul_of_one_le_left hq0 hk
  have hmul0 : r / k = 0 → k * (r / k) = 0 := fun h => by rw [h, mul_zero]
  generalize k * (r / k) = mq at hsplit hmul hmul0
  generalize r / k = q at *
  generalize r % k = e at *
  have hk0 : k ≠ 0 := by omega
  have hwq : wrapInt64 q = q := wrapInt64_eq_self ⟨by omega, by omega⟩
  have hwk : wrapInt64 (k - 1) = k - 1 := wrapInt64_eq_self ⟨by omega, by omega⟩
  simp only [service.loopBody, hk0, if_false, hd, hmod, hwq, hwk]
  by_cases he : e = 0
  · simp only [he, ne_eq, not_true_eq_false, if_false, if_true, add_zero]
    by_cases hc : q ≤ s.minChunkSizeInBytes
    · simp only [hc, if_true, minInt64]
      by_cases hlt : r < s.minChunkSizeInBytes
      · simp only [hlt, if_true]
        rw [wrapInt64_eq_self ⟨by omega, by omega⟩]
      · simp only [hlt, if_false]
        rw [wrapInt64_eq_self ⟨by omega, by omega⟩]
    · simp only [hc, if_false]
      rw [wrapInt64_eq_self ⟨by omega, by omega⟩]
  · have hw1 : wrapInt64 (q + 1) = q + 1 := wrapInt64_eq_self ⟨by omega, by omega⟩
    simp only [he, ne_eq, not_false_eq_true, if_true, if_false, hw1]
    by_cases hc : q + 1 ≤ s.minChunkSizeInBytes
    · simp only [hc, if_true, minInt64]
      by_cases hlt : r < s.minChunkSizeInBytes
      · simp only [hlt, if_true]
        rw [wrapInt64_eq_self ⟨by omega, by omega⟩]
      · simp only [hlt, if_false]
        rw [wrapInt64_eq_self ⟨by omega, by omega⟩]
    · simp only [hc, if_false]
      rw [wrapInt64_eq_self ⟨by omega, by omega⟩]

/-- One iteration in the floor-clipped regime takes `min(remain, floor)`. -/
theorem loopBody_clipped (s : service) (res : List Int) (r k : Int)
    (hm : 0 < s.minChunkSizeInBytes) (hr : 0 < r) (hr64 : r < 9223372036854775808)
    (hk : 1 ≤ k) (hk64 : k < 9223372036854775808) (hle : r ≤ k * s.minChunkSizeInBytes) :
    s.loopBody { result := res, remain := r, splitCount := k } =
      .ok { result := res ++ [minInt64 r s.minChunkSizeInBytes]
            remain := r - minInt64 r s.minChunkSizeInBytes
            splitCount := k - 1 } := by
  rw [loopBody_exact s _ hm hr hr64 hk hk64]
  simp only
  have hc : r / k + (if r % k = 0 then 0 else 1) ≤ s.minChunkSizeInBytes := by
    have hsplit : k * (r / k) + r % k = r := Int.ediv_add_emod r k
    have hrem0 : 0 ≤ r % k := Int.emod_nonneg _ (by omega)
    by_cases he : r % k = 0
    · simp only [he, if_true, add_zero]
      have h1 : k * (r / k) ≤ k * s.minChunkSizeInBytes := by omega
      exact le_of_mul_le_mul_left h1 (by omega)
    · simp only [he, if_false]
      have h1 : k * (r / k) < k * s.minChunkSizeInBytes := by omega
      have := lt_of_mul_lt_mul_left h1 (by omega : (0 : Int) ≤ k)
      omega
  simp only [hc, if_true]

/-- One iteration in the balanced regime takes the ceiling of `remain / splitCount`. -/
theorem loopBody_balanced (s : service) (res : List Int) (q e k : Int)
    (hm : 0 < s.minChunkSizeInBytes) (hq : s.minChunkSizeInBytes ≤ q) (he0 : 0 ≤ e)
    (hek : e < k) (hr64 : q * k + e < 9223372036854775808)
    (hk64 : k < 9223372036854775808) :
    s.loopBody { result := res, remain := q * k + e, splitCount := k } =
      .ok { result := res ++ [q + (if e = 0 then 0 else 1)]
            remain := q * k + e - (q + (if e = 0 then 0 else 1))
            splitCount := k - 1 } := by
  have hk : 1 ≤ k := by omega
  have hqk : q ≤ q * k := le_mul_of_one_le_right (by omega) hk
  have hr : 0 < q * k + e := by omega
  have hdiv : (q * k + e) / k = q := by
    rw [add_comm, Int.add_mul_ediv_right _ _ (by omega : k ≠ 0),
      Int.ediv_eq_zero_of_lt he0 hek, zero_add]
  have hmod : (q * k + e) % k = e := by
    rw [add_comm, Int.add_mul_emod_self, Int.emod_eq_of_lt he0 hek]
  rw [loopBody_exact s _ hm hr hr64 hk hk64]
  simp only [hdiv, hmod]
  by_cases hc : q + (if e = 0 then 0 else 1) ≤ s.minChunkSizeInBytes
  · have he : e = 0 := by
      by_contra hne
      simp only [hne, if_false] at hc
      omega
    have hqm : q = s.minChunkSizeInBytes := by
      simp only [he, if_true, add_zero] at hc
      omega
    have hnlt : ¬ q * k + e < s.minChunkSizeInBytes := by omega
    simp only [hc, if_true, minInt64, hnlt, if_false]
    simp only [he, if_true, add_zero, hqm]
  · simp only [hc, if_false]

theorem loop_done (s : service) (fuel : Nat) (res : List Int) (r k : Int) (hr : r ≤ 0) :
    s.loop fuel { result := res, remain := r, splitCount := k } = some (.ok res) := by
  have hn : ¬ r > 0 := by omega
  cases fuel <;> simp [service.loop, hn]

theorem floorClipped_zero (m : Int) : floorClipped m 0 = [] := by
  simp [floorClipped]

theorem floorClipped_small (m r : Int) (hr : 0 < r) (hlt : r < m) : floorClipped m r = [r] := by
  have hd : r / m = 0 := Int.ediv_eq_zero_of_lt (by omega) hlt
  have hmod : r % m = r := Int.emod_eq_of_lt (by omega) hlt
  have hne : ¬ r = 0 := by omega
  simp [floorClipped, hd, hmod, hne]

theorem floorClipped_step (m r : Int) (hm : 0 < m) (hge : m ≤ r) :
    floorClipped m r = m :: floorClipped m (r - m) := by
  have hd : r / m = (r - m) / m + 1 := by
    have : r = (r - m) + 1 * m := by ring
    conv_lhs => rw [this]
    rw [Int.add_mul_ediv_right _ _ (by omega : m ≠ 0)]
  have hmod : r % m = (r - m) % m := by
    have : r = (r - m) + 1 * m := by ring
    conv_lhs => rw [this]
    rw [Int.add_mul_emod_self]
  have hq0 : 0 ≤ (r - m) / m := Int.ediv_nonneg (by omega) (by omega)
  have hnat : ((r - m) / m + 1).toNat = ((r - m) / m).toNat + 1 := by omega
  simp only [floorClipped, hd, hmod, hnat, List.replicate_succ, List.cons_append]

/-- The loop in the floor-clipped regime. -/
theorem loop_clipped (s : service) (hm : 0 < s.minChunkSizeInBytes) :
    ∀ (k fuel : Nat) (res : List Int) (r : Int), 0 ≤ r → r ≤ k * s.minChunkSizeInBytes →
      r ≤ fuel → r < 9223372036854775808 → (k : Int) < 9223372036854775808 →
      s.loop fuel { result := res, remain := r, splitCount := k } =
        some (.ok (res ++ floorClipped s.minChunkSizeInBytes r)) := by
  intro k
  induction k with
  | zero =>
    intro fuel res r h0 hle _ _ _
    have hz : r = 0 := by simp at hle; omega
    subst hz
    rw [loop_done s fuel res 0 _ (le_refl _), floorClipped_zero, List.append_nil]
  | succ k ih =>
    intro fuel res r h0 hle hfuel h64 hk64
    by_cases hz : r = 0
    · subst hz
      rw [loop_done s fuel res 0 _ (le_refl _), floorClipped_zero, List.append_nil]
    · have hr : 0 < r := by omega
      obtain ⟨fuel, rfl⟩ : ∃ n, fuel = n + 1 := ⟨fuel - 1, by omega⟩
      have hk1 : ((k + 1 : Nat) : Int) - 1 = (k : Int) := by omega
      have hbody := loopBody_clipped s res r ((k + 1 : Nat) : Int) hm hr h64 (by omega) hk64 hle
      rw [hk1] at hbody
      have hgt : r > 0 := hr
      simp only [service.loop, hgt, if_true, hbody]
      push_cast at hle hfuel hk64
      by_cases hlt : r < s.minChunkSizeInBytes
      · have hmin : minInt64 r s.minChunkSizeInBytes = r := by simp [minInt64, hlt]
        rw [hmin, sub_self, loop_done s fuel _ 0 _ (le_refl _),
          floorClipped_small _ r hr hlt]
      · have hmin : minInt64 r s.minChunkSizeInBytes = s.minChunkSizeInBytes := by
          simp [minInt64, hlt]
        rw [hmin, ih fuel _ (r - s.minChunkSizeInBytes) (by omega) (by linarith) (by omega)
          (by omega) (by omega), floorClipped_step _ r hm (by omega)]
        simp

/-- The loop in the balanced regime. -/
theorem loop_balanced (s : service) (hm : 0 < s.minChunkSizeInBytes) (q : Int)
    (hq : s.minChunkSizeInBytes ≤ q) :
    ∀ (k e fuel : Nat) (res : List Int), (e < k ∨ (k = 0 ∧ e = 0)) →
      q * k + e ≤ fuel → q * k + e < 9223372036854775808 →
      (k : Int) < 9223372036854775808 →
      s.loop fuel { result := res, remain := q * k + e, splitCount := k } =
        some (.ok (res ++ List.replicate e (q + 1) ++ List.replicate (k - e) q)) := by
  intro k
  induction k with
  | zero =>
    intro e fuel res hek _ _ _
    have he : e = 0 := by omega
    subst he
    rw [loop_done s fuel res _ _ (by simp)]
    simp
  | succ k ih =>
    intro e fuel res hek hfuel h64 hk64
    have hek1 : e < k + 1 := by omega
    have hqk : 0 ≤ q * (k : Int) := mul_nonneg (by omega) (by omega)
    have hexp : q * ((k + 1 : Nat) : Int) = q * (k : Int) + q := by push_cast; ring
    have hbody := loopBody_balanced s res q (e : Int) ((k + 1 : Nat) : Int) hm hq (by omega)
      (by omega) h64 hk64
    have hk1 : ((k + 1 : Nat) : Int) - 1 = (k : Int) := by omega
    rw [hk1] at hbody
    rw [hexp] at hfuel h64
    have hr : q * ((k + 1 : Nat) : Int) + (e : Int) > 0 := by rw [hexp]; omega
    obtain ⟨fuel, rfl⟩ : ∃ n, fuel = n + 1 := ⟨fuel - 1, by omega⟩
    have hfuel1 : q * (k : Int) + q + (e : Int) ≤ (fuel : Int) + 1 := by exact_mod_cast hfuel
    simp only [service.loop, hr, if_true, hbody]
    cases e with
    | zero =>
      have hrem : q * ((k + 1 : Nat) : Int) + ((0 : Nat) : Int) -
          (q + if ((0 : Nat) : Int) = 0 then 0 else 1) = q * (k : Int) + ((0 : Nat) : Int) := by
        rw [hexp]
        simp only [Nat.cast_zero, if_true, add_zero]
        omega
      simp only [Nat.cast_zero, add_zero] at hfuel1 h64
      rw [hrem, ih 0 fuel _ (by omega) (by simp only [Nat.cast_zero, add_zero]; omega)
        (by simp only [Nat.cast_zero, add_zero]; omega) (by omega)]
      simp [List.replicate_succ]
    | succ e =>
      have hne : ¬ (((e + 1 : Nat) : Int) = 0) := by omega
      have hcast : ((e + 1 : Nat) : Int) = (e : Int) + 1 := by push_cast; ring
      have hrem : q * ((k + 1 : Nat) : Int) + ((e + 1 : Nat) : Int) -
          (q + if ((e + 1 : Nat) : Int) = 0 then 0 else 1) = q * (k : Int) + (e : Int) := by
        rw [hexp]
        simp only [hne, if_false]
        omega
      rw [hcast] at hfuel1 h64
      rw [hrem, ih e fuel _ (by omega) (by omega) (by omega) (by omega)]
      have hne2 : ¬ ((e : Int) + 1 = 0) := by omega
      simp [hne2, List.replicate_succ]

/-- The output in the floor-clipped regime, `0 ≤ L ≤ N * floor`. -/
theorem calculatePartsSize_clipped (mem L N : Int) (hL : 0 ≤ L) (hL64 : IsInt64 L)
    (hN : 1 ≤ N) (hcap : 8 * N ≤ maxAlloc) (hmem : 8 * N ≤ mem) (hle : L ≤ N * 10240) :
    NewService.calculatePartsSize mem L N = some (.ok (floorClipped 10240 L)) := by
  have hm : 0 < NewService.minChunkSizeInBytes := by decide
  have hmv : NewService.minChunkSizeInBytes = 10240 := by decide
  have hN64 := isInt64_of_cap N (by omega) hcap
  have hmake := makeInt64Slice_ok mem N (by omega) hcap hmem
  obtain ⟨k, rfl⟩ : ∃ k : Nat, N = k := ⟨N.toNat, by omega⟩
  have h := loop_clipped NewService hm k L.toNat [] L hL (by rw [hmv]; exact hle) (by omega)
    hL64.2 hN64.2
  rw [hmv] at h
  simpa [service.calculatePartsSize, hmake] using h

/-- The output in the balanced regime, `N * floor ≤ L`. -/
theorem calculatePartsSize_balanced (mem L N : Int) (hL64 : IsInt64 L) (hN : 1 ≤ N)
    (hcap : 8 * N ≤ maxAlloc) (hmem : 8 * N ≤ mem) (hge : N * 10240 ≤ L) :
    10240 ≤ L / N ∧
    NewService.calculatePartsSize mem L N = some (.ok (balancedSplit L N)) := by
  have hm : 0 < NewService.minChunkSizeInBytes := by decide
  have hmv : NewService.minChunkSizeInBytes = 10240 := by decide
  have hN64 := isInt64_of_cap N (by omega) hcap
  have hmake := makeInt64Slice_ok mem N (by omega) hcap hmem
  have hq : 10240 ≤ L / N := by
    rw [Int.le_ediv_iff_mul_le (by omega)]
    linarith
  have he0 : 0 ≤ L % N := Int.emod_nonneg _ (by omega)
  have hek : L % N < N := Int.emod_lt_of_pos _ (by omega)
  have hsplit : L / N * N + L % N = L := by
    have := Int.ediv_add_emod L N
    linarith
  refine ⟨hq, ?_⟩
  obtain ⟨k, rfl⟩ : ∃ k : Nat, N = k := ⟨N.toNat, by omega⟩
  obtain ⟨e, he⟩ : ∃ e : Nat, L % (k : Int) = e := ⟨(L % (k : Int)).toNat, by omega⟩
  have hLpos : 0 ≤ L := by omega
  have h := loop_balanced NewService hm (L / (k : Int)) (by rw [hmv]; exact hq) k e L.toNat []
    (Or.inl (by omega)) (by rw [← he, hsplit]; omega) (by rw [← he, hsplit]; exact hL64.2)
    hN64.2
  rw [← he, hsplit] at h
  have hnat1 : (L % (k : Int)).toNat = e := by omega
  have hnat2 : ((k : Int) - L % (k : Int)).toNat = k - e := by omega
  simp only [service.calculatePartsSize, hmake, balancedSplit, hnat1, hnat2]
  simpa using h

theorem pairwise_replicate_ge (n : Nat) (u : Int) :
    (List.replicate n u).Pairwise (fun a b => b ≤ a) := by
  induction n with
  | zero => simp
  | succ n ih =>
    rw [List.replicate_succ, List.pairwise_cons]
    refine ⟨?_, ih⟩
    intro b hb
    rw [List.eq_of_mem_replicate hb]

theorem floorClipped_shape (L : Int) :
    (floorClipped 10240 L).Pairwise (fun a b => b ≤ a) ∧
    ∀ x ∈ (floorClipped 10240 L).dropLast, 10240 ≤ x := by
  have hlt : L % 10240 < 10240 := Int.emod_lt_of_pos _ (by decide)
  by_cases he : L % 10240 = 0
  · simp only [floorClipped, he, if_true, List.append_nil]
    refine ⟨pairwise_replicate_ge _ _, ?_⟩
    intro x hx
    rw [List.eq_of_mem_replicate (List.mem_of_mem_dropLast hx)]
  · simp only [floorClipped, he, if_false]
    refine ⟨?_, ?_⟩
    · rw [List.pairwise_append]
      refine ⟨pairwise_replicate_ge _ _, List.pairwise_singleton _ _, ?_⟩
      intro a ha b hb
      rw [List.eq_of_mem_replicate ha, List.mem_singleton.1 hb]
      omega
    · intro x hx
      rw [List.dropLast_concat] at hx
      rw [List.eq_of_mem_replicate hx]

theorem balancedSplit_shape (L N : Int) (hN : 1 ≤ N) (hq : 10240 ≤ L / N) :
    ((balancedSplit L N).length : Int) = N ∧
    (∀ x ∈ balancedSplit L N, 10240 ≤ x ∧ (x = L / N ∨ x = L / N + 1)) ∧
    (balancedSplit L N).Pairwise (fun a b => b ≤ a) := by
  have he0 : 0 ≤ L % N := Int.emod_nonneg _ (by omega)
  have hek : L % N < N := Int.emod_lt_of_pos _ (by omega)
  have hmem : ∀ x ∈ balancedSplit L N, x = L / N ∨ x = L / N + 1 := by
    intro x hx
    simp only [balancedSplit, List.mem_append] at hx
    rcases hx with hx | hx
    · exact Or.inr (List.eq_of_mem_replicate hx)
    · exact Or.inl (List.eq_of_mem_replicate hx)
  refine ⟨?_, ?_, ?_⟩
  · simp only [balancedSplit, List.length_append, List.length_replicate, Nat.cast_add]
    omega
  · intro x hx
    have := hmem x hx
    exact ⟨by omega, this⟩
  · simp only [balancedSplit]
    rw [List.pairwise_append]
    refine ⟨pairwise_replicate_ge _ _, pairwise_replicate_ge _ _, ?_⟩
    intro a ha b hb
    rw [List.eq_of_mem_replicate ha, List.eq_of_mem_replicate hb]
    omega

/-- Counterexample to C19 as stated: with `N = 1152921504606846976` and `L = 1`, inside
the floor-clipped regime, `make([]int64, 0, N)` panics, whatever memory the machine
has, and the part list `[1]` is not returned. -/
theorem calculatePartsSize_floor_clipped_make_panics :
    (1 : Int) ≤ 1152921504606846976 ∧ IsInt64 1152921504606846976 ∧
    (1 : Int) ≤ 1 ∧ (1 : Int) ≤ 1152921504606846976 * 10240 ∧
    ∀ mem : Int, NewService.calculatePartsSize mem 1 1152921504606846976 =
      some (.error Fault.makesliceCapOutOfRange) := by
  refine ⟨by decide, by decide, by decide, by decide, ?_⟩
  intro mem
  have h : (1152921504606846976 : Int) < 0 ∨ 8 * 1152921504606846976 > maxAlloc :=
    Or.inr (by decide)
  simp only [service.calculatePartsSize, makeInt64Slice, h, if_true]

/-- C19, amended: for every `N ≥ 1` for which `make([]int64, 0, N)` succeeds (its `8 * N`
bytes are within `maxAlloc` and within the memory of the machine) and every `L` with
`1 ≤ L ≤ N * 10240`, `calculatePartsSize L N` returns `L / 10240` parts of exactly
10240 bytes followed, when `L` is not a multiple of 10240, by one last part of
`L % 10240` bytes, and nothing else. -/
theorem calculatePartsSize_floor_clipped (mem L N : Int) (hL : 1 ≤ L) (hL64 : IsInt64 L)
    (hN : 1 ≤ N) (hcap : 8 * N ≤ maxAlloc) (hmem : 8 * N ≤ mem) (hle : L ≤ N * 10240) :
    NewService.minChunkSizeInBytes = 10240 ∧
    NewService.calculatePartsSize mem L N =
      some (.ok (List.replicate (L / 10240).toNat 10240 ++
        (if L % 10240 = 0 then [] else [L % 10240]))) := by
  refine ⟨by decide, ?_⟩
  rw [calculatePartsSize_clipped mem L N (by omega) hL64 hN hcap hmem hle]
  rfl

/-- Witness of the amended C19: `L = 23000`, `N = 5` give `[10240, 10240, 2520]`. -/
theorem calculatePartsSize_floor_clipped_witness :
    (1 : Int) ≤ 23000 ∧ IsInt64 23000 ∧ (1 : Int) ≤ 5 ∧ (8 : Int) * 5 ≤ maxAlloc ∧
    (8 : Int) * 5 ≤ 40 ∧ (23000 : Int) ≤ 5 * 10240 ∧
    NewService.calculatePartsSize 40 23000 5 = some (.ok [10240, 10240, 2520]) ∧
    (List.replicate ((23000 : Int) / 10240).toNat (10240 : Int) ++
        (if (23000 : Int) % 10240 = 0 then [] else [(23000 : Int) % 10240])) =
      [10240, 10240, 2520] ∧
    NewService.minChunkSizeInBytes = 10240 ∧
    NewService.calculatePartsSize 40 23000 5 =
      some (.ok (List.replicate ((23000 : Int) / 10240).toNat 10240 ++
        (if (23000 : Int) % 10240 = 0 then [] else [(23000 : Int) % 10240]))) :=
  ⟨by decide, by decide, by decide, by decide, by decide, by decide, rfl, by decide,
    calculatePartsSize_floor_clipped 40 23000 5 (by decide) (by decide) (by decide) (by decide)
      (by decide) (by decide)⟩

/-- Counterexample to C20 as stated: with `N = 70368744177664` and
`L = 720575940379279361 = N * 10240 + 1`, inside the balanced regime,
`make([]int64, 0, N)` panics, whatever memory the machine has, and no part list is
returned. -/
theorem calculatePartsSize_balanced_make_panics :
    (1 : Int) ≤ 70368744177664 ∧ IsInt64 70368744177664 ∧
    IsInt64 720575940379279361 ∧ (70368744177664 : Int) * 10240 < 720575940379279361 ∧
    ∀ mem : Int, NewService.calculatePartsSize mem 720575940379279361 70368744177664 =
      some (.error Fault.makesliceCapOutOfRange) := by
  refine ⟨by decide, by decide, by decide, by decide, ?_⟩
  intro mem
  have h : (70368744177664 : Int) < 0 ∨ 8 * 70368744177664 > maxAlloc :=
    Or.inr (by decide)
  simp only [service.calculatePartsSize, makeInt64Slice, h, if_true]

/-- C20, amended: for every `N ≥ 1` for which `make([]int64, 0, N)` succeeds (its `8 * N`
bytes are within `maxAlloc` and within the memory of the machine) and every
`L > N * 10240`, `calculatePartsSize L N` returns exactly `N` parts: the first
`L % N` of `L / N + 1` bytes and the others of `L / N` bytes, so each of at least
10240 bytes, in non-increasing order, any two differing by at most 1. And for every
`L ≥ 0` the output is in non-increasing order with every part but the last of at
least 10240 bytes. -/
theorem calculatePartsSize_balanced_regime (mem L N : Int) (hL64 : IsInt64 L) (hN : 1 ≤ N)
    (hcap : 8 * N ≤ maxAlloc) (hmem : 8 * N ≤ mem) :
    (N * 10240 < L →
      ∃ sizes : List Int, NewService.calculatePartsSize mem L N = some (.ok sizes) ∧
        sizes = List.replicate (L % N).toNat (L / N + 1) ++
          List.replicate (N - L % N).toNat (L / N) ∧
        (sizes.length : Int) = N ∧ (∀ x ∈ sizes, 10240 ≤ x) ∧
        sizes.Pairwise (fun a b => b ≤ a) ∧
        (∀ x ∈ sizes, ∀ y ∈ sizes, x - y ≤ 1)) ∧
    (0 ≤ L →
      ∃ sizes : List Int, NewService.calculatePartsSize mem L N = some (.ok sizes) ∧
        sizes.Pairwise (fun a b => b ≤ a) ∧ ∀ x ∈ sizes.dropLast, 10240 ≤ x) := by
  have hbal : N * 10240 < L →
      NewService.calculatePartsSize mem L N = some (.ok (balancedSplit L N)) ∧
      ((balancedSplit L N).length : Int) = N ∧
      (∀ x ∈ balancedSplit L N, 10240 ≤ x ∧ (x = L / N ∨ x = L / N + 1)) ∧
      (balancedSplit L N).Pairwise (fun a b => b ≤ a) := by
    intro hgt
    obtain ⟨hq, hcalc⟩ := calculatePartsSize_balanced mem L N hL64 hN hcap hmem (by omega)
    exact ⟨hcalc, balancedSplit_shape L N hN hq⟩
  refine ⟨?_, ?_⟩
  · intro hgt
    obtain ⟨hcalc, hlen, hmem1, hpw⟩ := hbal hgt
    refine ⟨balancedSplit L N, hcalc, rfl, hlen, fun x hx => (hmem1 x hx).1, hpw, ?_⟩
    intro x hx y hy
    have h1 := (hmem1 x hx).2
    have h2 := (hmem1 y hy).2
    omega
  · intro hL
    by_cases hle : L ≤ N * 10240
    · refine ⟨floorClipped 10240 L,
        calculatePartsSize_clipped mem L N hL hL64 hN hcap hmem hle, ?_⟩
      exact floorClipped_shape L
    · obtain ⟨hcalc, _, hmem1, hpw⟩ := hbal (by omega)
      exact ⟨balancedSplit L N, hcalc, hpw,
        fun x hx => (hmem1 x (List.mem_of_mem_dropLast hx)).1⟩

/-- Witness of the amended C20: `L = 100001`, `N = 5` give
`[20001, 20000, 20000, 20000, 20000]`. -/
theorem calculatePartsSize_balanced_regime_witness :
    IsInt64 100001 ∧ (1 : Int) ≤ 5 ∧ (8 : Int) * 5 ≤ maxAlloc ∧ (8 : Int) * 5 ≤ 40 ∧
    (5 : Int) * 10240 < 100001 ∧ (0 : Int) ≤ 100001 ∧
    NewService.calculatePartsSize 40 100001 5 =
      some (.ok [20001, 20000, 20000, 20000, 20000]) ∧
    (∃ sizes : List Int, NewService.calculatePartsSize 40 100001 5 = some (.ok sizes) ∧
        sizes = List.replicate ((100001 : Int) % 5).toNat ((100001 : Int) / 5 + 1) ++
          List.replicate ((5 : Int) - (100001 : Int) % 5).toNat ((100001 : Int) / 5) ∧
        (sizes.length : Int) = 5 ∧ (∀ x ∈ sizes, 10240 ≤ x) ∧
        sizes.Pairwise (fun a b => b ≤ a) ∧
        (∀ x ∈ sizes, ∀ y ∈ sizes, x - y ≤ 1)) ∧
    (∃ sizes : List Int, NewService.calculatePartsSize 40 100001 5 = some (.ok sizes) ∧
        sizes.Pairwise (fun a b => b ≤ a) ∧ ∀ x ∈ sizes.dropLast, 10240 ≤ x) :=
  ⟨by decide, by decide, by decide, by decide, by decide, by decide, rfl,
    (calculatePartsSize_balanced_regime 40 100001 5 (by decide) (by decide) (by decide)
      (by decide)).1 (by decide),
    (calculatePartsSize_balanced_regime 40 100001 5 (by decide) (by decide) (by decide)
      (by decide)).2 (by decide)⟩

/-- Counterexample to C18 as stated: with the split count 0 and the length 0 the call
returns the empty part list, and no error; with the split count 0 and the length 3
it panics with a division by zero; with the split count -1 it panics in `make`. -/
theorem calculatePartsSize_nonpositive_split :
    NewService.calculatePartsSize 40 0 0 = some (.ok []) ∧
    NewService.calculatePartsSize 40 3 0 = some (.error Fault.divideByZero) ∧
    NewService.calculatePartsSize 40 3 (-1) = some (.error Fault.makesliceCapOutOfRange) :=
  ⟨rfl, rfl, rfl⟩

/-- C18, amended: `calculatePartsSize` validates nothing and has no error result; the
service calls it with the fixed split count 5 only, and with the split count 5, on
a machine that has the 40 bytes of `make([]int64, 0, 5)`, the call returns a part
list for every total length `L` that is an int64, so it neither errors nor faults;
with the split count 0 and a total length `L ≤ 0` the loop is not entered and the
call returns the empty part list. -/
theorem calculatePartsSize_zero_split (mem : Int) (hmem : 40 ≤ mem) :
    NewService.partsNumToSplit = 5 ∧
    (∀ L : Int, IsInt64 L →
      ∃ sizes : List Int, NewService.calculatePartsSize mem L 5 = some (.ok sizes)) ∧
    (∀ L : Int, L ≤ 0 → NewService.calculatePartsSize mem L 0 = some (.ok [])) := by
  have h5 := makeInt64Slice_ok mem 5 (by decide) (by decide) (by omega)
  have h0 := makeInt64Slice_ok mem 0 (by decide) (by decide) (by omega)
  refine ⟨by decide, ?_, ?_⟩
  · intro L hL64
    by_cases hL : 0 ≤ L
    · obtain ⟨sizes, h, _⟩ :=
        calculatePartsSize_spec mem L 5 hL hL64 (by decide) (by decide) (by omega)
      exact ⟨sizes, h⟩
    · refine ⟨[], ?_⟩
      simp only [service.calculatePartsSize, h5]
      exact loop_done NewService L.toNat [] L 5 (by omega)
  · intro L hL
    simp only [service.calculatePartsSize, h0]
    exact loop_done NewService L.toNat [] L 0 hL

/-- Witness of the amended C18 on a machine with 40 bytes of memory. -/
theorem calculatePartsSize_zero_split_witness :
    (40 : Int) ≤ 40 ∧
    NewService.calculatePartsSize 40 23000 5 = some (.ok [10240, 10240, 2520]) ∧
    NewService.calculatePartsSize 40 (-1) 5 = some (.ok []) ∧
    NewService.calculatePartsSize 40 (-1) 0 = some (.ok []) ∧
    NewService.partsNumToSplit = 5 ∧
    (∀ L : Int, IsInt64 L →
      ∃ sizes : List Int, NewService.calculatePartsSize 40 L 5 = some (.ok sizes)) ∧
    (∀ L : Int, L ≤ 0 → NewService.calculatePartsSize 40 L 0 = some (.ok [])) :=
  ⟨by decide, rfl, rfl, rfl, calculatePartsSize_zero_split 40 (by decide)⟩

/-! ## Theorems: capacity accounting of a backend -/

theorem blobSize_nonneg (m : inMemoryStorage) (path : String) : 0 ≤ m.blobSize path := by
  simp [inMemoryStorage.blobSize]

/-- The stored size over a set of paths when the blob map changes at `path` only. -/
theorem storedSize_update (m m1 : inMemoryStorage) (path : String)
    (hother : ∀ q, q ≠ path → m1.blobSize q = m.blobSize q) :
    ∀ paths : List String, paths.Nodup →
      m1.storedSize paths =
        m.storedSize paths +
          (if path ∈ paths then m1.blobSize path - m.blobSize path else 0) := by
  intro paths
  induction paths with
  | nil => intro _; simp [inMemoryStorage.storedSize]
  | cons q qs ih =>
    intro hnd
    have hq : q ∉ qs := (List.nodup_cons.1 hnd).1
    have ih1 := ih (List.nodup_cons.1 hnd).2
    simp only [inMemoryStorage.storedSize, List.map_cons, List.sum_cons] at ih1 ⊢
    by_cases he : q = path
    · subst he
      simp only [List.mem_cons, true_or, if_true]
      simp only [hq, if_false, add_zero] at ih1
      rw [ih1]
      ring
    · have hne : ¬ path = q := fun h => he h.symm
      simp only [List.mem_cons, hne, false_or]
      rw [ih1, hother q he]
      ring

theorem UploadFilePart_full (m : inMemoryStorage) (path : String) (body : LimitedReader)
    (h : m.freeSpace < ((ReadAll body).1.length : Int)) :
    m.UploadFilePart path body = (some Error.notEnoughFreeSpace, m, (ReadAll body).2) := by
  simp only [inMemoryStorage.UploadFilePart, gt_iff_lt, h, if_true]

theorem UploadFilePart_fits (m : inMemoryStorage) (path : String) (body : LimitedReader)
    (h : ((ReadAll body).1.length : Int) ≤ m.freeSpace) :
    m.UploadFilePart path body =
      (none,
        { m with
          dataByPath := Function.update m.dataByPath path (some (ReadAll body).1)
          freeSpace := m.freeSpace - ((ReadAll body).1.length : Int) },
        (ReadAll body).2) := by
  have hn : ¬ m.freeSpace < ((ReadAll body).1.length : Int) := not_lt.2 h
  simp only [inMemoryStorage.UploadFilePart, gt_iff_lt, hn, if_false]

theorem UploadFilePart_accounted (m : inMemoryStorage) (c : Int) (path : String)
    (body : LimitedReader) (h : m.Accounted c) :
    (m.UploadFilePart path body).2.1.Accounted c := by
  by_cases hfit : ((ReadAll body).1.length : Int) ≤ m.freeSpace
  · rw [UploadFilePart_fits m path body hfit]
    simp only
    refine ⟨by simp only; omega, ?_⟩
    intro paths hnd
    have hupd := storedSize_update m
      { m with
        dataByPath := Function.update m.dataByPath path (some (ReadAll body).1)
        freeSpace := m.freeSpace - ((ReadAll body).1.length : Int) } path
      (by
        intro q hq
        simp [inMemoryStorage.blobSize, Function.update_noteq hq]) paths hnd
    have hnew : inMemoryStorage.blobSize
        { m with
          dataByPath := Function.update m.dataByPath path (some (ReadAll body).1)
          freeSpace := m.freeSpace - ((ReadAll body).1.length : Int) } path =
        ((ReadAll body).1.length : Int) := by
      simp [inMemoryStorage.blobSize]
    have hold := blobSize_nonneg m path
    have htot := h.total_le paths hnd
    rw [hupd, hnew]
    simp only
    by_cases hmem : path ∈ paths
    · simp only [hmem, if_true]
      omega
    · simp only [hmem, if_false]
      omega
  · rw [UploadFilePart_full m path body (not_le.1 hfit)]
    exact h

theorem DeleteFilePart_accounted (m : inMemoryStorage) (c : Int) (path : String)
    (h : m.Accounted c) : (m.DeleteFilePart path).2.Accounted c := by
  have hold := blobSize_nonneg m path
  have hsize : (((m.dataByPath path).getD []).length : Int) = m.blobSize path := rfl
  simp only [inMemoryStorage.DeleteFilePart, hsize]
  refine ⟨by simp only; have := h.free_nonneg; omega, ?_⟩
  intro paths hnd
  have hupd := storedSize_update m
    { m with
      dataByPath := Function.update m.dataByPath path none
      freeSpace := m.freeSpace + m.blobSize path } path
    (by
      intro q hq
      simp [inMemoryStorage.blobSize, Function.update_noteq hq]) paths hnd
  have hnew : inMemoryStorage.blobSize
      { m with
        dataByPath := Function.update m.dataByPath path none
        freeSpace := m.freeSpace + m.blobSize path } path = 0 := by
    simp [inMemoryStorage.blobSize]
  rw [hupd, hnew]
  simp only
  by_cases hmem : path ∈ paths
  · have htot := h.total_le paths hnd
    simp only [hmem, if_true]
    omega
  · have htot := h.total_le (path :: paths) (List.nodup_cons.2 ⟨hmem, hnd⟩)
    simp only [inMemoryStorage.storedSize, List.map_cons, List.sum_cons] at htot
    simp only [hmem, if_false, inMemoryStorage.storedSize]
    omega

theorem runStorageOps_accounted (c : Int) :
    ∀ (ops : List StorageOp) (m : inMemoryStorage), m.Accounted c →
      (runStorageOps m ops).Accounted c := by
  intro ops
  induction ops with
  | nil => intro m h; exact h
  | cons op ops ih =>
    intro m h
    cases op with
    | upload path body =>
      simp only [runStorageOps]
      exact ih _ (UploadFilePart_accounted m c path body h)
    | delete path =>
      simp only [runStorageOps]
      exact ih _ (DeleteFilePart_accounted m c path h)

theorem NewStorage_accounted (url : String) :
    (NewStorage url).Accounted defaultFreeSpaceInBytes := by
  have hz : ∀ paths : List String, (NewStorage url).storedSize paths = 0 := by
    intro paths
    induction paths with
    | nil => rfl
    | cons q qs ih =>
      simp only [inMemoryStorage.storedSize, List.map_cons, List.sum_cons] at ih ⊢
      rw [ih]
      simp [inMemoryStorage.blobSize, NewStorage]
  have hfree : (NewStorage url).freeSpace = defaultFreeSpaceInBytes := rfl
  refine ⟨?_, ?_⟩
  · rw [hfree]
    decide
  · intro paths _
    rw [hz, hfree, add_zero]

/-- C21: after every sequence of `UploadFilePart` and `DeleteFilePart` calls on a backend
made by `NewStorage` (free space 100 MiB), the free-space counter is not negative,
and for every finite set of paths the free space plus the total size of the blobs
stored at those paths is at most the initial 100 MiB; and in that state an
`UploadFilePart` whose data is larger than the free space returns the error
`not enough free space` and leaves the backend, blob map and free-space counter
included, as it was. -/
theorem storage_capacity_accounting (url : String) (ops : List StorageOp) :
    defaultFreeSpaceInBytes = 104857600 ∧
    (NewStorage url).freeSpace = defaultFreeSpaceInBytes ∧
    0 ≤ (runStorageOps (NewStorage url) ops).freeSpace ∧
    (∀ paths : List String, paths.Nodup →
      (runStorageOps (NewStorage url) ops).freeSpace +
        (runStorageOps (NewStorage url) ops).storedSize paths ≤ defaultFreeSpaceInBytes) ∧
    (∀ (path : String) (body : LimitedReader),
      (runStorageOps (NewStorage url) ops).freeSpace < ((ReadAll body).1.length : Int) →
      (runStorageOps (NewStorage url) ops).UploadFilePart path body =
        (some Error.notEnoughFreeSpace, runStorageOps (NewStorage url) ops,
          (ReadAll body).2) ∧
      ((runStorageOps (NewStorage url) ops).UploadFilePart path body).2.1.dataByPath =
        (runStorageOps (NewStorage url) ops).dataByPath ∧
      ((runStorageOps (NewStorage url) ops).UploadFilePart path body).2.1.freeSpace =
        (runStorageOps (NewStorage url) ops).freeSpace) := by
  have hacc := runStorageOps_accounted defaultFreeSpaceInBytes ops (NewStorage url)
    (NewStorage_accounted url)
  refine ⟨by decide, rfl, hacc.free_nonneg, hacc.total_le, ?_⟩
  intro path body hfull
  have h := UploadFilePart_full (runStorageOps (NewStorage url) ops) path body hfull
  rw [h]
  exact ⟨rfl, rfl, rfl⟩

/-- Witness of C21: after three bytes and then one byte were uploaded at `f`, the backend
stores one byte and its free space is 100 MiB less four bytes; an upload of one
byte more than 100 MiB fails and changes nothing. -/
theorem storage_capacity_accounting_witness :
    (runStorageOps (NewStorage "storage_0") overwriteOps).freeSpace = 104857596 ∧
    (runStorageOps (NewStorage "storage_0") overwriteOps).storedSize ["f", "g"] = 1 ∧
    (runStorageOps (NewStorage "storage_0") overwriteOps).freeSpace <
      ((ReadAll hugeBody).1.length : Int) ∧
    (runStorageOps (NewStorage "storage_0") overwriteOps).UploadFilePart "h" hugeBody =
      (some Error.notEnoughFreeSpace, runStorageOps (NewStorage "storage_0") overwriteOps,
        (ReadAll hugeBody).2) ∧
    0 ≤ (runStorageOps (NewStorage "storage_0") overwriteOps).freeSpace ∧
    (∀ paths : List String, paths.Nodup →
      (runStorageOps (NewStorage "storage_0") overwriteOps).freeSpace +
        (runStorageOps (NewStorage "storage_0") overwriteOps).storedSize paths ≤
          defaultFreeSpaceInBytes) := by
  have hfree : (runStorageOps (NewStorage "storage_0") overwriteOps).freeSpace = 104857596 := by
    decide
  have hlen : ((ReadAll hugeBody).1.length : Int) = 104857601 := by
    simp only [ReadAll, hugeBody, LimitReader, Int.toNat_ofNat, List.length_take,
      List.length_replicate, min_self]
    rfl
  have hlt : (runStorageOps (NewStorage "storage_0") overwriteOps).freeSpace <
      ((ReadAll hugeBody).1.length : Int) := by
    rw [hfree, hlen]
    decide
  have h := storage_capacity_accounting "storage_0" overwriteOps
  exact ⟨hfree, by decide, hlt, (h.2.2.2.2 "h" hugeBody hlt).1, h.2.2.1, h.2.2.2.1⟩

end Karma8
